import Mathlib

/-! # Cartographer: tile-grid addressing, viewport culling and level of detail

A shallow embedding of `src/js/app.js` (classes `Tile`, `Tileset`, `MapData` and the
viewer function `globalZoomLevelChanged`), followed by theorems about it.

Conventions of the embedding.
* JavaScript numbers are exact: extents and grid indices are integers, pixel sizes, zoom
  levels and positions are rationals.  Division by zero (`Infinity`/`NaN` in JavaScript) is
  outside the model.  Statements that hold for exact numbers only say so; for them the
  functions concerned are given a second time with the rounding of IEEE doubles (section
  on double-precision arithmetic) and evaluated there.
* `null`/`undefined` is `none`.  A JavaScript array is a list; reading past its end or at a
  negative index yields `none`.
* DOM state is reduced to what the code later reads back: the table of a tileset is the
  matrix of its cell contents plus its position, size and scale.  Style classes and event
  listeners are not modelled (the `tileset-change` and `table-rebuilt` listeners only
  refresh panels).
* A reference to a tileset object is the position of that object in `MapData.tilesets`;
  positions are permanent because tilesets are only appended or removed at the tail.
  Reading a field through a reference that designates no tileset of the array makes the
  function return `none`.  (In JavaScript a tileset removed from the array can still be
  read through an old reference; the theorems about `globalZoomLevelChanged` are stated
  for an overview reference that designates a tileset of the map.)
* A jQuery object is the list of the elements it holds: `.eq(i)` past the end gives the
  empty object, which is not `null`, and `.html(...)` on it changes nothing.
* Markers are values; where the source finds a marker object with `indexOf`, the
  position of the marker is an argument.  The stylesheet is not part of the sources: the
  place where a marker element is displayed follows the layer model of the spec.
-/

namespace Cartographer

/-! ## Tile -/

/-- One tile of a grid.  `_src` is the image source of a local (not yet saved) image. -/
structure Tile where
  _src : Option String
deriving DecidableEq, Repr

/-- Source `Tile.fromData(data)`: a fresh tile when `data` is truthy, `null` otherwise. -/
def Tile.fromData (data : Bool) : Option Tile :=
  if data then some { _src := none } else none

/-- Source `Tile.fromSrc(imgSrc)`: a tile showing a local image. -/
def Tile.fromSrc (imgSrc : String) : Tile :=
  { _src := some imgSrc }

/-! ## Environment read by the tileset methods -/

/-- The four directions accepted by `expand` (`dir is 'W' 'E' 'N' 'S'`). -/
inductive Dir where
  | N | S | W | E
deriving DecidableEq, Repr

/-- Global viewer state read by the rendering code: the size and page offset of the
`$renderer` element, the global origin, the global zoom level and the map name. -/
structure Globals where
  rendererWidth : ℚ
  rendererHeight : ℚ
  rendererLeft : ℚ
  rendererTop : ℚ
  globalOriginX : ℚ
  globalOriginY : ℚ
  globalZoomLevel : ℚ
  currentMapName : String
deriving DecidableEq

/-- The value returned by `computeRenderArea`. -/
structure RenderArea where
  firstRow : Int
  numRows : Int
  firstCol : Int
  numCols : Int
  posX : ℚ
  posY : ℚ
deriving DecidableEq

/-- Content written in a table cell by `renderTableCell`: an image or the upload button. -/
inductive CellHtml where
  | img (src : String)
  | uploadButton
deriving DecidableEq, Repr

/-- The rendered table of a tileset (`$table`): its cells and the style values set on it. -/
structure Table where
  cells : List (List CellHtml)
  width : ℚ
  height : ℚ
  zIndex : Nat
  dataIndex : Nat
  left : ℚ
  top : ℚ
  scale : ℚ
deriving DecidableEq

/-! ## Tileset -/

/-- A tileset: the grid, the four extents around the origin, the geometry and the
rendering state. -/
structure Tileset where
  grid : List (List (Option Tile))
  sizeW : Int
  sizeE : Int
  sizeN : Int
  sizeS : Int
  zoomLevel : ℚ
  tileWidth : ℚ
  tileHeight : ℚ
  offsetX : ℚ
  offsetY : ℚ
  _index : Nat
  _zOrder : Nat
  table : Option Table
  _renderArea : Option RenderArea
  _visible : Bool
deriving DecidableEq

/-- JavaScript array read `arr[i]` for an integer `i`. -/
def arrGet {α : Type} (arr : List α) (i : Int) : Option α :=
  if i < 0 then none else arr[i.toNat]?

namespace Tileset

/-- Field defaults of `class Tileset` with an empty grid, index and order as given. -/
def default (index : Nat) : Tileset :=
  { grid := [], sizeW := 0, sizeE := 1, sizeN := 0, sizeS := 1, zoomLevel := 100,
    tileWidth := 512, tileHeight := 512, offsetX := 0, offsetY := 0,
    _index := index, _zOrder := 0, table := none, _renderArea := none, _visible := false }

def numRows (t : Tileset) : Int := t.sizeN + t.sizeS

def numCols (t : Tileset) : Int := t.sizeW + t.sizeE

def getDisplayScale (g : Globals) (t : Tileset) : ℚ := g.globalZoomLevel / t.zoomLevel

def isVisible (t : Tileset) : Bool := t._visible

def getScaledTileWidth (g : Globals) (t : Tileset) : ℚ := t.tileWidth * t.getDisplayScale g

def getScaledTileHeight (g : Globals) (t : Tileset) : ℚ := t.tileHeight * t.getDisplayScale g

/-- Source `remove()`: drops the table if there is one. -/
def remove (t : Tileset) : Tileset := { t with table := none }

/-- Source `setVisible(newVisible)`. -/
def setVisible (newVisible : Bool) (t : Tileset) : Tileset :=
  let t1 := { t with _visible := newVisible }
  if !newVisible && t1.table.isSome then t1.remove else t1

/-- Source `setZOrder(newZOrder)`. -/
def setZOrder (newZOrder : Nat) (t : Tileset) : Tileset :=
  { t with _zOrder := newZOrder,
           table := t.table.map (fun tb => { tb with zIndex := newZOrder }) }

/-- Source `fullTableX` of `computeRenderArea`: left edge of the virtual full table, relative
to the rendering container. -/
def fullTableX (g : Globals) (t : Tileset) : ℚ :=
  g.globalOriginX + t.offsetX * t.getDisplayScale g - t.getScaledTileWidth g * t.sizeW

/-- Source `fullTableY` of `computeRenderArea`: top edge of the virtual full table. -/
def fullTableY (g : Globals) (t : Tileset) : ℚ :=
  g.globalOriginY + t.offsetY * t.getDisplayScale g - t.getScaledTileHeight g * t.sizeN

/-- Source `computeRenderArea()`: which part of the table needs to be rendered. -/
def computeRenderArea (g : Globals) (t : Tileset) : RenderArea :=
  let renderSizeX := g.rendererWidth
  let renderSizeY := g.rendererHeight
  let scaledCellSizeX := t.getScaledTileWidth g
  let scaledCellSizeY := t.getScaledTileHeight g
  let fullTableX := t.fullTableX g
  let fullTableY := t.fullTableY g
  let firstCol : Int := if fullTableX < 0 then ⌊-fullTableX / scaledCellSizeX⌋ else 0
  let firstRow : Int := if fullTableY < 0 then ⌊-fullTableY / scaledCellSizeY⌋ else 0
  let posX := fullTableX + firstCol * scaledCellSizeX
  let posY := fullTableY + firstRow * scaledCellSizeY
  { firstRow := firstRow
    numRows := min ⌈(renderSizeY - posY) / scaledCellSizeY⌉ (t.numRows - firstRow)
    firstCol := firstCol
    numCols := min ⌈(renderSizeX - posX) / scaledCellSizeX⌉ (t.numCols - firstCol)
    posX := posX
    posY := posY }

/-- Source `getTileAt(row, col)`: `this.grid[row] && this.grid[row][col]`. -/
def getTileAt (t : Tileset) (row col : Int) : Option Tile :=
  match arrGet t.grid row with
  | none => none
  | some gridRow => (arrGet gridRow col).join

/-- Source `getTileImageName(row, col)`. -/
def getTileImageName (t : Tileset) (row col : Int) : String :=
  toString (row - t.sizeN) ++ "_" ++ toString (col - t.sizeW) ++ ".webp"

/-- Source `getTileImageUrl(tileset, row, col)`. -/
def getTileImageUrl (g : Globals) (t : Tileset) (row col : Int) : String :=
  "data/" ++ g.currentMapName ++ "/" ++ toString t._index ++ "/" ++ t.getTileImageName row col

/-- Source `getTileImageSrc(row, col)`: the local source when it is a non-empty string, the
image url otherwise; `none` when there is no tile. -/
def getTileImageSrc (g : Globals) (t : Tileset) (row col : Int) : Option String :=
  match t.getTileAt row col with
  | none => none
  | some tile =>
    match tile._src with
    | some s => if s ≠ "" then some s else some (getTileImageUrl g t row col)
    | none => some (getTileImageUrl g t row col)

/-- Source `renderTableCell(row, col)`. -/
def renderTableCell (g : Globals) (t : Tileset) (row col : Int) : CellHtml :=
  match t.getTileImageSrc g row col with
  | some src => if src ≠ "" then CellHtml.img src else CellHtml.uploadButton
  | none => CellHtml.uploadButton

/-- Source `renderTableArea(renderArea)`: rebuilds the table for the given area.  The style
values `left`, `top` and `scale` are set by the caller right after. -/
def renderTableArea (g : Globals) (renderArea : RenderArea) (t : Tileset) : Tileset :=
  let cells := (List.range renderArea.numRows.toNat).map (fun (r : Nat) =>
    (List.range renderArea.numCols.toNat).map (fun (c : Nat) =>
      t.renderTableCell g (renderArea.firstRow + (r : Int)) (renderArea.firstCol + (c : Int))))
  { t with
    table := some { cells := cells
                    width := renderArea.numCols * t.tileWidth
                    height := renderArea.numRows * t.tileHeight
                    zIndex := t._zOrder
                    dataIndex := t._index
                    left := 0, top := 0, scale := 1 }
    _renderArea := some renderArea }

/-- The test of `updateRenderArea` on the stored area: some bound differs.  A table is
only ever created together with a stored area, so the case of a table without stored
area does not arise; it is counted as a difference. -/
def areaBoundsDiffer (newArea : RenderArea) (old : Option RenderArea) : Bool :=
  match old with
  | none => true
  | some a =>
    newArea.firstRow != a.firstRow || newArea.numRows != a.numRows
      || newArea.firstCol != a.firstCol || newArea.numCols != a.numCols

/-- Source `updateRenderArea(bRedraw)`. -/
def updateRenderArea (g : Globals) (bRedraw : Bool) (t : Tileset) : Tileset :=
  let newRenderArea := t.computeRenderArea g
  let t1 :=
    if bRedraw || t.table.isNone || areaBoundsDiffer newRenderArea t._renderArea then
      t.renderTableArea g newRenderArea
    else t
  { t1 with
    _renderArea := some newRenderArea
    table := t1.table.map (fun tb =>
      { tb with left := newRenderArea.posX, top := newRenderArea.posY,
                scale := t.getDisplayScale g }) }

/-- Source `render(bRedraw)`. -/
def render (g : Globals) (bRedraw : Bool) (t : Tileset) : Tileset :=
  if t.isVisible then t.updateRenderArea g bRedraw else t

/-- The assignment `this['size'+dir] = v`. -/
def setSize (dir : Dir) (v : Int) (t : Tileset) : Tileset :=
  match dir with
  | Dir.N => { t with sizeN := v }
  | Dir.S => { t with sizeS := v }
  | Dir.W => { t with sizeW := v }
  | Dir.E => { t with sizeE := v }

/-- The read `this['size'+dir]`. -/
def getSize (dir : Dir) (t : Tileset) : Int :=
  match dir with
  | Dir.N => t.sizeN
  | Dir.S => t.sizeS
  | Dir.W => t.sizeW
  | Dir.E => t.sizeE

/-- The loop `for (let i=0; i<amount; i++) arr.splice(0,0,x)`. -/
def spliceFront {α : Type} (x : α) : Nat → List α → List α
  | 0, arr => arr
  | amount + 1, arr => spliceFront x amount (x :: arr)

/-- Source `expand(dir, amount)`: the extent of `dir` is incremented (`this[propName]++`), then
for north `amount` empty rows are inserted at the front of the grid, for west `amount`
empty cells at the front of every row; then the tileset is rendered. -/
def expand (g : Globals) (dir : Dir) (amount : Nat) (t : Tileset) : Tileset :=
  let t1 := t.setSize dir (t.getSize dir + 1)
  let t2 :=
    match dir with
    | Dir.N => { t1 with grid := spliceFront [] amount t1.grid }
    | Dir.W => { t1 with grid := t1.grid.map (fun row => spliceFront none amount row) }
    | _ => t1
  t2.render g false

/-- The `while` loop of `trimHelper` inside `trim`, with a bound on the number of
iterations.  Each iteration decrements the extent, so `(extent - minValue).toNat`
iterations are always enough (`trimLoop_fuel`). -/
def trimLoop (dir : Dir) (minValue : Int) (tileCount : Int)
    (tileGetterFn : Tileset → Int → Option Tile) (removeFn : Tileset → Tileset) :
    Nat → Tileset → Tileset
  | 0, t => t
  | fuel + 1, t =>
    if t.getSize dir > minValue then
      if (List.range tileCount.toNat).any (fun (i : Nat) => (tileGetterFn t (i : Int)).isSome) then t
      else
        let t1 := removeFn t
        trimLoop dir minValue tileCount tileGetterFn removeFn fuel
          (t1.setSize dir (t1.getSize dir - 1))
    else t

/-- Source `trimHelper(propName, minValue, tileCount, tileGetterFn, removeFn)`. -/
def trimHelper (dir : Dir) (minValue : Int) (tileCount : Int)
    (tileGetterFn : Tileset → Int → Option Tile) (removeFn : Tileset → Tileset)
    (t : Tileset) : Tileset :=
  trimLoop dir minValue tileCount tileGetterFn removeFn (t.getSize dir - minValue).toNat t

/-- Removal step for north: `this.grid.shift()`. -/
def removeNorth (t : Tileset) : Tileset := { t with grid := t.grid.tail }

/-- Removal step for south: `this.grid[this.numRows()-1] && this.grid.pop()`. -/
def removeSouth (t : Tileset) : Tileset :=
  if (arrGet t.grid (t.numRows - 1)).isSome then { t with grid := t.grid.dropLast } else t

/-- Removal step for west: `row && row.shift()` for every row. -/
def removeWest (t : Tileset) : Tileset := { t with grid := t.grid.map List.tail }

/-- Removal step for east: `row && row[this.numCols()-1] && row.pop()` for every row. -/
def removeEast (t : Tileset) : Tileset :=
  { t with grid := t.grid.map (fun row =>
      if (arrGet row (t.numCols - 1)).join.isSome then row.dropLast else row) }

/-- The four passes of `trim()` on the grid and extents, before the final render. -/
def trimGrid (t : Tileset) : Tileset :=
  let t1 := trimHelper Dir.N 0 t.numCols (fun s i => s.getTileAt 0 i) removeNorth t
  let t2 := trimHelper Dir.S 1 t1.numCols (fun s i => s.getTileAt (s.numRows - 1) i) removeSouth t1
  let t3 := trimHelper Dir.W 0 t2.numRows (fun s i => s.getTileAt i 0) removeWest t2
  trimHelper Dir.E 1 t3.numRows (fun s i => s.getTileAt i (s.numCols - 1)) removeEast t3

/-- Source `trim()`: reduces the grid to the used area, then renders. -/
def trim (g : Globals) (t : Tileset) : Tileset :=
  (trimGrid t).render g false

/-- Source `isEmpty()`. -/
def isEmpty (t : Tileset) : Bool :=
  t.grid.all (fun row => row.all (fun col => col.isNone))

end Tileset

/-! ## Markers -/

/-- A marker placed on the map, in pixels at 100% zoom relative to the origin. -/
structure Marker where
  x : ℚ
  y : ℚ
  info : Option String
deriving DecidableEq

/-- The image element rendered for a marker by `renderMarker`. -/
structure MarkerElement where
  src : String
  title : String
  left : ℚ
  top : ℚ
  scale : ℚ
deriving DecidableEq

/-- The layer of an icon type (`$layer`): its index attribute, whether it carries the
class `d-none`, and its child elements. -/
structure Layer where
  dataIndex : Nat
  hidden : Bool
  children : List MarkerElement
deriving DecidableEq

/-- An icon type with its markers and its layer. -/
structure MarkerIconDefinition where
  imageUri : String
  name : String
  zoomLevel : ℚ
  markers : List Marker
  _index : Nat
  layer : Option Layer
  _enabled : Bool
  _visible : Bool
deriving DecidableEq

namespace MarkerIconDefinition

def isEnabled (icon : MarkerIconDefinition) : Bool := icon._enabled

def isVisible (icon : MarkerIconDefinition) : Bool := icon._visible

/-- The element built by `renderMarker` for one marker. -/
def markerElement (g : Globals) (icon : MarkerIconDefinition) (marker : Marker) :
    MarkerElement :=
  { src := icon.imageUri
    title := match marker.info with
      | some info => if info ≠ "" then icon.name ++ "<br>" ++ info else icon.name
      | none => icon.name
    left := marker.x
    top := marker.y
    scale := 100 / g.globalZoomLevel }

/-- Source `renderLayer()`: toggles the class `d-none` of an existing layer, or creates the
layer with all markers when it has to be shown for the first time. -/
def renderLayer (g : Globals) (icon : MarkerIconDefinition) : MarkerIconDefinition :=
  let shown := icon.isEnabled && icon.isVisible
  match icon.layer with
  | some layer => { icon with layer := some { layer with hidden := !shown } }
  | none =>
    if shown then
      { icon with layer := some { dataIndex := icon._index, hidden := false,
                                  children := icon.markers.map (icon.markerElement g) } }
    else icon

/-- Source `setEnabled(newEnabled)`. -/
def setEnabled (g : Globals) (newEnabled : Bool) (icon : MarkerIconDefinition) :
    MarkerIconDefinition :=
  renderLayer g { icon with _enabled := newEnabled }

/-- Source `setVisible(newVisible)`. -/
def setVisible (g : Globals) (newVisible : Bool) (icon : MarkerIconDefinition) :
    MarkerIconDefinition :=
  renderLayer g { icon with _visible := newVisible }

end MarkerIconDefinition

/-! ## Map and viewer state -/

/-- The map: its tilesets, its icon types and the cached reference to the overview
tileset (a position in `tilesets`). -/
structure MapData where
  tilesets : List Tileset
  bgColor : String
  icons : List MarkerIconDefinition
  _overview : Option Nat
deriving DecidableEq

/-- The viewer: globals, current map, the reference `currentTileset`, and the style
values set on the `$origin` and `$markers` elements. -/
structure Viewer where
  globals : Globals
  currentMap : Option MapData
  currentTileset : Option Nat
  originLeft : ℚ
  originTop : ℚ
  markersLeft : ℚ
  markersTop : ℚ
  markersScalePercent : ℚ
deriving DecidableEq

/-- The visibility chosen by `globalZoomLevelChanged` for one tileset; `isOverview`
is the outcome of `tileset == currentMap._overview`. -/
def lodVisible (g : Globals) (isOverview : Bool) (t : Tileset) : Bool :=
  if isOverview then true
  else if t.getDisplayScale g > 0.7 then true
  else if t.getScaledTileWidth g > 0.5 * g.rendererWidth
      ∧ t.getScaledTileHeight g > 0.5 * g.rendererHeight then true
  else false

/-- The first part of the loop body of `globalZoomLevelChanged` for the tileset at
position `i`: the visibility is set, then the tileset is rendered. -/
def lodStep (g : Globals) (overview : Option Nat) (i : Nat) (tileset : Tileset) : Tileset :=
  (tileset.setVisible (lodVisible g (decide (some i = overview)) tileset)).render g false

/-- The tileset loop of `globalZoomLevelChanged`, from position `i` on, for at most `n`
more tilesets.  `best` is `bestTileset`.  The result is `none` when `bestTileset._zOrder`
is read while `bestTileset` does not refer to a tileset of the array. -/
def zoomLoop (g : Globals) (overview : Option Nat) :
    Nat → Nat → List Tileset → Option Nat → Option (List Tileset × Option Nat)
  | 0, _, tilesets, best => some (tilesets, best)
  | n + 1, i, tilesets, best =>
    match tilesets[i]? with
    | none => some (tilesets, best)
    | some tileset =>
      let tileset1 := lodStep g overview i tileset
      let tilesets1 := tilesets.set i tileset1
      if tileset1.isVisible then
        match best.bind (fun b => tilesets1[b]?) with
        | none => none
        | some bestTileset =>
          zoomLoop g overview n (i + 1) tilesets1
            (if tileset1._zOrder > bestTileset._zOrder then some i else best)
      else zoomLoop g overview n (i + 1) tilesets1 best

/-- The marker part of `globalZoomLevelChanged`: every icon type is made visible or not
by its zoom level, then every marker image gets the inverse scale. -/
def zoomIcons (g : Globals) (icons : List MarkerIconDefinition) : List MarkerIconDefinition :=
  let icons1 := icons.map (fun icon =>
    icon.setVisible g (decide (g.globalZoomLevel ≥ icon.zoomLevel)))
  icons1.map (fun icon =>
    { icon with layer := icon.layer.map (fun layer =>
        { layer with children := layer.children.map (fun el =>
            { el with scale := 100 / g.globalZoomLevel }) }) })

/-- Source `globalZoomLevelChanged()`. -/
def globalZoomLevelChanged (v : Viewer) : Option Viewer :=
  let g := v.globals
  let v1 := { v with originLeft := g.globalOriginX, originTop := g.globalOriginY }
  match v1.currentMap with
  | none => some v1
  | some currentMap =>
    match zoomLoop g currentMap._overview currentMap.tilesets.length 0 currentMap.tilesets
        currentMap._overview with
    | none => none
    | some (tilesets, bestTileset) =>
      some { v1 with
        currentMap := some { currentMap with tilesets := tilesets
                                             icons := zoomIcons g currentMap.icons }
        currentTileset := bestTileset
        markersLeft := g.globalOriginX
        markersTop := g.globalOriginY
        markersScalePercent := g.globalZoomLevel }

/-! ## Spec-level helpers and properties used in the statements -/

/-- Modelled from the spec: `pixelOf(tileset, row, col)`, the pixel position of a cell in
the own 100%-scale units of the tileset (the same expression is written in the debug
block of `renderTableCell`). -/
def pixelOf (t : Tileset) (row col : Int) : ℚ × ℚ :=
  (t.offsetX + (col - t.sizeW) * t.tileWidth, t.offsetY + (row - t.sizeN) * t.tileHeight)

/-- Globals used for the concrete evaluations: an 800 x 600 renderer at the page
origin, global origin `(0, 0)`, zoom 100. -/
def sampleGlobals : Globals :=
  { rendererWidth := 800, rendererHeight := 600, rendererLeft := 0, rendererTop := 0,
    globalOriginX := 0, globalOriginY := 0, globalZoomLevel := 100, currentMapName := "map" }

/-- A tileset with the default extents and a single tile, at the origin cell. -/
def singleTile : Tileset :=
  { Tileset.default 0 with grid := [[Tile.fromData true]] }

/-- Every present tile lies inside the bounds of the tileset:
`0 <= row < numRows()` and `0 <= col < numCols()`. -/
def InBounds (t : Tileset) : Prop :=
  ∀ row col : Int, (t.getTileAt row col).isSome →
    0 ≤ row ∧ row < t.numRows ∧ 0 ≤ col ∧ col < t.numCols

/-- Executable form of `InBounds`: every stored cell that holds a tile is inside the
bounds. -/
def tilesInBounds (t : Tileset) : Bool :=
  (List.range t.grid.length).all (fun (r : Nat) =>
    (List.range ((t.grid[r]?).getD []).length).all (fun (c : Nat) =>
      (t.getTileAt (r : Int) (c : Int)).isNone
        || (decide ((r : Int) < t.numRows) && decide ((c : Int) < t.numCols))))

/-- The tile at the origin-relative coordinates `(y, x) = (row - sizeN, col - sizeW)`. -/
def relTileAt (t : Tileset) (y x : Int) : Option Tile :=
  t.getTileAt (y + t.sizeN) (x + t.sizeW)

/-- The origin-relative coordinates `(row - sizeN, col - sizeW)` of the present tiles. -/
def relCoordsOfTiles (t : Tileset) : Set (Int × Int) :=
  {p | ∃ row col : Int, (t.getTileAt row col).isSome ∧ p = (row - t.sizeN, col - t.sizeW)}

/-- The loop tests of `trim` all fail at once: every extent is at (or below) its minimum
or the row or column inspected by `trimHelper` holds a tile. -/
def nothingToTrim (t : Tileset) : Bool :=
  (decide (t.sizeN ≤ 0)
      || (List.range t.numCols.toNat).any (fun (i : Nat) => (t.getTileAt 0 (i : Int)).isSome))
  && (decide (t.sizeS ≤ 1)
      || (List.range t.numCols.toNat).any
          (fun (i : Nat) => (t.getTileAt (t.numRows - 1) (i : Int)).isSome))
  && (decide (t.sizeW ≤ 0)
      || (List.range t.numRows.toNat).any (fun (i : Nat) => (t.getTileAt (i : Int) 0).isSome))
  && (decide (t.sizeE ≤ 1)
      || (List.range t.numRows.toNat).any
          (fun (i : Nat) => (t.getTileAt (i : Int) (t.numCols - 1)).isSome))

/-- A tileset with a margin of empty cells around its single tile: extents
north 1, south 2, west 1, east 2, the tile at cell `(1, 1)`. -/
def marginTile : Tileset :=
  { Tileset.default 0 with
    sizeN := 1, sizeS := 2, sizeW := 1, sizeE := 2
    grid := [[], [none, Tile.fromData true], []] }

/-- The single-tile tileset with one more, empty, column to the east. -/
def wideTile : Tileset :=
  { Tileset.default 0 with sizeE := 2, grid := [[Tile.fromData true]] }

/-- A tileset of two rows, one north of the origin, with a tile in each. -/
def tallTile : Tileset :=
  { Tileset.default 0 with sizeN := 1, grid := [[Tile.fromData true], [Tile.fromData true]] }

/-- The screen interval `[lo, hi)` of a cell overlaps the viewport interval `(0, size)`:
the interval overlap test `lo < size` and `0 < hi`.  For `lo < hi` and `0 < size` this
is the same as the two intervals sharing a point (`overlapsViewport_iff_common_point`). -/
def overlapsViewport (lo hi size : ℚ) : Prop := lo < size ∧ 0 < hi

/-- The `_zOrder` of the tileset at position `j` (`0` when there is none). -/
def zOrderAt (tilesets : List Tileset) (j : Nat) : Nat :=
  ((tilesets[j]?).map (fun t => t._zOrder)).getD 0

/-- Whether the tileset at position `j` is visible (`false` when there is none). -/
def visibleAt (tilesets : List Tileset) (j : Nat) : Bool :=
  ((tilesets[j]?).map (fun t => t._visible)).getD false

/-- The tileset of the level-of-detail example with the given zoom level, index and
order. -/
def lodTileset (zoomLevel : ℚ) (index : Nat) : Tileset :=
  { Tileset.default index with zoomLevel := zoomLevel, _zOrder := index }

/-- The level-of-detail example: tilesets at zoom levels 1, 16 and 100, the first one
being the overview, seen at global zoom 50 in an 800 x 600 renderer. -/
def lodMap : MapData :=
  { tilesets := [lodTileset 1 0, lodTileset 16 1, lodTileset 100 2]
    bgColor := "#111", icons := [], _overview := some 0 }

/-- The viewer of the level-of-detail example. -/
def lodViewer : Viewer :=
  { globals := { sampleGlobals with globalZoomLevel := 50 }
    currentMap := some lodMap
    currentTileset := none
    originLeft := 0, originTop := 0, markersLeft := 0, markersTop := 0
    markersScalePercent := 100 }

/-! ## Saved data and construction -/

/-- Saved data of a tileset, as read by `Tileset.fromData`: every key may be missing.
The grid is saved as rows of 0 and 1. -/
structure TilesetData where
  grid : Option (List (List Bool))
  sizeW : Option Int
  sizeE : Option Int
  sizeN : Option Int
  sizeS : Option Int
  zoomLevel : Option ℚ
  tileWidth : Option ℚ
  tileHeight : Option ℚ
  offsetX : Option ℚ
  offsetY : Option ℚ
deriving DecidableEq

/-- The saved data `{}`. -/
def TilesetData.empty : TilesetData :=
  { grid := none, sizeW := none, sizeE := none, sizeN := none, sizeS := none,
    zoomLevel := none, tileWidth := none, tileHeight := none, offsetX := none,
    offsetY := none }

/-- Source `Tileset.fromData(data, index)`: the class defaults overwritten by the keys of
`data`, the given index, and the grid rebuilt with `Tile.fromData`. -/
def Tileset.fromData (data : TilesetData) (index : Nat) : Tileset :=
  { grid := (data.grid.getD []).map (fun row => row.map Tile.fromData)
    sizeW := data.sizeW.getD 0
    sizeE := data.sizeE.getD 1
    sizeN := data.sizeN.getD 0
    sizeS := data.sizeS.getD 1
    zoomLevel := data.zoomLevel.getD 100
    tileWidth := data.tileWidth.getD 512
    tileHeight := data.tileHeight.getD 512
    offsetX := data.offsetX.getD 0
    offsetY := data.offsetY.getD 0
    _index := index
    _zOrder := 0
    table := none
    _renderArea := none
    _visible := false }

/-- Saved data of a marker. -/
structure MarkerData where
  x : ℚ
  y : ℚ
  info : Option String
deriving DecidableEq

/-- Source `Marker.fromData(data)`. -/
def Marker.fromData (data : MarkerData) : Marker :=
  { x := data.x, y := data.y, info := data.info }

/-- Saved data of an icon type, as read by `MarkerIconDefinition.fromData`. -/
structure IconData where
  imageUri : Option String
  name : Option String
  zoomLevel : Option ℚ
  markers : Option (List MarkerData)
deriving DecidableEq

/-- Source `MarkerIconDefinition.fromData(data, index)`. -/
def MarkerIconDefinition.fromData (data : IconData) (index : Nat) : MarkerIconDefinition :=
  { imageUri := data.imageUri.getD ""
    name := data.name.getD ""
    zoomLevel := data.zoomLevel.getD 0
    markers := (data.markers.getD []).map Marker.fromData
    _index := index
    layer := none
    _enabled := false
    _visible := true }

/-- Source `setIndex(newIndex)` of an icon type. -/
def MarkerIconDefinition.setIndex (newIndex : Nat) (icon : MarkerIconDefinition) :
    MarkerIconDefinition :=
  { icon with _index := newIndex
              layer := icon.layer.map (fun layer => { layer with dataIndex := newIndex }) }

/-- Source `removeLayer()` of an icon type. -/
def MarkerIconDefinition.removeLayer (icon : MarkerIconDefinition) : MarkerIconDefinition :=
  { icon with layer := none }

/-- The call `arr.map(f)` of JavaScript where `f` also receives the index: the
elements of `arr` mapped with their positions, counted from `start`. -/
def mapWithIndex {α β : Type} (f : α → Nat → β) : Nat → List α → List β
  | _, [] => []
  | start, a :: arr => f a start :: mapWithIndex f (start + 1) arr

/-- The update `arr[p] = f(arr[p])` of one element in place; nothing happens when `p`
is not a position of the array. -/
def modifyAt {α : Type} (f : α → α) (p : Nat) (arr : List α) : List α :=
  match arr[p]? with
  | some a => arr.set p (f a)
  | none => arr

/-- Insertion step of `toSorted`: `a`, which preceded every element of the sorted list
in the original array, goes before the first element `b` with `compareFn(a, b) <= 0`. -/
def toSortedInsert {α : Type} (compareFn : α → α → ℚ) (a : α) : List α → List α
  | [] => [a]
  | b :: arr => if compareFn a b ≤ 0 then a :: b :: arr else b :: toSortedInsert compareFn a arr

/-- The built-in `Array.prototype.toSorted(compareFn)` of JavaScript, a stable sort:
elements are ordered by the sign of `compareFn`, and elements that compare equal keep
their original order. -/
def toSorted {α : Type} (compareFn : α → α → ℚ) : List α → List α
  | [] => []
  | a :: arr => toSortedInsert compareFn a (toSorted compareFn arr)

/-- The `zoomLevel` of the tileset at position `p` (`0` when there is none). -/
def zoomLevelAt (tilesets : List Tileset) (p : Nat) : ℚ :=
  ((tilesets[p]?).map (fun t => t.zoomLevel)).getD 0

/-- The loop `for (i...) sorted[i].setZOrder(i)` of `updateTilesetOrder`, from index `i`
on; `sorted` holds references (positions) to the tilesets. -/
def assignZOrder : List Nat → Nat → List Tileset → List Tileset
  | [], _, tilesets => tilesets
  | p :: sorted, i, tilesets =>
    assignZOrder sorted (i + 1) (modifyAt (Tileset.setZOrder i) p tilesets)

namespace MapData

/-- The array `sorted` of `updateTilesetOrder`: the references to the tilesets, sorted
with the comparison `(a,b) => a.zoomLevel-b.zoomLevel`. -/
def sortedTilesets (m : MapData) : List Nat :=
  toSorted (fun a b => zoomLevelAt m.tilesets a - zoomLevelAt m.tilesets b)
    (List.range m.tilesets.length)

/-- Source `updateTilesetOrder()`. -/
def updateTilesetOrder (m : MapData) : MapData :=
  let sorted := m.sortedTilesets
  { m with tilesets := assignZOrder sorted 0 m.tilesets
           _overview := sorted[0]? }

end MapData

/-- Saved data of a map, as read by `MapData.fromData`. -/
structure MapDataInput where
  tilesets : Option (List TilesetData)
  bgColor : Option String
  icons : Option (List IconData)
deriving DecidableEq

namespace MapData

/-- Source `MapData.fromData(data)`. -/
def fromData (data : MapDataInput) : MapData :=
  updateTilesetOrder
    { tilesets := mapWithIndex Tileset.fromData 0 (data.tilesets.getD [TilesetData.empty])
      bgColor := data.bgColor.getD "#111"
      icons := mapWithIndex MarkerIconDefinition.fromData 0 (data.icons.getD [])
      _overview := none }

/-- Source `createNewTileset(zoomLevel)`: the new map and the reference to the new
tileset. -/
def createNewTileset (zoomLevel : ℚ) (m : MapData) : MapData × Nat :=
  let tileset := Tileset.fromData { TilesetData.empty with zoomLevel := some zoomLevel }
    m.tilesets.length
  (updateTilesetOrder { m with tilesets := m.tilesets ++ [tileset] }, m.tilesets.length)

/-- The loop of `cullEmptyTilesets`, for at most `n` iterations: while the last tileset
exists and is empty, it is removed. -/
def cullLoop : Nat → List Tileset → List Tileset
  | 0, tilesets => tilesets
  | n + 1, tilesets =>
    match tilesets.getLast? with
    | none => tilesets
    | some tileset => if tileset.isEmpty then cullLoop n tilesets.dropLast else tilesets

/-- Source `cullEmptyTilesets()`.  Each iteration shortens the array, so its length
bounds the number of iterations. -/
def cullEmptyTilesets (m : MapData) : MapData :=
  { m with tilesets := cullLoop m.tilesets.length m.tilesets }

/-- Source `createNewIcon(iconData)`: the new map and the reference to the new icon. -/
def createNewIcon (g : Globals) (iconData : IconData) (m : MapData) : MapData × Nat :=
  let icon := MarkerIconDefinition.fromData iconData m.icons.length
  ({ m with icons := m.icons ++ [icon.setEnabled g true] }, m.icons.length)

/-- The loop `for (let i=iconIndex; i<this.icons.length; i++) this.icons[i].setIndex(i)`
of `removeIcon`, for `n` iterations from `i`. -/
def setIndexLoop : Nat → Nat → List MarkerIconDefinition → List MarkerIconDefinition
  | 0, _, icons => icons
  | n + 1, i, icons =>
    setIndexLoop n (i + 1) (modifyAt (MarkerIconDefinition.setIndex i) i icons)

end MapData

/-- The argument `iconOrIndex` of `removeIcon`: a number, or an icon object, given by
its position in `icons` (`none` for an object that is not in the array). -/
inductive IconOrIndex where
  | index (i : Int)
  | icon (position : Option Nat)
deriving DecidableEq

namespace MapData

/-- Source `removeIcon(iconOrIndex)`.  The result is `none` when `this.icons[iconIndex]`
is undefined (a number past the end of the array). -/
def removeIcon (iconOrIndex : IconOrIndex) (m : MapData) : Option MapData :=
  let iconIndex : Int :=
    match iconOrIndex with
    | IconOrIndex.index i => i
    | IconOrIndex.icon (some p) => if p < m.icons.length then (p : Int) else -1
    | IconOrIndex.icon none => -1
  if iconIndex ≥ 0 then
    match m.icons[iconIndex.toNat]? with
    | none => none
    | some _ =>
      let icons1 := m.icons.eraseIdx iconIndex.toNat
      some { m with icons :=
        setIndexLoop (icons1.length - iconIndex.toNat) iconIndex.toNat icons1 }
  else some m

end MapData

/-- The value returned by `getCellAt`. -/
structure Cell where
  row : Int
  col : Int
deriving DecidableEq, Repr

/-- Source `getCellAt(clientX, clientY)`: `(row, col)` from client coordinates.  The
result is `none` when there is no stored render area. -/
def Tileset.getCellAt (g : Globals) (t : Tileset) (clientX clientY : ℚ) : Option Cell :=
  match t._renderArea with
  | none => none
  | some renderArea =>
    let relX := clientX - g.rendererLeft - renderArea.posX
    let relY := clientY - g.rendererTop - renderArea.posY
    some { col := renderArea.firstCol + ⌊relX / t.getScaledTileWidth g⌋
           row := renderArea.firstRow + ⌊relY / t.getScaledTileHeight g⌋ }

/-- The order of a stable ascending sort by `zoomLevel`: the tileset at position `p`
comes before the one at position `q` when its zoom level is lower, or equal with
`p < q`. -/
def rankBefore (tilesets : List Tileset) (p q : Nat) : Prop :=
  zoomLevelAt tilesets p < zoomLevelAt tilesets q
    ∨ (zoomLevelAt tilesets p = zoomLevelAt tilesets q ∧ p < q)

/-- The saved map `{tilesets: []}`: a map whose array of tilesets is empty. -/
def emptyTilesetsInput : MapDataInput :=
  { tilesets := some [], bgColor := none, icons := none }

/-- Permanent index: the tileset at position `i` has `_index = i`. -/
def IndexInvariant (tilesets : List Tileset) : Prop :=
  ∀ (i : Nat) (t : Tileset), tilesets[i]? = some t → t._index = i

/-- Icon index: the icon type at position `i` has `_index = i`. -/
def IconIndexInvariant (icons : List MarkerIconDefinition) : Prop :=
  ∀ (i : Nat) (icon : MarkerIconDefinition), icons[i]? = some icon → icon._index = i

/-- A tileset with the default geometry, the given index and a single tile. -/
def filledTileset (index : Nat) : Tileset :=
  { Tileset.default index with grid := [[Tile.fromData true]] }

/-- The map `[A(non-empty), B(empty), C(empty)]`. -/
def cullExampleTail : MapData :=
  { tilesets := [filledTileset 0, Tileset.default 1, Tileset.default 2]
    bgColor := "#111", icons := [], _overview := some 0 }

/-- The map `[A(empty), B(non-empty)]`. -/
def cullExampleHead : MapData :=
  { tilesets := [Tileset.default 0, filledTileset 1]
    bgColor := "#111", icons := [], _overview := some 0 }

/-- Saved data of an icon type with the given name and no marker. -/
def sampleIconData (name : String) : IconData :=
  { imageUri := some "icon.svg", name := some name, zoomLevel := none, markers := none }

/-- A map with three icon types, named `a`, `b` and `c`. -/
def iconExample : MapData :=
  MapData.fromData
    { tilesets := none, bgColor := none
      icons := some [sampleIconData "a", sampleIconData "b", sampleIconData "c"] }

/-- The margin tileset with its render area computed and stored, as `updateRenderArea`
leaves it. -/
def renderedMarginTile : Tileset :=
  { marginTile with _renderArea := some (marginTile.computeRenderArea sampleGlobals)
                    _visible := true }

/-- A tileset with `_visible = false` has no table. -/
def HiddenHasNoTable (t : Tileset) : Prop :=
  t._visible = false → t.table = none

/-- The margin tileset made visible, with the table built by `renderTableArea` for its
computed render area. -/
def shownMarginTile : Tileset :=
  (marginTile.setVisible true).renderTableArea sampleGlobals
    (marginTile.computeRenderArea sampleGlobals)

/-- A viewer on the map with three icon types, at global zoom 50. -/
def iconViewer : Viewer :=
  { lodViewer with currentMap := some iconExample }

/-! ## Coordinates, wheel zoom and centring -/

/-- The value returned by `clientPosToCoordinates`. -/
structure Coordinates where
  x : ℚ
  y : ℚ
deriving DecidableEq

/-- Source `clientPosToCoordinates(clientX, clientY)`: client position to map
coordinates. -/
def clientPosToCoordinates (g : Globals) (clientX clientY : ℚ) : Coordinates :=
  { x := (clientX - g.rendererLeft - g.globalOriginX) * 100 / g.globalZoomLevel
    y := (clientY - g.rendererTop - g.globalOriginY) * 100 / g.globalZoomLevel }

/-- The update of the globals by the `mousewheel` handler for a zoom multiplier
`zoomMult` and a cursor at `(clientX, clientY)`. -/
def wheelZoomGlobals (g : Globals) (zoomMult clientX clientY : ℚ) : Globals :=
  let posX := clientX - (g.rendererLeft + g.globalOriginX)
  let posY := clientY - (g.rendererTop + g.globalOriginY)
  { g with globalOriginX := g.globalOriginX + posX * (1 - zoomMult)
           globalOriginY := g.globalOriginY + posY * (1 - zoomMult)
           globalZoomLevel := g.globalZoomLevel * zoomMult }

/-- The `mousewheel` handler: zoom in by 1.25 for a negative `deltaY`, out by `1/1.25`
for a positive one, nothing for zero. -/
def mousewheel (v : Viewer) (deltaY clientX clientY : ℚ) : Option Viewer :=
  if deltaY < 0 then
    globalZoomLevelChanged { v with globals := wheelZoomGlobals v.globals 1.25 clientX clientY }
  else if deltaY > 0 then
    globalZoomLevelChanged
      { v with globals := wheelZoomGlobals v.globals (1 / 1.25) clientX clientY }
  else some v

/-- The assignments under the comment `Center map` of `onChangeMap`, for the overview
tileset `ov`. -/
def centerMapGlobals (g : Globals) (ov : Tileset) : Globals :=
  { g with globalZoomLevel := ov.zoomLevel
           globalOriginX := 0.5 * (g.rendererWidth - ov.tileWidth * (ov.sizeE - ov.sizeW))
           globalOriginY := 0.5 * (g.rendererHeight - ov.tileHeight * (ov.sizeS - ov.sizeN)) }

/-- The loading step of `onChangeMap(inMapName, inLocalMapData)` once the data is
there: the map is built, the view is centred on the overview and the tiles are rendered.
The result is `none` when `_overview` is undefined. -/
def onChangeMap (v : Viewer) (inMapName : String) (data : MapDataInput) : Option Viewer :=
  let currentMap := MapData.fromData data
  match currentMap._overview.bind (fun o => currentMap.tilesets[o]?) with
  | none => none
  | some ov =>
    globalZoomLevelChanged
      { v with globals := centerMapGlobals { v.globals with currentMapName := inMapName } ov
               currentMap := some currentMap
               currentTileset := none }

/-- Modelled from the spec: the position, relative to the renderer, at which a marker
element is displayed: the marker layer is placed at `(markersLeft, markersTop)` and
scaled by `markersScalePercent` percent from its top-left corner, so that the position
of the element inside the layer scales with the layer. -/
def markerScreenPos (v : Viewer) (el : MarkerElement) : ℚ × ℚ :=
  (v.markersLeft + el.left * (v.markersScalePercent / 100),
   v.markersTop + el.top * (v.markersScalePercent / 100))

/-! ## Cell elements, tile placement and removal -/

/-- Source `getElementAt(row, col)`.  A jQuery object is the list of the elements it
holds (`.eq(i)` past the end gives the empty object); `null` is `none`. -/
def Tileset.getElementAt (t : Tileset) (row col : Int) : Option (List CellHtml) :=
  match t.table, t._renderArea with
  | some table, some renderArea =>
    if row ≥ renderArea.firstRow ∧ row ≤ renderArea.firstRow + renderArea.numRows
        ∧ col ≥ renderArea.firstCol ∧ col ≤ renderArea.firstCol + renderArea.numCols then
      match table.cells[(row - renderArea.firstRow).toNat]? with
      | none => some []
      | some tr =>
        match tr[(col - renderArea.firstCol).toNat]? with
        | none => some []
        | some td => some [td]
    else none
  | _, _ => none

/-- The statement `let $td = this.getElementAt(row, col); if ($td) $td.html(html)`:
the content of the cell element found, if any, is replaced. -/
def Tileset.setElementHtml (t : Tileset) (row col : Int) (html : CellHtml) : Tileset :=
  match t.getElementAt row col, t.table, t._renderArea with
  | some _, some table, some renderArea =>
    let cells := modifyAt
      (fun tr => modifyAt (fun _ => html) (col - renderArea.firstCol).toNat tr)
      (row - renderArea.firstRow).toNat table.cells
    { t with table := some { table with cells := cells } }
  | _, _, _ => t

/-- The loop `for (n times) arr.push(x)`. -/
def pushN {α : Type} (x : α) : Nat → List α → List α
  | 0, arr => arr
  | n + 1, arr => pushN x n (arr ++ [x])

/-- The assignment `arr[i] = x` for `i <= arr.length`. -/
def arrAssign {α : Type} (arr : List α) (i : Nat) (x : α) : List α :=
  if i < arr.length then arr.set i x else arr ++ [x]

/-- Source `createLocalTile(row, col, imgSrc)` for non-negative `row` and `col`: the
grid is extended with empty rows up to `row`, the row with empty cells up to `col`, the
tile is stored and the cell element, if any, is refreshed. -/
def Tileset.createLocalTile (g : Globals) (row col : Nat) (imgSrc : String) (t : Tileset) :
    Tileset :=
  let grid1 := pushN [] (row + 1 - t.grid.length) t.grid
  let gridRow := (grid1[row]?).getD []
  let gridRow1 := pushN none (col - gridRow.length) gridRow
  let gridRow2 := arrAssign gridRow1 col (some (Tile.fromSrc imgSrc))
  let t1 := { t with grid := grid1.set row gridRow2 }
  t1.setElementHtml row col (t1.renderTableCell g row col)

/-- Source `removeTileAt(row, col)`. -/
def Tileset.removeTileAt (g : Globals) (row col : Int) (t : Tileset) : Tileset :=
  if (t.getTileAt row col).isSome then
    let grid1 := modifyAt (fun gridRow => gridRow.set col.toNat (Tile.fromData false))
      row.toNat t.grid
    let t1 := { t with grid := grid1 }
    t1.setElementHtml row col (t1.renderTableCell g row col)
  else t

/-! ## Markers of an icon type -/

namespace MarkerIconDefinition

/-- Source `renderMarker(marker, bAppend)`; `markerIndex` is the value of
`this.markers.indexOf(marker)` (`none` for -1). -/
def renderMarker (g : Globals) (marker : Marker) (markerIndex : Option Nat) (bAppend : Bool)
    (icon : MarkerIconDefinition) : MarkerIconDefinition :=
  match icon.layer with
  | none => icon
  | some layer =>
    let el := icon.markerElement g marker
    if bAppend then
      { icon with layer := some { layer with children := layer.children ++ [el] } }
    else
      match markerIndex with
      | some k =>
        if k < layer.children.length then
          { icon with layer := some { layer with children := layer.children.set k el } }
        else { icon with layer := some { layer with children := layer.children ++ [el] } }
      | none => { icon with layer := some { layer with children := layer.children ++ [el] } }

/-- Source `createNewMarker(coordX, coordY)`. -/
def createNewMarker (g : Globals) (coordX coordY : ℚ) (icon : MarkerIconDefinition) :
    MarkerIconDefinition :=
  let marker := Marker.fromData { x := coordX, y := coordY, info := none }
  let icon1 := { icon with markers := icon.markers ++ [marker] }
  icon1.renderMarker g marker (some icon.markers.length) true

/-- Source `removeMarker(markerIndex)` for a non-negative index. -/
def removeMarker (markerIndex : Nat) (icon : MarkerIconDefinition) : MarkerIconDefinition :=
  { icon with markers := icon.markers.eraseIdx markerIndex
              layer := icon.layer.map (fun layer =>
                { layer with children := layer.children.eraseIdx markerIndex }) }

end MarkerIconDefinition

/-- The callback of the `edit` action for the marker at position `k`: `trimmed` is the
text entered, trimmed; an empty text deletes `marker.info`; the marker is then rendered
again in place. -/
def MarkerIconDefinition.editMarkerInfo (g : Globals) (k : Nat) (trimmed : String)
    (icon : MarkerIconDefinition) : MarkerIconDefinition :=
  match icon.markers[k]? with
  | none => icon
  | some marker =>
    let marker1 := { marker with info := if trimmed ≠ "" then some trimmed else none }
    let icon1 := { icon with markers := icon.markers.set k marker1 }
    icon1.renderMarker g marker1 (some k) false

/-- The states of an icon type reached from a state without layer through `renderLayer`
(also behind `setEnabled` and `setVisible`), `createNewMarker`, `renderMarker(marker,
false)` on an existing marker (also after an edit of its info), `removeMarker(i)` with a
valid index, and the marker part of `globalZoomLevelChanged`; the globals may differ
from one step to the next. -/
inductive MarkerReachable : MarkerIconDefinition → Prop where
  | start (icon : MarkerIconDefinition) (h : icon.layer = none) : MarkerReachable icon
  | renderLayer (g : Globals) (icon : MarkerIconDefinition) (h : MarkerReachable icon) :
      MarkerReachable (icon.renderLayer g)
  | setEnabled (g : Globals) (b : Bool) (icon : MarkerIconDefinition)
      (h : MarkerReachable icon) : MarkerReachable (icon.setEnabled g b)
  | setVisible (g : Globals) (b : Bool) (icon : MarkerIconDefinition)
      (h : MarkerReachable icon) : MarkerReachable (icon.setVisible g b)
  | createNewMarker (g : Globals) (x y : ℚ) (icon : MarkerIconDefinition)
      (h : MarkerReachable icon) : MarkerReachable (icon.createNewMarker g x y)
  | rerender (g : Globals) (k : Nat) (marker : Marker) (icon : MarkerIconDefinition)
      (hk : icon.markers[k]? = some marker) (h : MarkerReachable icon) :
      MarkerReachable (icon.renderMarker g marker (some k) false)
  | editInfo (g : Globals) (k : Nat) (trimmed : String) (icon : MarkerIconDefinition)
      (h : MarkerReachable icon) : MarkerReachable (icon.editMarkerInfo g k trimmed)
  | removeMarker (i : Nat) (icon : MarkerIconDefinition) (hi : i < icon.markers.length)
      (h : MarkerReachable icon) : MarkerReachable (icon.removeMarker i)
  | zoom (g : Globals) (icon icon1 : MarkerIconDefinition)
      (hz : zoomIcons g [icon] = [icon1]) (h : MarkerReachable icon) : MarkerReachable icon1

/-- Modelled from the spec: a marker element without its scale, which is the only part
of the element that depends on the zoom level at the time of rendering. -/
def unscaled (el : MarkerElement) : MarkerElement :=
  { el with scale := 1 }

/-- Modelled from the spec: the marker elements within the layer match the markers
array: if the layer exists, its children are, in order and up to the scale, the elements
rendered for the markers. -/
def MarkerLayerMatches (icon : MarkerIconDefinition) : Prop :=
  ∀ (g : Globals) (layer : Layer), icon.layer = some layer →
    layer.children.map unscaled
      = icon.markers.map (fun marker => unscaled (icon.markerElement g marker))

/-- An enabled icon type with one marker at (100, 200) and its layer rendered. -/
def markerIcon : MarkerIconDefinition :=
  (MarkerIconDefinition.fromData
    { imageUri := some "icon.svg", name := some "a", zoomLevel := none
      markers := some [{ x := 100, y := 200, info := none }] } 0).setEnabled
    lodViewer.globals true

/-- The map of the level-of-detail example with the icon type `markerIcon`. -/
def markerMap : MapData :=
  { lodMap with icons := [markerIcon] }

/-- A viewer on `markerMap` at global zoom 50 with the origin at (0, 0). -/
def markerViewer : Viewer :=
  { lodViewer with currentMap := some markerMap }

/-- The globals of the examples with the origin moved 2000 pixels to the left: the
single-tile tileset then lies entirely off-screen. -/
def offscreenGlobals : Globals :=
  { sampleGlobals with globalOriginX := -2000 }

/-- The map obtained by loading one tileset with a tile at zoom level 100 and then
creating a tileset at zoom level 50: `[A(zoomLevel 100, one tile), B(zoomLevel 50,
empty)]`. -/
def staleOverviewExample : MapData :=
  (MapData.createNewTileset 50
    (MapData.fromData
      { tilesets := some [{ TilesetData.empty with grid := some [[true]] }]
        bgColor := none, icons := none })).1

/-- Modelled from the spec: the centre of the full grid of a tileset on screen,
`(fullX + scaledTileWidth*numCols()/2, fullY + scaledTileHeight*numRows()/2)`. -/
def gridCentre (g : Globals) (t : Tileset) : ℚ × ℚ :=
  (t.fullTableX g + t.getScaledTileWidth g * t.numCols / 2,
   t.fullTableY g + t.getScaledTileHeight g * t.numRows / 2)

/-- The saved map with a single tileset whose offset is (10, 20). -/
def offsetMapInput : MapDataInput :=
  { tilesets := some [{ TilesetData.empty with offsetX := some 10, offsetY := some 20 }]
    bgColor := none, icons := none }

/-- The tileset of `offsetMapInput` once loaded. -/
def offsetOverview : Tileset :=
  Tileset.fromData { TilesetData.empty with offsetX := some 10, offsetY := some 20 } 0

/-! ## Double-precision arithmetic

The numbers of JavaScript are IEEE 754 doubles: every arithmetic operation returns the
double nearest to the exact result, ties going to the even significand.  The definitions
below model this for results in the normal range (no overflow to `Infinity`, no
subnormal numbers), which is where all the values of the examples lie.  They are used
to evaluate the source as it runs where a statement made in exact arithmetic does not
carry over. -/

/-- Rounding to the nearest integer, ties to even. -/
def roundHalfEven (x : ℚ) : Int :=
  if x - ⌊x⌋ < 1 / 2 then ⌊x⌋
  else if 1 / 2 < x - ⌊x⌋ then ⌊x⌋ + 1
  else if ⌊x⌋ % 2 = 0 then ⌊x⌋ else ⌊x⌋ + 1

/-- The double nearest to `x`: 53 significant bits, ties to even. -/
def roundDouble (x : ℚ) : ℚ :=
  if x = 0 then 0
  else (roundHalfEven (x / 2 ^ (Int.log 2 |x| - 52)) : ℚ) * 2 ^ (Int.log 2 |x| - 52)

/-- JavaScript `a + b`. -/
def dAdd (a b : ℚ) : ℚ := roundDouble (a + b)

/-- JavaScript `a - b`. -/
def dSub (a b : ℚ) : ℚ := roundDouble (a - b)

/-- JavaScript `a * b`. -/
def dMul (a b : ℚ) : ℚ := roundDouble (a * b)

/-- JavaScript `a / b`. -/
def dDiv (a b : ℚ) : ℚ := roundDouble (a / b)

/-- Source `getDisplayScale()`, in double arithmetic. -/
def Tileset.getDisplayScaleDouble (g : Globals) (t : Tileset) : ℚ :=
  dDiv g.globalZoomLevel t.zoomLevel

/-- Source `getScaledTileWidth()`, in double arithmetic. -/
def Tileset.getScaledTileWidthDouble (g : Globals) (t : Tileset) : ℚ :=
  dMul t.tileWidth (t.getDisplayScaleDouble g)

/-- Source `getScaledTileHeight()`, in double arithmetic. -/
def Tileset.getScaledTileHeightDouble (g : Globals) (t : Tileset) : ℚ :=
  dMul t.tileHeight (t.getDisplayScaleDouble g)

/-- Source `computeRenderArea()`, in double arithmetic. -/
def Tileset.computeRenderAreaDouble (g : Globals) (t : Tileset) : RenderArea :=
  let renderSizeX := g.rendererWidth
  let renderSizeY := g.rendererHeight
  let scaledCellSizeX := t.getScaledTileWidthDouble g
  let scaledCellSizeY := t.getScaledTileHeightDouble g
  let fullTableX := dSub (dAdd g.globalOriginX (dMul t.offsetX (t.getDisplayScaleDouble g)))
    (dMul scaledCellSizeX t.sizeW)
  let fullTableY := dSub (dAdd g.globalOriginY (dMul t.offsetY (t.getDisplayScaleDouble g)))
    (dMul scaledCellSizeY t.sizeN)
  let firstCol : Int := if fullTableX < 0 then ⌊dDiv (-fullTableX) scaledCellSizeX⌋ else 0
  let firstRow : Int := if fullTableY < 0 then ⌊dDiv (-fullTableY) scaledCellSizeY⌋ else 0
  let posX := dAdd fullTableX (dMul firstCol scaledCellSizeX)
  let posY := dAdd fullTableY (dMul firstRow scaledCellSizeY)
  { firstRow := firstRow
    numRows := min ⌈dDiv (dSub renderSizeY posY) scaledCellSizeY⌉ (t.numRows - firstRow)
    firstCol := firstCol
    numCols := min ⌈dDiv (dSub renderSizeX posX) scaledCellSizeX⌉ (t.numCols - firstCol)
    posX := posX
    posY := posY }

/-- Source `getCellAt(clientX, clientY)`, in double arithmetic. -/
def Tileset.getCellAtDouble (g : Globals) (t : Tileset) (clientX clientY : ℚ) : Option Cell :=
  match t._renderArea with
  | none => none
  | some renderArea =>
    let relX := dSub (dSub clientX g.rendererLeft) renderArea.posX
    let relY := dSub (dSub clientY g.rendererTop) renderArea.posY
    some { col := renderArea.firstCol + ⌊dDiv relX (t.getScaledTileWidthDouble g)⌋
           row := renderArea.firstRow + ⌊dDiv relY (t.getScaledTileHeightDouble g)⌋ }

/-- The client position of the top-left corner of the cell `(row, col)`,
`offset + pos + (index - first) * scaledTileSize` on each axis, in double arithmetic. -/
def Tileset.cellCornerDouble (g : Globals) (t : Tileset) (renderArea : RenderArea)
    (row col : Int) : ℚ × ℚ :=
  (dAdd (dAdd g.rendererLeft renderArea.posX)
      (dMul ((col - renderArea.firstCol : Int) : ℚ) (t.getScaledTileWidthDouble g)),
   dAdd (dAdd g.rendererTop renderArea.posY)
      (dMul ((row - renderArea.firstRow : Int) : ℚ) (t.getScaledTileHeightDouble g)))

/-- Source `clientPosToCoordinates(clientX, clientY)`, in double arithmetic. -/
def clientPosToCoordinatesDouble (g : Globals) (clientX clientY : ℚ) : Coordinates :=
  { x := dDiv (dMul (dSub (dSub clientX g.rendererLeft) g.globalOriginX) 100) g.globalZoomLevel
    y := dDiv (dMul (dSub (dSub clientY g.rendererTop) g.globalOriginY) 100) g.globalZoomLevel }

/-- The update of the globals by the `mousewheel` handler, in double arithmetic. -/
def wheelZoomGlobalsDouble (g : Globals) (zoomMult clientX clientY : ℚ) : Globals :=
  let posX := dSub clientX (dAdd g.rendererLeft g.globalOriginX)
  let posY := dSub clientY (dAdd g.rendererTop g.globalOriginY)
  { g with globalOriginX := dAdd g.globalOriginX (dMul posX (dSub 1 zoomMult))
           globalOriginY := dAdd g.globalOriginY (dMul posY (dSub 1 zoomMult))
           globalZoomLevel := dMul g.globalZoomLevel zoomMult }

/-- Modelled from the spec: the client position at which a marker stored at `(x, y)` is
displayed, `rendererOffset + (globalOrigin + coordinate*globalZoomLevel/100)` on each
axis, evaluated in double arithmetic (the exact position need not be a double). -/
def markerClientPosDouble (g : Globals) (x y : ℚ) : ℚ × ℚ :=
  (dAdd g.rendererLeft (dAdd g.globalOriginX (dDiv (dMul x g.globalZoomLevel) 100)),
   dAdd g.rendererTop (dAdd g.globalOriginY (dDiv (dMul y g.globalZoomLevel) 100)))

/-- A tileset of two columns with tiles of 100 pixels at zoom level 30. -/
def thirdScaleTile : Tileset :=
  { Tileset.default 0 with tileWidth := 100, tileHeight := 100, zoomLevel := 30, sizeE := 2 }

/-- The globals of the examples at global zoom 10 with the origin at (100, 0). -/
def thirdScaleGlobals : Globals :=
  { sampleGlobals with globalZoomLevel := 10, globalOriginX := 100 }

/-- The two-column tileset with the render area computed, in double arithmetic, at
global zoom 10 and origin (100, 0). -/
def renderedThirdScaleTile : Tileset :=
  { thirdScaleTile with
    _renderArea := some (thirdScaleTile.computeRenderAreaDouble thirdScaleGlobals)
    _visible := true }

/-- The globals of the examples at global zoom 80. -/
def zoomedOutGlobals : Globals :=
  { sampleGlobals with globalZoomLevel := 80 }

/-- A tileset with a negative tile width, as the tileset panel accepts it. -/
def negativeWidthTile : Tileset :=
  { Tileset.default 0 with tileWidth := -512 }

/-- The globals of the examples with the origin 100 pixels to the left. -/
def shiftedLeftGlobals : Globals :=
  { sampleGlobals with globalOriginX := -100 }

/-- Saved data of an icon type to be shown from zoom level 60 on, with one marker. -/
def detailIconData : IconData :=
  { imageUri := some "icon.svg", name := some "a", zoomLevel := some 60
    markers := some [{ x := 1, y := 2, info := none }] }

/-! # Theorems -/

open Tileset

/-! ## Array reads and rendering frame -/

theorem arrGet_cons_succ {α : Type} (x : α) (l : List α) (i : Int) (h : 0 ≤ i) :
    arrGet (x :: l) (i + 1) = arrGet l i := by
  unfold arrGet
  have h1 : ¬ (i + 1 < 0) := by omega
  have h2 : ¬ (i < 0) := by omega
  have h3 : (i + 1).toNat = i.toNat + 1 := by omega
  simp [h1, h2, h3]

theorem arrGet_neg {α : Type} (l : List α) (i : Int) (h : i < 0) : arrGet l i = none := by
  simp [arrGet, h]

theorem arrGet_map {α β : Type} (f : α → β) (l : List α) (i : Int) :
    arrGet (l.map f) i = (arrGet l i).map f := by
  unfold arrGet; split <;> simp

/-- Shifted read of an array with one element inserted in front. -/
theorem arrGet_cons_shift {α : Type} (x : α) (l : List α) (i : Int) :
    arrGet (x :: l) (i + 1) = if i = -1 then some x else arrGet l i := by
  by_cases h : 0 ≤ i
  · have : i ≠ -1 := by omega
    simp [this, arrGet_cons_succ x l i h]
  · by_cases h1 : i = -1
    · subst h1; simp [arrGet]
    · have h2 : i + 1 < 0 := by omega
      have h3 : i < 0 := by omega
      simp [h1, arrGet_neg _ _ h2, arrGet_neg _ _ h3]

/-- Rendering changes nothing but the table and the stored render area. -/
theorem render_frame (g : Globals) (b : Bool) (t : Tileset) :
    t.render g b =
      { t with table := (t.render g b).table, _renderArea := (t.render g b)._renderArea } := by
  unfold render
  split
  · unfold updateRenderArea renderTableArea
    dsimp only
    split <;> rfl
  · rfl

@[simp] theorem render_grid (g : Globals) (b : Bool) (t : Tileset) :
    (t.render g b).grid = t.grid := by rw [render_frame]
@[simp] theorem render_sizeN (g : Globals) (b : Bool) (t : Tileset) :
    (t.render g b).sizeN = t.sizeN := by rw [render_frame]
@[simp] theorem render_sizeS (g : Globals) (b : Bool) (t : Tileset) :
    (t.render g b).sizeS = t.sizeS := by rw [render_frame]
@[simp] theorem render_sizeW (g : Globals) (b : Bool) (t : Tileset) :
    (t.render g b).sizeW = t.sizeW := by rw [render_frame]
@[simp] theorem render_sizeE (g : Globals) (b : Bool) (t : Tileset) :
    (t.render g b).sizeE = t.sizeE := by rw [render_frame]
@[simp] theorem render_tileWidth (g : Globals) (b : Bool) (t : Tileset) :
    (t.render g b).tileWidth = t.tileWidth := by rw [render_frame]
@[simp] theorem render_tileHeight (g : Globals) (b : Bool) (t : Tileset) :
    (t.render g b).tileHeight = t.tileHeight := by rw [render_frame]
@[simp] theorem render_offsetX (g : Globals) (b : Bool) (t : Tileset) :
    (t.render g b).offsetX = t.offsetX := by rw [render_frame]
@[simp] theorem render_offsetY (g : Globals) (b : Bool) (t : Tileset) :
    (t.render g b).offsetY = t.offsetY := by rw [render_frame]
@[simp] theorem render_zOrder (g : Globals) (b : Bool) (t : Tileset) :
    (t.render g b)._zOrder = t._zOrder := by rw [render_frame]
@[simp] theorem render_visible (g : Globals) (b : Bool) (t : Tileset) :
    (t.render g b)._visible = t._visible := by rw [render_frame]

@[simp] theorem render_getTileAt (g : Globals) (b : Bool) (t : Tileset) (row col : Int) :
    (t.render g b).getTileAt row col = t.getTileAt row col := by
  simp [getTileAt]

/-- Reading the grid after one row was inserted in front. -/
theorem getTileAt_cons_row (t : Tileset) (grid : List (List (Option Tile))) (row col : Int) :
    getTileAt { t with grid := [] :: grid } (row + 1) col
      = getTileAt { t with grid := grid } row col := by
  unfold getTileAt
  dsimp only
  rw [arrGet_cons_shift]
  by_cases h : row = -1
  · subst h; simp [arrGet]
  · simp [h]

/-- Reading the grid after one empty cell was inserted in front of every row. -/
theorem getTileAt_cons_col (t : Tileset) (grid : List (List (Option Tile))) (row col : Int) :
    getTileAt { t with grid := grid.map (fun r => none :: r) } row (col + 1)
      = getTileAt { t with grid := grid } row col := by
  unfold getTileAt
  dsimp only
  rw [arrGet_map]
  cases hrow : arrGet grid row with
  | none => rfl
  | some r =>
    simp only [Option.map_some']
    rw [arrGet_cons_shift]
    by_cases h : col = -1
    · subst h; simp [arrGet]
    · simp [h]

/-- C1. Address stability of a single-step expansion: after `expand(dir, 1)` the tile
stored at `(row, col)` is found at the shifted address (one row further for north, one
column further for west, the same address for south and east), its origin-relative
coordinates, image name and pixel position are unchanged, and every tile present
afterwards was present before at the corresponding address. -/
theorem expand_one_address_stable (g : Globals) (dir : Dir) (t : Tileset) :
    (∀ row col : Int,
      (t.expand g dir 1).getTileAt (row + (if dir = Dir.N then 1 else 0))
          (col + (if dir = Dir.W then 1 else 0)) = t.getTileAt row col
      ∧ (row + (if dir = Dir.N then 1 else 0)) - (t.expand g dir 1).sizeN = row - t.sizeN
      ∧ (col + (if dir = Dir.W then 1 else 0)) - (t.expand g dir 1).sizeW = col - t.sizeW
      ∧ (t.expand g dir 1).getTileImageName (row + (if dir = Dir.N then 1 else 0))
          (col + (if dir = Dir.W then 1 else 0)) = t.getTileImageName row col
      ∧ pixelOf (t.expand g dir 1) (row + (if dir = Dir.N then 1 else 0))
          (col + (if dir = Dir.W then 1 else 0)) = pixelOf t row col)
    ∧ (∀ r c : Int, ((t.expand g dir 1).getTileAt r c).isSome →
        (t.getTileAt (r - (if dir = Dir.N then 1 else 0))
          (c - (if dir = Dir.W then 1 else 0))).isSome) := by
  have key : ∀ row col : Int,
      (t.expand g dir 1).getTileAt (row + (if dir = Dir.N then 1 else 0))
          (col + (if dir = Dir.W then 1 else 0)) = t.getTileAt row col := by
    intro row col
    cases dir
    · simp only [expand, render_getTileAt, spliceFront, setSize, getSize]
      simpa using getTileAt_cons_row { t with sizeN := t.sizeN + 1 } t.grid row col
    · simp [expand, setSize, getSize, getTileAt]
    · simp only [expand, render_getTileAt, spliceFront, setSize, getSize]
      simpa using getTileAt_cons_col { t with sizeW := t.sizeW + 1 } t.grid row col
    · simp [expand, setSize, getSize, getTileAt]
  have hN : (t.expand g dir 1).sizeN = t.sizeN + (if dir = Dir.N then 1 else 0) := by
    cases dir <;> simp [expand, setSize, getSize]
  have hW : (t.expand g dir 1).sizeW = t.sizeW + (if dir = Dir.W then 1 else 0) := by
    cases dir <;> simp [expand, setSize, getSize]
  have hg : (t.expand g dir 1).tileWidth = t.tileWidth ∧ (t.expand g dir 1).tileHeight = t.tileHeight
      ∧ (t.expand g dir 1).offsetX = t.offsetX ∧ (t.expand g dir 1).offsetY = t.offsetY := by
    cases dir <;> simp [expand, setSize, getSize]
  constructor
  · intro row col
    have e1 : (row + (if dir = Dir.N then 1 else 0)) - (t.expand g dir 1).sizeN = row - t.sizeN := by
      rw [hN]; ring
    have e2 : (col + (if dir = Dir.W then 1 else 0)) - (t.expand g dir 1).sizeW = col - t.sizeW := by
      rw [hW]; ring
    refine ⟨key row col, e1, e2, ?_, ?_⟩
    · unfold getTileImageName
      rw [e1, e2]
    · unfold pixelOf
      rw [hg.1, hg.2.1, hg.2.2.1, hg.2.2.2]
      have e1q : ((row + (if dir = Dir.N then 1 else 0) : Int) : ℚ) - ((t.expand g dir 1).sizeN : ℚ)
          = (row : ℚ) - (t.sizeN : ℚ) := by exact_mod_cast e1
      have e2q : ((col + (if dir = Dir.W then 1 else 0) : Int) : ℚ) - ((t.expand g dir 1).sizeW : ℚ)
          = (col : ℚ) - (t.sizeW : ℚ) := by exact_mod_cast e2
      rw [e1q, e2q]
  · intro r c h
    have := key (r - (if dir = Dir.N then 1 else 0)) (c - (if dir = Dir.W then 1 else 0))
    rw [sub_add_cancel, sub_add_cancel] at this
    rw [← this]; exact h

/-! ## Expansion by more than one step -/

/-- C2 (evaluation at the failing input). `expand('N', 2)` on the single-tile tileset
inserts two rows but adds only one to `sizeN`: the tile of `(0, 0)` ends at `(2, 0)`,
whose origin-relative row is `1`, not `0`. -/
theorem expand_north_two_moves_tile :
    (singleTile.expand sampleGlobals Dir.N 2).sizeN = singleTile.sizeN + 1
    ∧ (singleTile.expand sampleGlobals Dir.N 2).grid = [[], [], [Tile.fromData true]]
    ∧ (singleTile.getTileAt 0 0).isSome = true
    ∧ (singleTile.expand sampleGlobals Dir.N 2).getTileAt (0 + 2) 0 = singleTile.getTileAt 0 0
    ∧ (0 + 2) - (singleTile.expand sampleGlobals Dir.N 2).sizeN ≠ 0 - singleTile.sizeN := by
  decide

/-! ## The loop of `trimHelper` -/

theorem arrGet_tail {α : Type} (l : List α) (i : Int) :
    arrGet l.tail i = if i < 0 then none else arrGet l (i + 1) := by
  unfold arrGet
  by_cases h : i < 0
  · simp [h]
  · have h1 : ¬ (i + 1 < 0) := by omega
    have h3 : (i + 1).toNat = i.toNat + 1 := by omega
    simp [h, h1, h3]

theorem arrGet_dropLast {α : Type} (l : List α) (i : Int) :
    arrGet l.dropLast i = if i < (l.length : Int) - 1 then arrGet l i else none := by
  unfold arrGet
  by_cases h : i < 0
  · simp [h]
  · simp only [h, if_false, List.getElem?_dropLast]
    by_cases h2 : i < (l.length : Int) - 1
    · have : i.toNat < l.length - 1 := by omega
      simp [h2, this]
    · have : ¬ i.toNat < l.length - 1 := by omega
      simp [h2, this]

theorem arrGet_isSome {α : Type} (l : List α) (i : Int) :
    (arrGet l i).isSome = true ↔ 0 ≤ i ∧ i < (l.length : Int) := by
  unfold arrGet
  by_cases h : i < 0
  · simp [h]
  · simp only [h, if_false]
    rw [Option.isSome_iff_exists]
    constructor
    · rintro ⟨a, ha⟩
      have := (List.getElem?_eq_some.1 ha).1
      omega
    · rintro ⟨_, h2⟩
      have h3 : i.toNat < l.length := by omega
      exact ⟨l[i.toNat], List.getElem?_eq_getElem h3⟩

@[simp] theorem getSize_setSize (dir : Dir) (v : Int) (t : Tileset) :
    (t.setSize dir v).getSize dir = v := by
  cases dir <;> rfl

/-- Specification of the `while` loop of `trimHelper`, for an invariant `P` kept by one
iteration, when the number of iterations allowed is at least the excess of the extent
over its minimum. -/
theorem trimLoop_spec (dir : Dir) (minValue tileCount : Int)
    (getter : Tileset → Int → Option Tile) (removeFn : Tileset → Tileset)
    (hrem : ∀ t, (removeFn t).getSize dir = t.getSize dir)
    (P : Tileset → Prop)
    (step : ∀ t, P t → minValue < t.getSize dir →
      (∀ i : Nat, i < tileCount.toNat → getter t (i : Int) = none) →
      P ((removeFn t).setSize dir ((removeFn t).getSize dir - 1))) :
    ∀ (n : Nat) (t : Tileset), P t → (t.getSize dir - minValue).toNat ≤ n →
      P (trimLoop dir minValue tileCount getter removeFn n t)
      ∧ (trimLoop dir minValue tileCount getter removeFn n t).getSize dir ≤ t.getSize dir
      ∧ (minValue ≤ t.getSize dir →
          minValue ≤ (trimLoop dir minValue tileCount getter removeFn n t).getSize dir)
      ∧ ((trimLoop dir minValue tileCount getter removeFn n t).getSize dir ≤ minValue
          ∨ ∃ i : Nat, i < tileCount.toNat
            ∧ (getter (trimLoop dir minValue tileCount getter removeFn n t) (i : Int)).isSome) := by
  intro n
  induction n with
  | zero =>
    intro t hP hn
    simp only [trimLoop]
    refine ⟨hP, le_refl _, fun h => h, Or.inl ?_⟩
    omega
  | succ n ih =>
    intro t hP hn
    unfold trimLoop
    by_cases hgt : t.getSize dir > minValue
    · simp only [hgt, if_true]
      by_cases hany : (List.range tileCount.toNat).any
          (fun (i : Nat) => (getter t (i : Int)).isSome) = true
      · rw [if_pos hany]
        refine ⟨hP, le_refl _, fun h => h, Or.inr ?_⟩
        rw [List.any_eq_true] at hany
        obtain ⟨i, hi, hs⟩ := hany
        exact ⟨i, List.mem_range.1 hi, hs⟩
      · rw [if_neg hany]
        have hall : ∀ i : Nat, i < tileCount.toNat → getter t (i : Int) = none := by
          intro i hi
          by_contra hne
          apply hany
          rw [List.any_eq_true]
          exact ⟨i, List.mem_range.2 hi, Option.isSome_iff_ne_none.2 hne⟩
        have hP1 := step t hP hgt hall
        have hsz : ((removeFn t).setSize dir ((removeFn t).getSize dir - 1)).getSize dir
            = t.getSize dir - 1 := by
          rw [getSize_setSize, hrem]
        have hfuel : (((removeFn t).setSize dir ((removeFn t).getSize dir - 1)).getSize dir
            - minValue).toNat ≤ n := by
          rw [hsz]; omega
        obtain ⟨h1, h2, h3, h4⟩ := ih _ hP1 hfuel
        rw [hsz] at h2 h3
        refine ⟨h1, by omega, fun _ => h3 (by omega), h4⟩
    · simp only [hgt, if_false]
      refine ⟨hP, le_refl _, fun h => h, Or.inl ?_⟩
      omega

/-- More iterations than the excess of the extent over its minimum change nothing:
the loop of `trimHelper` has ended by then. -/
theorem trimLoop_fuel (dir : Dir) (minValue tileCount : Int)
    (getter : Tileset → Int → Option Tile) (removeFn : Tileset → Tileset)
    (hrem : ∀ t, (removeFn t).getSize dir = t.getSize dir) :
    ∀ (n : Nat) (t : Tileset), (t.getSize dir - minValue).toNat ≤ n →
      trimLoop dir minValue tileCount getter removeFn n t
        = trimHelper dir minValue tileCount getter removeFn t := by
  intro n
  induction n with
  | zero =>
    intro t hn
    unfold trimHelper
    have : (t.getSize dir - minValue).toNat = 0 := by omega
    rw [this]
  | succ n ih =>
    intro t hn
    unfold trimHelper
    by_cases hgt : t.getSize dir > minValue
    · obtain ⟨k, hk⟩ : ∃ k, (t.getSize dir - minValue).toNat = k + 1 :=
        ⟨(t.getSize dir - minValue).toNat - 1, by omega⟩
      rw [hk]
      unfold trimLoop
      simp only [hgt, if_true]
      split
      · rfl
      · have hsz : ((removeFn t).setSize dir ((removeFn t).getSize dir - 1)).getSize dir
            = t.getSize dir - 1 := by
          rw [getSize_setSize, hrem]
        rw [ih _ (by rw [hsz]; omega)]
        unfold trimHelper
        rw [hsz]
        have : (t.getSize dir - 1 - minValue).toNat = k := by omega
        rw [this]
    · have : (t.getSize dir - minValue).toNat = 0 := by omega
      rw [this]
      unfold trimLoop
      simp [hgt]

/-! ## Tiles inside the bounds -/

theorem getTileAt_isSome_index (t : Tileset) (row col : Int)
    (h : (t.getTileAt row col).isSome) :
    0 ≤ row ∧ row < (t.grid.length : Int) ∧ 0 ≤ col
      ∧ col < (((t.grid[row.toNat]?).getD []).length : Int) := by
  unfold getTileAt at h
  cases hr : arrGet t.grid row with
  | none => rw [hr] at h; simp at h
  | some gridRow =>
    rw [hr] at h
    have h1 := (arrGet_isSome t.grid row).1 (by rw [hr]; rfl)
    have hrow : t.grid[row.toNat]? = some gridRow := by
      unfold arrGet at hr
      have : ¬ row < 0 := by omega
      simpa [this] using hr
    have h2 : (arrGet gridRow col).isSome := by
      cases hc : arrGet gridRow col with
      | none => simp [hc] at h
      | some _ => rfl
    have h3 := (arrGet_isSome gridRow col).1 h2
    rw [hrow]
    exact ⟨h1.1, h1.2, h3.1, h3.2⟩

theorem inBounds_of_tilesInBounds (t : Tileset) (h : tilesInBounds t = true) : InBounds t := by
  intro row col hs
  obtain ⟨h0, h1, h2, h3⟩ := getTileAt_isSome_index t row col hs
  unfold tilesInBounds at h
  rw [List.all_eq_true] at h
  have hr := h row.toNat (List.mem_range.2 (by omega))
  rw [List.all_eq_true] at hr
  have hc := hr col.toNat (List.mem_range.2 (by omega))
  have e1 : ((row.toNat : Nat) : Int) = row := by omega
  have e2 : ((col.toNat : Nat) : Int) = col := by omega
  rw [e1, e2] at hc
  simp only [Bool.or_eq_true, Bool.and_eq_true, decide_eq_true_eq] at hc
  rcases hc with hc | hc
  · rw [Option.isNone_iff_eq_none] at hc
    rw [hc] at hs; simp at hs
  · exact ⟨h0, hc.1, h2, hc.2⟩

/-! ## One iteration of each pass of `trim` -/

/-- A row or column checked empty on the indices below the bound is empty everywhere,
when all tiles are in bounds (rows). -/
theorem row_empty_of_check (t : Tileset) (hB : InBounds t) (row : Int)
    (hempty : ∀ i : Nat, i < t.numCols.toNat → t.getTileAt row (i : Int) = none) (col : Int) :
    t.getTileAt row col = none := by
  by_contra hne
  have hs := Option.isSome_iff_ne_none.2 hne
  obtain ⟨_, _, h2, h3⟩ := hB row col hs
  have := hempty col.toNat (by omega)
  have e : ((col.toNat : Nat) : Int) = col := by omega
  rw [e] at this
  exact hne this

theorem col_empty_of_check (t : Tileset) (hB : InBounds t) (col : Int)
    (hempty : ∀ i : Nat, i < t.numRows.toNat → t.getTileAt (i : Int) col = none) (row : Int) :
    t.getTileAt row col = none := by
  by_contra hne
  have hs := Option.isSome_iff_ne_none.2 hne
  obtain ⟨h0, h1, _, _⟩ := hB row col hs
  have := hempty row.toNat (by omega)
  have e : ((row.toNat : Nat) : Int) = row := by omega
  rw [e] at this
  exact hne this

theorem getTileAt_neg_row (t : Tileset) (row col : Int) (h : row < 0) :
    t.getTileAt row col = none := by
  unfold getTileAt
  rw [arrGet_neg _ _ h]

theorem getTileAt_neg_col (t : Tileset) (row col : Int) (h : col < 0) :
    t.getTileAt row col = none := by
  unfold getTileAt
  cases arrGet t.grid row with
  | none => rfl
  | some r => simp [arrGet_neg _ _ h]

/-- One iteration of the north pass. -/
theorem stepNorth_spec (t : Tileset) (hB : InBounds t)
    (hempty : ∀ i : Nat, i < t.numCols.toNat → t.getTileAt 0 (i : Int) = none) :
    InBounds ((removeNorth t).setSize Dir.N ((removeNorth t).getSize Dir.N - 1))
    ∧ ∀ y x, relTileAt ((removeNorth t).setSize Dir.N ((removeNorth t).getSize Dir.N - 1)) y x
        = relTileAt t y x := by
  have hrow0 := row_empty_of_check t hB 0 hempty
  have hget : ∀ row col : Int,
      getTileAt ((removeNorth t).setSize Dir.N ((removeNorth t).getSize Dir.N - 1)) row col
        = if row < 0 then none else t.getTileAt (row + 1) col := by
    intro row col
    simp only [getTileAt, removeNorth, setSize, getSize, arrGet_tail]
    by_cases h : row < 0 <;> simp [h]
  constructor
  · intro row col hs
    rw [hget] at hs
    by_cases h : row < 0
    · simp [h] at hs
    · simp only [h, if_false] at hs
      obtain ⟨_, h1, h2, h3⟩ := hB _ _ hs
      simp only [numRows, numCols, removeNorth, setSize, getSize] at *
      omega
  · intro y x
    unfold relTileAt
    rw [hget]
    simp only [removeNorth, setSize, getSize]
    by_cases h : y + (t.sizeN - 1) < 0
    · simp only [h, if_true]
      by_cases h0 : y + t.sizeN = 0
      · rw [h0, hrow0]
      · rw [getTileAt_neg_row _ _ _ (by omega)]
    · simp only [h, if_false]
      have : y + (t.sizeN - 1) + 1 = y + t.sizeN := by ring
      rw [this]

/-- One iteration of the west pass. -/
theorem stepWest_spec (t : Tileset) (hB : InBounds t)
    (hempty : ∀ i : Nat, i < t.numRows.toNat → t.getTileAt (i : Int) 0 = none) :
    InBounds ((removeWest t).setSize Dir.W ((removeWest t).getSize Dir.W - 1))
    ∧ ∀ y x, relTileAt ((removeWest t).setSize Dir.W ((removeWest t).getSize Dir.W - 1)) y x
        = relTileAt t y x := by
  have hcol0 := col_empty_of_check t hB 0 hempty
  have hget : ∀ row col : Int,
      getTileAt ((removeWest t).setSize Dir.W ((removeWest t).getSize Dir.W - 1)) row col
        = if col < 0 then none else t.getTileAt row (col + 1) := by
    intro row col
    simp only [getTileAt, removeWest, setSize, getSize, arrGet_map]
    cases arrGet t.grid row with
    | none => simp
    | some r =>
      simp only [Option.map_some', arrGet_tail]
      by_cases h : col < 0 <;> simp [h]
  constructor
  · intro row col hs
    rw [hget] at hs
    by_cases h : col < 0
    · simp [h] at hs
    · simp only [h, if_false] at hs
      obtain ⟨_, h1, h2, h3⟩ := hB _ _ hs
      simp only [numRows, numCols, removeWest, setSize, getSize] at *
      omega
  · intro y x
    unfold relTileAt
    rw [hget]
    simp only [removeWest, setSize, getSize]
    by_cases h : x + (t.sizeW - 1) < 0
    · simp only [h, if_true]
      by_cases h0 : x + t.sizeW = 0
      · rw [h0, hcol0]
      · rw [getTileAt_neg_col _ _ _ (by omega)]
    · simp only [h, if_false]
      have : x + (t.sizeW - 1) + 1 = x + t.sizeW := by ring
      rw [this]

/-- The south removal keeps every tile when the last row of the bounds is empty. -/
theorem removeSouth_getTileAt (t : Tileset) (hB : InBounds t)
    (hempty : ∀ i : Nat, i < t.numCols.toNat → t.getTileAt (t.numRows - 1) (i : Int) = none)
    (row col : Int) : (removeSouth t).getTileAt row col = t.getTileAt row col := by
  have hlast := row_empty_of_check t hB (t.numRows - 1) hempty
  unfold removeSouth
  split
  · rename_i hc
    have hlen := (arrGet_isSome _ _).1 hc
    by_cases hr : row < (t.grid.length : Int) - 1
    · simp only [getTileAt, arrGet_dropLast, hr, if_true]
    · have h1 : getTileAt { t with grid := t.grid.dropLast } row col = none := by
        simp only [getTileAt, arrGet_dropLast, hr, if_false]
      rw [h1]
      symm
      by_contra hne
      have hs := Option.isSome_iff_ne_none.2 hne
      obtain ⟨_, h2, _, _⟩ := hB row col hs
      have : row = t.numRows - 1 := by omega
      rw [this] at hne
      exact hne (hlast col)
  · rfl

/-- One iteration of the south pass. -/
theorem stepSouth_spec (t : Tileset) (hB : InBounds t)
    (hempty : ∀ i : Nat, i < t.numCols.toNat → t.getTileAt (t.numRows - 1) (i : Int) = none) :
    InBounds ((removeSouth t).setSize Dir.S ((removeSouth t).getSize Dir.S - 1))
    ∧ ∀ y x, relTileAt ((removeSouth t).setSize Dir.S ((removeSouth t).getSize Dir.S - 1)) y x
        = relTileAt t y x := by
  have hlast := row_empty_of_check t hB (t.numRows - 1) hempty
  have hrs := removeSouth_getTileAt t hB hempty
  have hsz : (removeSouth t).sizeN = t.sizeN ∧ (removeSouth t).sizeS = t.sizeS
      ∧ (removeSouth t).sizeW = t.sizeW ∧ (removeSouth t).sizeE = t.sizeE := by
    unfold removeSouth; split <;> simp
  have hget : ∀ row col : Int,
      getTileAt ((removeSouth t).setSize Dir.S ((removeSouth t).getSize Dir.S - 1)) row col
        = t.getTileAt row col := by
    intro row col
    rw [← hrs row col]
    simp only [getTileAt, setSize]
  constructor
  · intro row col hs
    rw [hget] at hs
    obtain ⟨h0, h1, h2, h3⟩ := hB _ _ hs
    have hne : row ≠ t.numRows - 1 := by
      intro e
      rw [e, hlast] at hs
      simp at hs
    simp only [numRows, numCols, setSize, getSize, hsz.1, hsz.2.1, hsz.2.2.1, hsz.2.2.2] at *
    omega
  · intro y x
    unfold relTileAt
    rw [hget]
    simp only [setSize, hsz.1, hsz.2.2.1]

/-- The east removal changes nothing when the last column of the bounds is empty. -/
theorem removeEast_eq (t : Tileset) (hB : InBounds t)
    (hempty : ∀ i : Nat, i < t.numRows.toNat → t.getTileAt (i : Int) (t.numCols - 1) = none) :
    removeEast t = t := by
  have hlast := col_empty_of_check t hB (t.numCols - 1) hempty
  unfold removeEast
  have : t.grid.map (fun row =>
      if (arrGet row (t.numCols - 1)).join.isSome then row.dropLast else row) = t.grid := by
    apply List.ext_getElem?
    intro r
    rw [List.getElem?_map]
    cases hr : t.grid[r]? with
    | none => rfl
    | some gridRow =>
      simp only [Option.map_some']
      have hg : t.getTileAt (r : Int) (t.numCols - 1) = (arrGet gridRow (t.numCols - 1)).join := by
        unfold getTileAt
        have : arrGet t.grid (r : Int) = some gridRow := by
          unfold arrGet
          simp [hr]
        rw [this]
      rw [← hg, hlast]
      simp
  rw [this]

/-- One iteration of the east pass. -/
theorem stepEast_spec (t : Tileset) (hB : InBounds t)
    (hempty : ∀ i : Nat, i < t.numRows.toNat → t.getTileAt (i : Int) (t.numCols - 1) = none) :
    InBounds ((removeEast t).setSize Dir.E ((removeEast t).getSize Dir.E - 1))
    ∧ ∀ y x, relTileAt ((removeEast t).setSize Dir.E ((removeEast t).getSize Dir.E - 1)) y x
        = relTileAt t y x := by
  have hlast := col_empty_of_check t hB (t.numCols - 1) hempty
  rw [removeEast_eq t hB hempty]
  have hget : ∀ row col : Int,
      getTileAt (t.setSize Dir.E (t.getSize Dir.E - 1)) row col = t.getTileAt row col := by
    intro row col
    simp only [getTileAt, setSize]
  constructor
  · intro row col hs
    rw [hget] at hs
    obtain ⟨h0, h1, h2, h3⟩ := hB _ _ hs
    have hne : col ≠ t.numCols - 1 := by
      intro e
      rw [e, hlast] at hs
      simp at hs
    simp only [numRows, numCols, setSize, getSize] at *
    omega
  · intro y x
    unfold relTileAt
    rw [hget]
    simp only [setSize]

/-! ## The four passes of `trim` -/

theorem getSize_setSize_ne (dir d : Dir) (v : Int) (t : Tileset) (h : d ≠ dir) :
    (t.setSize dir v).getSize d = t.getSize d := by
  cases dir <;> cases d <;> first | rfl | exact absurd rfl h

/-- One pass of `trim` (one call of `trimHelper`): tiles stay in bounds, no tile moves in
origin-relative coordinates, the other extents are untouched, the trimmed extent does
not grow and does not pass below its minimum, and at the end the extent is at its
minimum or the getter finds a tile. -/
theorem trimHelper_spec (dir : Dir) (minValue tileCount : Int)
    (getter : Tileset → Int → Option Tile) (removeFn : Tileset → Tileset) (t0 : Tileset)
    (hrem : ∀ s d, (removeFn s).getSize d = s.getSize d)
    (hstep : ∀ s, InBounds s → (∀ d, d ≠ dir → s.getSize d = t0.getSize d) →
      (∀ i : Nat, i < tileCount.toNat → getter s (i : Int) = none) →
      InBounds ((removeFn s).setSize dir ((removeFn s).getSize dir - 1))
      ∧ ∀ y x, relTileAt ((removeFn s).setSize dir ((removeFn s).getSize dir - 1)) y x
          = relTileAt s y x)
    (hB : InBounds t0) :
    InBounds (trimHelper dir minValue tileCount getter removeFn t0)
    ∧ (∀ y x, relTileAt (trimHelper dir minValue tileCount getter removeFn t0) y x
        = relTileAt t0 y x)
    ∧ (∀ d, d ≠ dir →
        (trimHelper dir minValue tileCount getter removeFn t0).getSize d = t0.getSize d)
    ∧ (trimHelper dir minValue tileCount getter removeFn t0).getSize dir ≤ t0.getSize dir
    ∧ (minValue ≤ t0.getSize dir →
        minValue ≤ (trimHelper dir minValue tileCount getter removeFn t0).getSize dir)
    ∧ ((trimHelper dir minValue tileCount getter removeFn t0).getSize dir ≤ minValue
        ∨ ∃ i : Nat, i < tileCount.toNat
          ∧ (getter (trimHelper dir minValue tileCount getter removeFn t0) (i : Int)).isSome) := by
  have h := trimLoop_spec dir minValue tileCount getter removeFn (fun s => hrem s dir)
    (fun s => InBounds s ∧ (∀ y x, relTileAt s y x = relTileAt t0 y x)
      ∧ ∀ d, d ≠ dir → s.getSize d = t0.getSize d)
    (by
      intro s hP hlt hchk
      obtain ⟨hBs, hrel, hsz⟩ := hP
      obtain ⟨h1, h2⟩ := hstep s hBs hsz hchk
      refine ⟨h1, fun y x => (h2 y x).trans (hrel y x), ?_⟩
      intro d hd
      rw [getSize_setSize_ne _ _ _ _ hd, hrem, hsz d hd])
    (t0.getSize dir - minValue).toNat t0 ⟨hB, fun _ _ => rfl, fun _ _ => rfl⟩ (le_refl _)
  obtain ⟨⟨h1, h2, h3⟩, h4, h5, h6⟩ := h
  exact ⟨h1, h2, h3, h4, h5, h6⟩

theorem removeNorth_getSize (s : Tileset) (d : Dir) : (removeNorth s).getSize d = s.getSize d := by
  cases d <;> rfl

theorem removeWest_getSize (s : Tileset) (d : Dir) : (removeWest s).getSize d = s.getSize d := by
  cases d <;> rfl

theorem removeEast_getSize (s : Tileset) (d : Dir) : (removeEast s).getSize d = s.getSize d := by
  cases d <;> rfl

theorem removeSouth_getSize (s : Tileset) (d : Dir) : (removeSouth s).getSize d = s.getSize d := by
  unfold removeSouth
  split <;> cases d <;> rfl

theorem numCols_eq_of_getSize (s t : Tileset) (hW : s.getSize Dir.W = t.getSize Dir.W)
    (hE : s.getSize Dir.E = t.getSize Dir.E) : s.numCols = t.numCols := by
  simp only [getSize] at hW hE
  simp only [numCols, hW, hE]

theorem numRows_eq_of_getSize (s t : Tileset) (hN : s.getSize Dir.N = t.getSize Dir.N)
    (hS : s.getSize Dir.S = t.getSize Dir.S) : s.numRows = t.numRows := by
  simp only [getSize] at hN hS
  simp only [numRows, hN, hS]

/-- The four passes of `trim` together. -/
theorem trimGrid_spec (t : Tileset) (hB : InBounds t) :
    InBounds (trimGrid t)
    ∧ (∀ y x, relTileAt (trimGrid t) y x = relTileAt t y x)
    ∧ ((trimGrid t).sizeN ≤ t.sizeN ∧ (trimGrid t).sizeS ≤ t.sizeS
        ∧ (trimGrid t).sizeW ≤ t.sizeW ∧ (trimGrid t).sizeE ≤ t.sizeE)
    ∧ ((0 ≤ t.sizeN → 0 ≤ (trimGrid t).sizeN) ∧ (1 ≤ t.sizeS → 1 ≤ (trimGrid t).sizeS)
        ∧ (0 ≤ t.sizeW → 0 ≤ (trimGrid t).sizeW) ∧ (1 ≤ t.sizeE → 1 ≤ (trimGrid t).sizeE))
    ∧ ((trimGrid t).sizeN ≤ 0 ∨ ∃ col, ((trimGrid t).getTileAt 0 col).isSome)
    ∧ ((trimGrid t).sizeS ≤ 1
        ∨ ∃ col, ((trimGrid t).getTileAt ((trimGrid t).numRows - 1) col).isSome)
    ∧ ((trimGrid t).sizeW ≤ 0 ∨ ∃ row, ((trimGrid t).getTileAt row 0).isSome)
    ∧ ((trimGrid t).sizeE ≤ 1
        ∨ ∃ row, ((trimGrid t).getTileAt row ((trimGrid t).numCols - 1)).isSome) := by
  have key : ∀ t1 t2 t3 t4 : Tileset,
      t1 = trimHelper Dir.N 0 t.numCols (fun s i => s.getTileAt 0 i) removeNorth t →
      t2 = trimHelper Dir.S 1 t1.numCols (fun s i => s.getTileAt (s.numRows - 1) i)
        removeSouth t1 →
      t3 = trimHelper Dir.W 0 t2.numRows (fun s i => s.getTileAt i 0) removeWest t2 →
      t4 = trimHelper Dir.E 1 t3.numRows (fun s i => s.getTileAt i (s.numCols - 1))
        removeEast t3 →
      InBounds t4
      ∧ (∀ y x, relTileAt t4 y x = relTileAt t y x)
      ∧ (t4.sizeN ≤ t.sizeN ∧ t4.sizeS ≤ t.sizeS ∧ t4.sizeW ≤ t.sizeW ∧ t4.sizeE ≤ t.sizeE)
      ∧ ((0 ≤ t.sizeN → 0 ≤ t4.sizeN) ∧ (1 ≤ t.sizeS → 1 ≤ t4.sizeS)
          ∧ (0 ≤ t.sizeW → 0 ≤ t4.sizeW) ∧ (1 ≤ t.sizeE → 1 ≤ t4.sizeE))
      ∧ (t4.sizeN ≤ 0 ∨ ∃ col, (t4.getTileAt 0 col).isSome)
      ∧ (t4.sizeS ≤ 1 ∨ ∃ col, (t4.getTileAt (t4.numRows - 1) col).isSome)
      ∧ (t4.sizeW ≤ 0 ∨ ∃ row, (t4.getTileAt row 0).isSome)
      ∧ (t4.sizeE ≤ 1 ∨ ∃ row, (t4.getTileAt row (t4.numCols - 1)).isSome) := by
    intro t1 t2 t3 t4 h1 h2 h3 h4
    -- north
    have s1 := trimHelper_spec Dir.N 0 t.numCols
      (fun s i => s.getTileAt 0 i) removeNorth t removeNorth_getSize
      (by
        intro s hBs hsz hchk
        have hc := numCols_eq_of_getSize s t (hsz Dir.W (by decide)) (hsz Dir.E (by decide))
        exact stepNorth_spec s hBs (by rw [hc]; exact hchk)) hB
    rw [← h1] at s1
    obtain ⟨b1, r1, o1, le1, ge1, e1⟩ := s1
    -- south
    have s2 := trimHelper_spec Dir.S 1 t1.numCols
      (fun s i => s.getTileAt (s.numRows - 1) i) removeSouth t1 removeSouth_getSize
      (by
        intro s hBs hsz hchk
        have hc := numCols_eq_of_getSize s t1 (hsz Dir.W (by decide)) (hsz Dir.E (by decide))
        exact stepSouth_spec s hBs (by rw [hc]; exact hchk)) b1
    rw [← h2] at s2
    obtain ⟨b2, r2, o2, le2, ge2, e2⟩ := s2
    -- west
    have s3 := trimHelper_spec Dir.W 0 t2.numRows
      (fun s i => s.getTileAt i 0) removeWest t2 removeWest_getSize
      (by
        intro s hBs hsz hchk
        have hc := numRows_eq_of_getSize s t2 (hsz Dir.N (by decide)) (hsz Dir.S (by decide))
        exact stepWest_spec s hBs (by rw [hc]; exact hchk)) b2
    rw [← h3] at s3
    obtain ⟨b3, r3, o3, le3, ge3, e3⟩ := s3
    -- east
    have s4 := trimHelper_spec Dir.E 1 t3.numRows
      (fun s i => s.getTileAt i (s.numCols - 1)) removeEast t3 removeEast_getSize
      (by
        intro s hBs hsz hchk
        have hc := numRows_eq_of_getSize s t3 (hsz Dir.N (by decide)) (hsz Dir.S (by decide))
        exact stepEast_spec s hBs (by rw [hc]; exact hchk)) b3
    rw [← h4] at s4
    obtain ⟨b4, r4, o4, le4, ge4, e4⟩ := s4
    have o1S := o1 Dir.S (by decide)
    have o1W := o1 Dir.W (by decide)
    have o1E := o1 Dir.E (by decide)
    have o2N := o2 Dir.N (by decide)
    have o2W := o2 Dir.W (by decide)
    have o2E := o2 Dir.E (by decide)
    have o3N := o3 Dir.N (by decide)
    have o3S := o3 Dir.S (by decide)
    have o3E := o3 Dir.E (by decide)
    have o4N := o4 Dir.N (by decide)
    have o4S := o4 Dir.S (by decide)
    have o4W := o4 Dir.W (by decide)
    simp only [getSize] at o1S o1W o1E o2N o2W o2E o3N o3S o3E o4N o4S o4W
    simp only [getSize] at le1 le2 le3 le4 ge1 ge2 ge3 ge4 e1 e2 e3 e4
    have r34 : ∀ y x, relTileAt t4 y x = relTileAt t3 y x := r4
    have r24 : ∀ y x, relTileAt t4 y x = relTileAt t2 y x := fun y x => (r4 y x).trans (r3 y x)
    have r14 : ∀ y x, relTileAt t4 y x = relTileAt t1 y x := fun y x => (r24 y x).trans (r2 y x)
    refine ⟨b4, fun y x => (r14 y x).trans (r1 y x), ⟨by omega, by omega, by omega, by omega⟩,
      ⟨fun h => by have := ge1 h; omega, fun h => by have := ge2 (by omega); omega,
       fun h => by have := ge3 (by omega); omega, fun h => by have := ge4 (by omega); omega⟩,
      ?_, ?_, ?_, ?_⟩
    · rcases e1 with e1 | ⟨i, _, hi⟩
      · left; omega
      · right
        refine ⟨(i : Int) - t1.sizeW + t4.sizeW, ?_⟩
        have := r14 (0 - t1.sizeN) ((i : Int) - t1.sizeW)
        unfold relTileAt at this
        have eN : t4.sizeN = t1.sizeN := by omega
        rw [eN] at this
        simp only [sub_add_cancel] at this
        rw [this]; exact hi
    · rcases e2 with e2 | ⟨i, _, hi⟩
      · left; omega
      · right
        refine ⟨(i : Int) - t2.sizeW + t4.sizeW, ?_⟩
        have := r24 (t2.numRows - 1 - t2.sizeN) ((i : Int) - t2.sizeW)
        unfold relTileAt at this
        simp only [sub_add_cancel] at this
        have eR : t4.numRows - 1 = t2.numRows - 1 - t2.sizeN + t4.sizeN := by
          simp only [numRows]; omega
        rw [eR, this]; exact hi
    · rcases e3 with e3 | ⟨i, _, hi⟩
      · left; omega
      · right
        refine ⟨(i : Int) - t3.sizeN + t4.sizeN, ?_⟩
        have := r34 ((i : Int) - t3.sizeN) (0 - t3.sizeW)
        unfold relTileAt at this
        have eW : t4.sizeW = t3.sizeW := by omega
        rw [eW] at this
        simp only [sub_add_cancel] at this
        rw [this]; exact hi
    · rcases e4 with e4 | ⟨i, _, hi⟩
      · left; omega
      · right
        exact ⟨(i : Int), hi⟩
  exact key _ _ _ _ rfl rfl rfl rfl

theorem inBounds_render (g : Globals) (b : Bool) (t : Tileset) (h : InBounds t) :
    InBounds (t.render g b) := by
  intro row col hs
  rw [render_getTileAt] at hs
  simpa [numRows, numCols] using h row col hs

theorem relTileAt_render (g : Globals) (b : Bool) (t : Tileset) (y x : Int) :
    relTileAt (t.render g b) y x = relTileAt t y x := by
  simp [relTileAt]

theorem relCoordsOfTiles_eq (s t : Tileset) (h : ∀ y x, relTileAt s y x = relTileAt t y x) :
    relCoordsOfTiles s = relCoordsOfTiles t := by
  have aux : ∀ a b : Tileset, (∀ y x, relTileAt a y x = relTileAt b y x) →
      relCoordsOfTiles a ⊆ relCoordsOfTiles b := by
    intro a b hab p hp
    obtain ⟨row, col, hs, rfl⟩ := hp
    refine ⟨row - a.sizeN + b.sizeN, col - a.sizeW + b.sizeW, ?_, ?_⟩
    · have := hab (row - a.sizeN) (col - a.sizeW)
      unfold relTileAt at this
      simp only [sub_add_cancel] at this
      rw [← this]; exact hs
    · simp
  exact Set.Subset.antisymm (aux s t h) (aux t s (fun y x => (h y x).symm))

/-! ## Trim keeps the tiles and reaches the used area -/

/-- C3. `trim()` never removes a present tile and never moves one: when all present
tiles lie inside the bounds, the tile found at each origin-relative coordinate is the
same before and after, and so is the set of origin-relative coordinates of present
tiles. -/
theorem trim_keeps_tiles (g : Globals) (t : Tileset) (hB : InBounds t) :
    relCoordsOfTiles (t.trim g) = relCoordsOfTiles t
    ∧ ∀ y x : Int, relTileAt (t.trim g) y x = relTileAt t y x := by
  have h : ∀ y x : Int, relTileAt (t.trim g) y x = relTileAt t y x := by
    intro y x
    unfold trim
    rw [relTileAt_render]
    exact (trimGrid_spec t hB).2.1 y x
  exact ⟨relCoordsOfTiles_eq _ _ h, h⟩

theorem trim_keeps_tiles_witness :
    InBounds marginTile
    ∧ (relCoordsOfTiles (marginTile.trim sampleGlobals) = relCoordsOfTiles marginTile
      ∧ ∀ y x : Int, relTileAt (marginTile.trim sampleGlobals) y x = relTileAt marginTile y x) :=
  ⟨inBounds_of_tilesInBounds _ (by decide),
    trim_keeps_tiles sampleGlobals marginTile (inBounds_of_tilesInBounds _ (by decide))⟩

/-- C4. Postcondition of `trim()`: for a tileset with valid extents whose present tiles
lie inside its bounds, no extent grows, the extents stay valid, and in each direction
the extent is at its minimum or the outermost row or column of the final grid holds a
present tile. -/
theorem trim_postcondition (g : Globals) (t : Tileset) (hB : InBounds t)
    (hN : 0 ≤ t.sizeN) (hW : 0 ≤ t.sizeW) (hS : 1 ≤ t.sizeS) (hE : 1 ≤ t.sizeE) :
    ((t.trim g).sizeN ≤ t.sizeN ∧ (t.trim g).sizeS ≤ t.sizeS
      ∧ (t.trim g).sizeW ≤ t.sizeW ∧ (t.trim g).sizeE ≤ t.sizeE)
    ∧ (0 ≤ (t.trim g).sizeN ∧ 0 ≤ (t.trim g).sizeW
      ∧ 1 ≤ (t.trim g).sizeS ∧ 1 ≤ (t.trim g).sizeE)
    ∧ ((t.trim g).sizeN = 0
      ∨ ∃ col : Int, 0 ≤ col ∧ col < (t.trim g).numCols ∧ ((t.trim g).getTileAt 0 col).isSome)
    ∧ ((t.trim g).sizeS = 1
      ∨ ∃ col : Int, 0 ≤ col ∧ col < (t.trim g).numCols
        ∧ ((t.trim g).getTileAt ((t.trim g).numRows - 1) col).isSome)
    ∧ ((t.trim g).sizeW = 0
      ∨ ∃ row : Int, 0 ≤ row ∧ row < (t.trim g).numRows ∧ ((t.trim g).getTileAt row 0).isSome)
    ∧ ((t.trim g).sizeE = 1
      ∨ ∃ row : Int, 0 ≤ row ∧ row < (t.trim g).numRows
        ∧ ((t.trim g).getTileAt row ((t.trim g).numCols - 1)).isSome) := by
  obtain ⟨b, _, ⟨l1, l2, l3, l4⟩, ⟨g1, g2, g3, g4⟩, e1, e2, e3, e4⟩ := trimGrid_spec t hB
  have g1 := g1 hN
  have g2 := g2 hS
  have g3 := g3 hW
  have g4 := g4 hE
  have hr : ∀ row col, (t.trim g).getTileAt row col = (trimGrid t).getTileAt row col := by
    intro row col; unfold trim; rw [render_getTileAt]
  have hsN : (t.trim g).sizeN = (trimGrid t).sizeN := by unfold trim; simp
  have hsS : (t.trim g).sizeS = (trimGrid t).sizeS := by unfold trim; simp
  have hsW : (t.trim g).sizeW = (trimGrid t).sizeW := by unfold trim; simp
  have hsE : (t.trim g).sizeE = (trimGrid t).sizeE := by unfold trim; simp
  have hnr : (t.trim g).numRows = (trimGrid t).numRows := by simp only [numRows, hsN, hsS]
  have hnc : (t.trim g).numCols = (trimGrid t).numCols := by simp only [numCols, hsW, hsE]
  simp only [hr, hsN, hsS, hsW, hsE, hnr, hnc]
  refine ⟨⟨l1, l2, l3, l4⟩, ⟨g1, g3, g2, g4⟩, ?_, ?_, ?_, ?_⟩
  · rcases e1 with e | ⟨col, hc⟩
    · left; omega
    · right
      obtain ⟨_, _, c1, c2⟩ := b _ _ hc
      exact ⟨col, c1, c2, hc⟩
  · rcases e2 with e | ⟨col, hc⟩
    · left; omega
    · right
      obtain ⟨_, _, c1, c2⟩ := b _ _ hc
      exact ⟨col, c1, c2, hc⟩
  · rcases e3 with e | ⟨row, hc⟩
    · left; omega
    · right
      obtain ⟨c1, c2, _, _⟩ := b _ _ hc
      exact ⟨row, c1, c2, hc⟩
  · rcases e4 with e | ⟨row, hc⟩
    · left; omega
    · right
      obtain ⟨c1, c2, _, _⟩ := b _ _ hc
      exact ⟨row, c1, c2, hc⟩

theorem trim_postcondition_witness :
    InBounds marginTile ∧ 0 ≤ marginTile.sizeN ∧ 0 ≤ marginTile.sizeW
    ∧ 1 ≤ marginTile.sizeS ∧ 1 ≤ marginTile.sizeE
    ∧ ((marginTile.trim sampleGlobals).sizeN ≤ marginTile.sizeN
      ∧ (marginTile.trim sampleGlobals).sizeS ≤ marginTile.sizeS
      ∧ (marginTile.trim sampleGlobals).sizeW ≤ marginTile.sizeW
      ∧ (marginTile.trim sampleGlobals).sizeE ≤ marginTile.sizeE)
    ∧ (0 ≤ (marginTile.trim sampleGlobals).sizeN ∧ 0 ≤ (marginTile.trim sampleGlobals).sizeW
      ∧ 1 ≤ (marginTile.trim sampleGlobals).sizeS ∧ 1 ≤ (marginTile.trim sampleGlobals).sizeE) :=
  have h := trim_postcondition sampleGlobals marginTile (inBounds_of_tilesInBounds _ (by decide))
    (by decide) (by decide) (by decide) (by decide)
  ⟨inBounds_of_tilesInBounds _ (by decide), by decide, by decide, by decide, by decide,
    h.1, h.2.1⟩

/-! ## Expansion followed by trim -/

/-- The loop of `trimHelper` does nothing when its test fails at the start. -/
theorem trimLoop_stop (dir : Dir) (minValue tileCount : Int)
    (getter : Tileset → Int → Option Tile) (removeFn : Tileset → Tileset) (n : Nat)
    (t : Tileset)
    (h : (decide (t.getSize dir ≤ minValue)
      || (List.range tileCount.toNat).any (fun (i : Nat) => (getter t (i : Int)).isSome)) = true) :
    trimLoop dir minValue tileCount getter removeFn n t = t := by
  cases n with
  | zero => rfl
  | succ n =>
    unfold trimLoop
    rw [Bool.or_eq_true, decide_eq_true_eq] at h
    rcases h with h | h
    · have : ¬ t.getSize dir > minValue := by omega
      rw [if_neg this]
    · simp only [h, if_true, ite_self]

/-- Replacing the rendering fields does not change what `getTileAt` reads. -/
theorem getTileAt_withRender (t : Tileset) (tb : Option Table) (ra : Option RenderArea)
    (row col : Int) :
    getTileAt { t with table := tb, _renderArea := ra } row col = t.getTileAt row col := rfl

/-- The four passes of `trim` after a one-step north expansion of a tileset that has
nothing to trim: only the inserted row is removed. -/
theorem trimGrid_expand_north (g : Globals) (t : Tileset) (hN : 0 ≤ t.sizeN)
    (hT : nothingToTrim t = true) :
    trimGrid (t.expand g Dir.N 1)
      = { t with table := (t.expand g Dir.N 1).table,
                 _renderArea := (t.expand g Dir.N 1)._renderArea } := by
  unfold nothingToTrim at hT
  simp only [Bool.and_eq_true] at hT
  obtain ⟨⟨⟨c1, c2⟩, c3⟩, c4⟩ := hT
  have hX : t.expand g Dir.N 1
      = { t with sizeN := t.sizeN + 1, grid := [] :: t.grid
                 table := (t.expand g Dir.N 1).table
                 _renderArea := (t.expand g Dir.N 1)._renderArea } := by
    conv_lhs => unfold expand
    rw [render_frame]
    simp only [setSize, getSize, spliceFront]
    rfl
  generalize (t.expand g Dir.N 1).table = tb at hX ⊢
  generalize (t.expand g Dir.N 1)._renderArea = ra at hX ⊢
  rw [hX]
  have hfuel : (t.sizeN + 1 - 0).toNat = t.sizeN.toNat + 1 := by omega
  have hpass1 : trimHelper Dir.N 0
      (numCols { t with sizeN := t.sizeN + 1, grid := [] :: t.grid, table := tb, _renderArea := ra })
      (fun s i => s.getTileAt 0 i) removeNorth
      { t with sizeN := t.sizeN + 1, grid := [] :: t.grid, table := tb, _renderArea := ra }
      = { t with table := tb, _renderArea := ra } := by
    unfold trimHelper
    simp only [getSize, hfuel]
    unfold trimLoop
    have hgt : getSize Dir.N
        { t with sizeN := t.sizeN + 1, grid := [] :: t.grid, table := tb, _renderArea := ra } > 0 := by
      simp only [getSize]; omega
    rw [if_pos hgt]
    have hany : ¬ ((List.range (numCols
        { t with sizeN := t.sizeN + 1, grid := [] :: t.grid, table := tb, _renderArea := ra }).toNat).any
        (fun (i : Nat) => (getTileAt
          { t with sizeN := t.sizeN + 1, grid := [] :: t.grid, table := tb, _renderArea := ra }
          0 (i : Int)).isSome) = true) := by
      simp [getTileAt, arrGet]
    rw [if_neg hany]
    have hnext : setSize Dir.N (getSize Dir.N (removeNorth
        { t with sizeN := t.sizeN + 1, grid := [] :: t.grid, table := tb, _renderArea := ra }) - 1)
        (removeNorth
          { t with sizeN := t.sizeN + 1, grid := [] :: t.grid, table := tb, _renderArea := ra })
        = { t with table := tb, _renderArea := ra } := by
      simp [setSize, getSize, removeNorth]
    simp only [hnext]
    exact trimLoop_stop _ _ _ _ _ _ _ c1
  unfold trimGrid
  simp only [hpass1]
  have e2 : trimHelper Dir.S 1 (numCols { t with table := tb, _renderArea := ra })
      (fun s i => s.getTileAt (s.numRows - 1) i) removeSouth
      { t with table := tb, _renderArea := ra } = { t with table := tb, _renderArea := ra } :=
    trimLoop_stop _ _ _ _ _ _ _ c2
  simp only [e2]
  have e3 : trimHelper Dir.W 0 (numRows { t with table := tb, _renderArea := ra })
      (fun s i => s.getTileAt i 0) removeWest
      { t with table := tb, _renderArea := ra } = { t with table := tb, _renderArea := ra } :=
    trimLoop_stop _ _ _ _ _ _ _ c3
  simp only [e3]
  exact trimLoop_stop _ _ _ _ _ _ _ c4

/-- C5 (as stated, refuted). Expanding north and trimming does not restore the extents
of every tileset: on the tileset with an empty east column, `expand('N', 1)` followed
by `trim()` also removes that column. -/
theorem expand_then_trim_not_identity :
    ¬ (∀ (g : Globals) (t : Tileset) (k : Nat), 1 ≤ k →
        ((t.expand g Dir.N k).trim g).sizeN = t.sizeN
        ∧ ((t.expand g Dir.N k).trim g).sizeS = t.sizeS
        ∧ ((t.expand g Dir.N k).trim g).sizeW = t.sizeW
        ∧ ((t.expand g Dir.N k).trim g).sizeE = t.sizeE
        ∧ ∀ row col : Int, (((t.expand g Dir.N k).trim g).getTileAt row col).isSome
            = (t.getTileAt row col).isSome) :=
  fun h => absurd (h sampleGlobals wideTile 1 (le_refl 1)).2.2.2.1 (by decide)

/-- C5 (amended). For a tileset with a non-negative north extent on which `trim()` has
nothing to remove, `expand('N', 1)` followed immediately by `trim()` gives back the
four extents and the grid, hence the same tile at every `(row, col)`. -/
theorem expand_one_then_trim_restores (g : Globals) (t : Tileset) (hN : 0 ≤ t.sizeN)
    (hT : nothingToTrim t = true) :
    ((t.expand g Dir.N 1).trim g).sizeN = t.sizeN
    ∧ ((t.expand g Dir.N 1).trim g).sizeS = t.sizeS
    ∧ ((t.expand g Dir.N 1).trim g).sizeW = t.sizeW
    ∧ ((t.expand g Dir.N 1).trim g).sizeE = t.sizeE
    ∧ ((t.expand g Dir.N 1).trim g).grid = t.grid
    ∧ ∀ row col : Int, ((t.expand g Dir.N 1).trim g).getTileAt row col = t.getTileAt row col := by
  have h := trimGrid_expand_north g t hN hT
  unfold trim
  rw [h]
  refine ⟨?_, ?_, ?_, ?_, ?_, fun row col => ?_⟩
  · rw [render_sizeN]
  · rw [render_sizeS]
  · rw [render_sizeW]
  · rw [render_sizeE]
  · rw [render_grid]
  · rw [render_getTileAt, getTileAt_withRender]

theorem expand_one_then_trim_restores_witness :
    0 ≤ tallTile.sizeN ∧ nothingToTrim tallTile = true
    ∧ (((tallTile.expand sampleGlobals Dir.N 1).trim sampleGlobals).sizeN = tallTile.sizeN
      ∧ ((tallTile.expand sampleGlobals Dir.N 1).trim sampleGlobals).sizeS = tallTile.sizeS
      ∧ ((tallTile.expand sampleGlobals Dir.N 1).trim sampleGlobals).sizeW = tallTile.sizeW
      ∧ ((tallTile.expand sampleGlobals Dir.N 1).trim sampleGlobals).sizeE = tallTile.sizeE
      ∧ ((tallTile.expand sampleGlobals Dir.N 1).trim sampleGlobals).grid = tallTile.grid
      ∧ ∀ row col : Int,
          ((tallTile.expand sampleGlobals Dir.N 1).trim sampleGlobals).getTileAt row col
            = tallTile.getTileAt row col) :=
  ⟨by decide, by decide, expand_one_then_trim_restores sampleGlobals tallTile (by decide) (by decide)⟩

/-! ## The render area -/

theorem overlapsViewport_iff_common_point (lo hi size : ℚ) (h : lo < hi) (hs : 0 < size) :
    overlapsViewport lo hi size ↔ ∃ p : ℚ, (lo ≤ p ∧ p < hi) ∧ (0 < p ∧ p < size) := by
  unfold overlapsViewport
  constructor
  · rintro ⟨h1, h2⟩
    by_cases h0 : 0 < lo
    · exact ⟨lo, ⟨le_refl _, h⟩, h0, h1⟩
    · have h0 : lo ≤ 0 := not_lt.1 h0
      refine ⟨min hi size / 2, ⟨?_, ?_⟩, ?_, ?_⟩
      · have : 0 < min hi size := lt_min h2 hs
        linarith
      · have : 0 < min hi size := lt_min h2 hs
        have := min_le_left hi size
        linarith
      · have : 0 < min hi size := lt_min h2 hs
        linarith
      · have : 0 < min hi size := lt_min h2 hs
        have := min_le_right hi size
        linarith
  · rintro ⟨p, ⟨h1, h2⟩, h3, h4⟩
    exact ⟨by linarith, by linarith⟩

/-- One axis of `computeRenderArea`: with a positive cell size, a cell index inside the
grid is in the computed range exactly when the cell overlaps the viewport. -/
theorem axis_exact (full s size : ℚ) (n cell : Int) (hs : 0 < s) (h0 : 0 ≤ cell)
    (hn : cell < n) (first : Int) (hfirst : first = if full < 0 then ⌊-full / s⌋ else 0) :
    (first ≤ cell ∧ cell < first + min ⌈(size - (full + first * s)) / s⌉ (n - first))
      ↔ overlapsViewport (full + cell * s) (full + (cell + 1) * s) size := by
  unfold overlapsViewport
  have hleft : first ≤ cell ↔ 0 < full + ((cell : ℚ) + 1) * s := by
    by_cases hf : full < 0
    · rw [hfirst, if_pos hf]
      rw [← Int.lt_add_one_iff, Int.floor_lt, div_lt_iff₀ hs]
      push_cast
      constructor <;> intro h <;> linarith
    · rw [hfirst, if_neg hf]
      have hf : 0 ≤ full := not_lt.1 hf
      have hc : (0 : ℚ) ≤ (cell : ℚ) := by exact_mod_cast h0
      have : 0 < ((cell : ℚ) + 1) * s := mul_pos (by linarith) hs
      constructor
      · intro _; linarith
      · intro _; exact h0
  have hright : cell < first + min ⌈(size - (full + first * s)) / s⌉ (n - first)
      ↔ full + (cell : ℚ) * s < size := by
    have e : cell < first + min ⌈(size - (full + first * s)) / s⌉ (n - first)
        ↔ cell - first < min ⌈(size - (full + first * s)) / s⌉ (n - first) := by
      constructor <;> intro h <;> omega
    rw [e, lt_min_iff, Int.lt_ceil, lt_div_iff₀ hs]
    push_cast
    have e2 : ((cell : ℚ) - (first : ℚ)) * s = (cell : ℚ) * s - (first : ℚ) * s := by ring
    rw [e2]
    constructor
    · rintro ⟨h, _⟩; linarith
    · intro h
      exact ⟨by linarith, by omega⟩
  rw [hleft, hright]
  exact And.comm

/-- C6. `computeRenderArea` returns exactly the grid cells that meet the viewport: for
positive scaled tile sizes, a cell `(row, col)` of the grid lies in the returned
rectangle if and only if its screen rectangle overlaps the viewport in both axes; the
anchor of the rectangle is the screen position of its first cell. -/
theorem computeRenderArea_exact (g : Globals) (t : Tileset)
    (hw : 0 < t.getScaledTileWidth g) (hh : 0 < t.getScaledTileHeight g)
    (row col : Int) (hr : 0 ≤ row ∧ row < t.numRows) (hc : 0 ≤ col ∧ col < t.numCols) :
    (((t.computeRenderArea g).firstRow ≤ row
        ∧ row < (t.computeRenderArea g).firstRow + (t.computeRenderArea g).numRows)
      ∧ ((t.computeRenderArea g).firstCol ≤ col
        ∧ col < (t.computeRenderArea g).firstCol + (t.computeRenderArea g).numCols)
      ↔ overlapsViewport (t.fullTableY g + row * t.getScaledTileHeight g)
          (t.fullTableY g + (row + 1) * t.getScaledTileHeight g) g.rendererHeight
        ∧ overlapsViewport (t.fullTableX g + col * t.getScaledTileWidth g)
          (t.fullTableX g + (col + 1) * t.getScaledTileWidth g) g.rendererWidth)
    ∧ (t.computeRenderArea g).posX
        = t.fullTableX g + (t.computeRenderArea g).firstCol * t.getScaledTileWidth g
    ∧ (t.computeRenderArea g).posY
        = t.fullTableY g + (t.computeRenderArea g).firstRow * t.getScaledTileHeight g := by
  refine ⟨?_, rfl, rfl⟩
  have hrow := axis_exact (t.fullTableY g) (t.getScaledTileHeight g) g.rendererHeight
    t.numRows row hh hr.1 hr.2 (t.computeRenderArea g).firstRow rfl
  have hcol := axis_exact (t.fullTableX g) (t.getScaledTileWidth g) g.rendererWidth
    t.numCols col hw hc.1 hc.2 (t.computeRenderArea g).firstCol rfl
  exact and_congr hrow hcol

theorem computeRenderArea_exact_witness :
    0 < marginTile.getScaledTileWidth sampleGlobals
    ∧ 0 < marginTile.getScaledTileHeight sampleGlobals
    ∧ ((0 : Int) ≤ 1 ∧ (1 : Int) < marginTile.numRows)
    ∧ ((0 : Int) ≤ 2 ∧ (2 : Int) < marginTile.numCols)
    ∧ ((((marginTile.computeRenderArea sampleGlobals).firstRow ≤ 1
          ∧ 1 < (marginTile.computeRenderArea sampleGlobals).firstRow
              + (marginTile.computeRenderArea sampleGlobals).numRows)
        ∧ ((marginTile.computeRenderArea sampleGlobals).firstCol ≤ 2
          ∧ 2 < (marginTile.computeRenderArea sampleGlobals).firstCol
              + (marginTile.computeRenderArea sampleGlobals).numCols)
        ↔ overlapsViewport
            (marginTile.fullTableY sampleGlobals
              + ((1 : Int) : ℚ) * marginTile.getScaledTileHeight sampleGlobals)
            (marginTile.fullTableY sampleGlobals
              + (((1 : Int) : ℚ) + 1) * marginTile.getScaledTileHeight sampleGlobals)
            sampleGlobals.rendererHeight
          ∧ overlapsViewport
            (marginTile.fullTableX sampleGlobals
              + ((2 : Int) : ℚ) * marginTile.getScaledTileWidth sampleGlobals)
            (marginTile.fullTableX sampleGlobals
              + (((2 : Int) : ℚ) + 1) * marginTile.getScaledTileWidth sampleGlobals)
            sampleGlobals.rendererWidth)
      ∧ (marginTile.computeRenderArea sampleGlobals).posX
          = marginTile.fullTableX sampleGlobals
            + (marginTile.computeRenderArea sampleGlobals).firstCol
              * marginTile.getScaledTileWidth sampleGlobals
      ∧ (marginTile.computeRenderArea sampleGlobals).posY
          = marginTile.fullTableY sampleGlobals
            + (marginTile.computeRenderArea sampleGlobals).firstRow
              * marginTile.getScaledTileHeight sampleGlobals) :=
  ⟨by norm_num [getScaledTileWidth, getDisplayScale, sampleGlobals, marginTile, Tileset.default],
    by norm_num [getScaledTileHeight, getDisplayScale, sampleGlobals, marginTile, Tileset.default],
    by decide, by decide,
    computeRenderArea_exact sampleGlobals marginTile
      (by norm_num [getScaledTileWidth, getDisplayScale, sampleGlobals, marginTile,
        Tileset.default])
      (by norm_num [getScaledTileHeight, getDisplayScale, sampleGlobals, marginTile,
        Tileset.default])
      1 2 (by decide) (by decide)⟩

/-- C7 (amended). For a positive global zoom and a tileset with positive zoom level and
tile dimensions, the rectangle returned by `computeRenderArea` starts at non-negative
indices and does not extend past the grid. -/
theorem computeRenderArea_within_grid (g : Globals) (t : Tileset)
    (hz : 0 < g.globalZoomLevel) (hzt : 0 < t.zoomLevel)
    (htw : 0 < t.tileWidth) (hth : 0 < t.tileHeight) :
    0 ≤ (t.computeRenderArea g).firstRow ∧ 0 ≤ (t.computeRenderArea g).firstCol
    ∧ (t.computeRenderArea g).firstRow + (t.computeRenderArea g).numRows ≤ t.numRows
    ∧ (t.computeRenderArea g).firstCol + (t.computeRenderArea g).numCols ≤ t.numCols := by
  have hsc : 0 < t.getDisplayScale g := div_pos hz hzt
  have hw : 0 < t.getScaledTileWidth g := mul_pos htw hsc
  have hh : 0 < t.getScaledTileHeight g := mul_pos hth hsc
  have first_nonneg : ∀ full s : ℚ, 0 < s → (0 : Int) ≤ if full < 0 then ⌊-full / s⌋ else 0 := by
    intro full s hs
    split
    · apply Int.floor_nonneg.2
      apply div_nonneg _ hs.le
      linarith
    · exact le_refl _
  refine ⟨first_nonneg _ _ hh, first_nonneg _ _ hw, ?_, ?_⟩
  · have := min_le_right ⌈(g.rendererHeight - (t.computeRenderArea g).posY) / t.getScaledTileHeight g⌉
      (t.numRows - (t.computeRenderArea g).firstRow)
    have e : (t.computeRenderArea g).numRows
        = min ⌈(g.rendererHeight - (t.computeRenderArea g).posY) / t.getScaledTileHeight g⌉
          (t.numRows - (t.computeRenderArea g).firstRow) := rfl
    omega
  · have := min_le_right ⌈(g.rendererWidth - (t.computeRenderArea g).posX) / t.getScaledTileWidth g⌉
      (t.numCols - (t.computeRenderArea g).firstCol)
    have e : (t.computeRenderArea g).numCols
        = min ⌈(g.rendererWidth - (t.computeRenderArea g).posX) / t.getScaledTileWidth g⌉
          (t.numCols - (t.computeRenderArea g).firstCol) := rfl
    omega

theorem computeRenderArea_within_grid_witness :
    0 < sampleGlobals.globalZoomLevel ∧ 0 < marginTile.zoomLevel
    ∧ 0 < marginTile.tileWidth ∧ 0 < marginTile.tileHeight
    ∧ (0 ≤ (marginTile.computeRenderArea sampleGlobals).firstRow
      ∧ 0 ≤ (marginTile.computeRenderArea sampleGlobals).firstCol
      ∧ (marginTile.computeRenderArea sampleGlobals).firstRow
          + (marginTile.computeRenderArea sampleGlobals).numRows ≤ marginTile.numRows
      ∧ (marginTile.computeRenderArea sampleGlobals).firstCol
          + (marginTile.computeRenderArea sampleGlobals).numCols ≤ marginTile.numCols) :=
  ⟨by norm_num [sampleGlobals], by norm_num [marginTile, Tileset.default],
    by norm_num [marginTile, Tileset.default], by norm_num [marginTile, Tileset.default],
    computeRenderArea_within_grid sampleGlobals marginTile (by norm_num [sampleGlobals])
      (by norm_num [marginTile, Tileset.default]) (by norm_num [marginTile, Tileset.default])
      (by norm_num [marginTile, Tileset.default])⟩

/-- C7 (as stated, refuted). With a positive global zoom `computeRenderArea` can return
a negative first column: it does for a tileset with tile width -512 when the origin is
100 pixels to the left. -/
theorem computeRenderArea_negative_width_not_within :
    ¬ (∀ (g : Globals) (t : Tileset), 0 < g.globalZoomLevel →
        0 ≤ (t.computeRenderArea g).firstRow ∧ 0 ≤ (t.computeRenderArea g).firstCol
        ∧ (t.computeRenderArea g).firstRow + (t.computeRenderArea g).numRows ≤ t.numRows
        ∧ (t.computeRenderArea g).firstCol + (t.computeRenderArea g).numCols ≤ t.numCols) := by
  intro h
  have h1 : (negativeWidthTile.computeRenderArea shiftedLeftGlobals).firstCol = -1 := by
    norm_num [computeRenderArea, negativeWidthTile, shiftedLeftGlobals, sampleGlobals,
      fullTableX, getScaledTileWidth, getDisplayScale, Tileset.default, Int.floor_eq_iff]
  have h2 := (h shiftedLeftGlobals negativeWidthTile
    (by norm_num [shiftedLeftGlobals, sampleGlobals])).2.1
  rw [h1] at h2
  omega

/-! ## The tileset loop of `globalZoomLevelChanged` -/

@[simp] theorem setVisible_visible (b : Bool) (t : Tileset) : (t.setVisible b)._visible = b := by
  unfold setVisible
  dsimp only
  split <;> rfl

@[simp] theorem setVisible_zOrder (b : Bool) (t : Tileset) :
    (t.setVisible b)._zOrder = t._zOrder := by
  unfold setVisible
  dsimp only
  split <;> rfl

theorem lodStep_visible (g : Globals) (ov : Option Nat) (i : Nat) (t : Tileset) :
    (lodStep g ov i t)._visible = lodVisible g (decide (some i = ov)) t := by
  simp [lodStep]

theorem lodStep_zOrder (g : Globals) (ov : Option Nat) (i : Nat) (t : Tileset) :
    (lodStep g ov i t)._zOrder = t._zOrder := by
  simp [lodStep]

theorem zOrderAt_set (g : Globals) (ov : Option Nat) (ts : List Tileset) (i : Nat) (t : Tileset)
    (h : ts[i]? = some t) (j : Nat) :
    zOrderAt (ts.set i (lodStep g ov i t)) j = zOrderAt ts j := by
  unfold zOrderAt
  by_cases hj : i = j
  · subst hj
    have hi : i < ts.length := (List.getElem?_eq_some.1 h).1
    rw [List.getElem?_set_self hi, h]
    simp [lodStep_zOrder]
  · rw [List.getElem?_set_ne hj]

/-- Specification of the tileset loop of `globalZoomLevelChanged` started at position
`i` with `n` tilesets left and a valid `bestTileset`. -/
theorem zoomLoop_spec (g : Globals) (ov : Option Nat) :
    ∀ (n i : Nat) (ts : List Tileset) (best : Nat), i + n = ts.length → best < ts.length →
      ∃ (ts1 : List Tileset) (best1 : Nat),
        zoomLoop g ov n i ts (some best) = some (ts1, some best1)
        ∧ ts1.length = ts.length
        ∧ (∀ j, j < i → ts1[j]? = ts[j]?)
        ∧ (∀ j, i ≤ j → ts1[j]? = (ts[j]?).map (lodStep g ov j))
        ∧ best1 < ts.length
        ∧ (best1 = best ∨ (i ≤ best1 ∧ visibleAt ts1 best1 = true))
        ∧ zOrderAt ts best ≤ zOrderAt ts best1
        ∧ (∀ j, i ≤ j → visibleAt ts1 j = true → zOrderAt ts j ≤ zOrderAt ts best1) := by
  intro n
  induction n with
  | zero =>
    intro i ts best hn hb
    refine ⟨ts, best, rfl, rfl, fun _ _ => rfl, ?_, hb, Or.inl rfl, le_refl _, ?_⟩
    · intro j hj
      have : ts[j]? = none := List.getElem?_eq_none (by omega)
      rw [this]; rfl
    · intro j hj hv
      have : ts[j]? = none := List.getElem?_eq_none (by omega)
      simp [visibleAt, this] at hv
  | succ n ih =>
    intro i ts best hn hb
    have hi : i < ts.length := by omega
    have hti : ts[i]? = some ts[i] := List.getElem?_eq_getElem hi
    -- the state after the body of the loop at position `i`
    have hlen1 : (ts.set i (lodStep g ov i ts[i])).length = ts.length := by simp
    have hz : ∀ j, zOrderAt (ts.set i (lodStep g ov i ts[i])) j = zOrderAt ts j :=
      zOrderAt_set g ov ts i ts[i] hti
    have hgi : (ts.set i (lodStep g ov i ts[i]))[i]? = some (lodStep g ov i ts[i]) :=
      List.getElem?_set_self hi
    have hbest1 : ∃ bt, (ts.set i (lodStep g ov i ts[i]))[best]? = some bt
        ∧ bt._zOrder = zOrderAt ts best := by
      have hb1 : best < (ts.set i (lodStep g ov i ts[i])).length := by rw [hlen1]; exact hb
      refine ⟨(ts.set i (lodStep g ov i ts[i]))[best], List.getElem?_eq_getElem hb1, ?_⟩
      rw [← hz best]
      simp [zOrderAt, List.getElem?_eq_getElem hb1]
    obtain ⟨bt, hbt, hbtz⟩ := hbest1
    have hzi : (lodStep g ov i ts[i])._zOrder = zOrderAt ts i := by
      rw [lodStep_zOrder]; simp [zOrderAt, hti]
    -- common continuation for a given new best
    have cont : ∀ nb : Nat, nb < ts.length →
        (nb = best ∨ (nb = i ∧ (lodStep g ov i ts[i])._visible = true)) →
        zOrderAt ts best ≤ zOrderAt ts nb →
        ((lodStep g ov i ts[i])._visible = true → zOrderAt ts i ≤ zOrderAt ts nb) →
        ∃ (ts1 : List Tileset) (best1 : Nat),
          zoomLoop g ov n (i + 1) (ts.set i (lodStep g ov i ts[i])) (some nb)
            = some (ts1, some best1)
          ∧ ts1.length = ts.length
          ∧ (∀ j, j < i → ts1[j]? = ts[j]?)
          ∧ (∀ j, i ≤ j → ts1[j]? = (ts[j]?).map (lodStep g ov j))
          ∧ best1 < ts.length
          ∧ (best1 = best ∨ (i ≤ best1 ∧ visibleAt ts1 best1 = true))
          ∧ zOrderAt ts best ≤ zOrderAt ts best1
          ∧ (∀ j, i ≤ j → visibleAt ts1 j = true → zOrderAt ts j ≤ zOrderAt ts best1) := by
      intro nb hnb hnbcase hnbz hnbi
      obtain ⟨ts1, best1, e, l, p1, p2, p3, p4, p5, p6⟩ :=
        ih (i + 1) (ts.set i (lodStep g ov i ts[i])) nb (by rw [hlen1]; omega)
          (by rw [hlen1]; exact hnb)
      rw [hlen1] at l p3
      simp only [hz] at p5 p6
      have hts1i : ts1[i]? = some (lodStep g ov i ts[i]) := by
        rw [p1 i (by omega), hgi]
      refine ⟨ts1, best1, e, l, ?_, ?_, p3, ?_, le_trans hnbz p5, ?_⟩
      · intro j hj
        rw [p1 j (by omega), List.getElem?_set_ne (by omega)]
      · intro j hj
        by_cases hji : j = i
        · subst hji
          rw [hts1i, hti]; rfl
        · rw [p2 j (by omega), List.getElem?_set_ne (fun h => hji h.symm)]
      · rcases p4 with p4 | ⟨p4, p4v⟩
        · rcases hnbcase with h | ⟨h, hv⟩
          · left; rw [p4, h]
          · right
            refine ⟨by omega, ?_⟩
            rw [p4, h]
            simp [visibleAt, hts1i, hv]
        · right; exact ⟨by omega, p4v⟩
      · intro j hj hv
        by_cases hji : j = i
        · subst hji
          have hv1 : (lodStep g ov j ts[j])._visible = true := by
            simpa [visibleAt, hts1i] using hv
          exact le_trans (hnbi hv1) p5
        · exact p6 j (by omega) hv
    unfold zoomLoop
    simp only [hti]
    by_cases hv : (lodStep g ov i ts[i]).isVisible = true
    · simp only [hv, if_true]
      rw [show ((some best).bind fun b => (ts.set i (lodStep g ov i ts[i]))[b]?) = some bt from hbt]
      dsimp only
      have hv1 : (lodStep g ov i ts[i])._visible = true := hv
      by_cases hgt : (lodStep g ov i ts[i])._zOrder > bt._zOrder
      · rw [if_pos hgt]
        rw [hzi, hbtz] at hgt
        exact cont i hi (Or.inr ⟨rfl, hv1⟩) (by omega) (fun _ => le_refl _)
      · rw [if_neg hgt]
        rw [hzi, hbtz] at hgt
        exact cont best hb (Or.inl rfl) (le_refl _) (fun _ => by omega)
    · simp only [hv]
      have hv1 : ¬ (lodStep g ov i ts[i])._visible = true := hv
      exact cont best hb (Or.inl rfl) (le_refl _) (fun h => absurd h hv1)

theorem lodStep_geometry (g : Globals) (ov : Option Nat) (i : Nat) (t : Tileset) :
    (lodStep g ov i t).zoomLevel = t.zoomLevel ∧ (lodStep g ov i t).tileWidth = t.tileWidth
    ∧ (lodStep g ov i t).tileHeight = t.tileHeight := by
  unfold lodStep
  rw [render_frame]
  unfold setVisible
  dsimp only
  split <;> exact ⟨rfl, rfl, rfl⟩

/-- The result of `globalZoomLevelChanged` when the overview reference is valid: it does
not fail, and its tilesets and `currentTileset` are those computed by the loop. -/
theorem globalZoomLevelChanged_spec (v : Viewer) (m : MapData) (o : Nat)
    (hm : v.currentMap = some m) (ho : m._overview = some o) (hlt : o < m.tilesets.length) :
    ∃ (v1 : Viewer) (m1 : MapData) (best1 : Nat),
      globalZoomLevelChanged v = some v1
      ∧ v1.currentMap = some m1
      ∧ v1.currentTileset = some best1
      ∧ m1._overview = some o
      ∧ m1.tilesets.length = m.tilesets.length
      ∧ (∀ j, m1.tilesets[j]? = (m.tilesets[j]?).map (lodStep v.globals (some o) j))
      ∧ best1 < m.tilesets.length
      ∧ (best1 = o ∨ visibleAt m1.tilesets best1 = true)
      ∧ (∀ j, visibleAt m1.tilesets j = true →
          zOrderAt m.tilesets j ≤ zOrderAt m.tilesets best1) := by
  obtain ⟨ts1, best1, e, l, _, p2, p3, p4, _, p6⟩ :=
    zoomLoop_spec v.globals (some o) m.tilesets.length 0 m.tilesets o (by omega) hlt
  have e2 : globalZoomLevelChanged v = some
      { v with
        originLeft := v.globals.globalOriginX, originTop := v.globals.globalOriginY
        currentMap := some { m with tilesets := ts1, icons := zoomIcons v.globals m.icons }
        currentTileset := some best1
        markersLeft := v.globals.globalOriginX
        markersTop := v.globals.globalOriginY
        markersScalePercent := v.globals.globalZoomLevel } := by
    unfold globalZoomLevelChanged
    simp only [hm, ho, e]
  refine ⟨_, { m with tilesets := ts1, icons := zoomIcons v.globals m.icons }, best1, e2, rfl,
    rfl, ho, l, fun j => p2 j (Nat.zero_le _), p3, ?_, fun j => p6 j (Nat.zero_le _)⟩
  · rcases p4 with h | ⟨_, h⟩
    · exact Or.inl h
    · exact Or.inr h

/-! ## Level of detail -/

/-- C8. Visibility policy of `globalZoomLevelChanged`: when the overview reference is
valid the function succeeds, and every tileset other than the overview ends visible if
and only if its display scale exceeds 0.7 or its scaled tile exceeds half the viewport
in both axes.  The comparison with 0.7 is strict: at a display scale of exactly 0.7,
without the half-viewport condition, the tileset is hidden. -/
theorem lod_visibility_policy (v : Viewer) (m : MapData) (o : Nat)
    (hm : v.currentMap = some m) (ho : m._overview = some o) (hlt : o < m.tilesets.length) :
    ∃ (v1 : Viewer) (m1 : MapData),
      globalZoomLevelChanged v = some v1 ∧ v1.currentMap = some m1
      ∧ ∀ (i : Nat) (t : Tileset), m.tilesets[i]? = some t → i ≠ o →
        ∃ t1, m1.tilesets[i]? = some t1
          ∧ (t1.zoomLevel = t.zoomLevel ∧ t1.tileWidth = t.tileWidth
            ∧ t1.tileHeight = t.tileHeight)
          ∧ (t1._visible = true ↔
              (t.getDisplayScale v.globals > 0.7
                ∨ (t.getScaledTileWidth v.globals > 0.5 * v.globals.rendererWidth
                  ∧ t.getScaledTileHeight v.globals > 0.5 * v.globals.rendererHeight)))
          ∧ (t.getDisplayScale v.globals = 0.7 →
              ¬ (t.getScaledTileWidth v.globals > 0.5 * v.globals.rendererWidth
                  ∧ t.getScaledTileHeight v.globals > 0.5 * v.globals.rendererHeight) →
              t1._visible = false) := by
  obtain ⟨v1, m1, best1, e, hm1, _, _, _, hts, _⟩ := globalZoomLevelChanged_spec v m o hm ho hlt
  refine ⟨v1, m1, e, hm1, ?_⟩
  intro i t hi hne
  have hvis : (lodStep v.globals (some o) i t)._visible = true ↔
      (t.getDisplayScale v.globals > 0.7
        ∨ (t.getScaledTileWidth v.globals > 0.5 * v.globals.rendererWidth
          ∧ t.getScaledTileHeight v.globals > 0.5 * v.globals.rendererHeight)) := by
    rw [lodStep_visible]
    have hd : decide (some i = some o) = false := by simp [hne]
    rw [hd]
    unfold lodVisible
    by_cases h1 : t.getDisplayScale v.globals > 0.7
    · simp [h1]
    · by_cases h2 : t.getScaledTileWidth v.globals > 0.5 * v.globals.rendererWidth
          ∧ t.getScaledTileHeight v.globals > 0.5 * v.globals.rendererHeight
      · simp [h1, h2]
      · simp [h1, h2]
  refine ⟨lodStep v.globals (some o) i t, ?_, lodStep_geometry _ _ _ _, hvis, ?_⟩
  · rw [hts i, hi]; rfl
  · intro hs hn
    have : ¬ (lodStep v.globals (some o) i t)._visible = true := by
      rw [hvis]
      rintro (h | h)
      · rw [hs] at h; exact lt_irrefl _ h
      · exact hn h
    simpa using this

theorem lod_visibility_policy_witness :
    lodViewer.currentMap = some lodMap ∧ lodMap._overview = some 0
    ∧ 0 < lodMap.tilesets.length
    ∧ (lodTileset 16 1).getDisplayScale lodViewer.globals = 3.125
    ∧ (lodTileset 100 2).getDisplayScale lodViewer.globals = 0.5
    ∧ lodVisible lodViewer.globals false (lodTileset 16 1) = true
    ∧ lodVisible lodViewer.globals false (lodTileset 100 2) = false
    ∧ ∃ (v1 : Viewer) (m1 : MapData),
      globalZoomLevelChanged lodViewer = some v1 ∧ v1.currentMap = some m1
      ∧ ∀ (i : Nat) (t : Tileset), lodMap.tilesets[i]? = some t → i ≠ 0 →
        ∃ t1, m1.tilesets[i]? = some t1
          ∧ (t1.zoomLevel = t.zoomLevel ∧ t1.tileWidth = t.tileWidth
            ∧ t1.tileHeight = t.tileHeight)
          ∧ (t1._visible = true ↔
              (t.getDisplayScale lodViewer.globals > 0.7
                ∨ (t.getScaledTileWidth lodViewer.globals
                    > 0.5 * lodViewer.globals.rendererWidth
                  ∧ t.getScaledTileHeight lodViewer.globals
                    > 0.5 * lodViewer.globals.rendererHeight)))
          ∧ (t.getDisplayScale lodViewer.globals = 0.7 →
              ¬ (t.getScaledTileWidth lodViewer.globals
                    > 0.5 * lodViewer.globals.rendererWidth
                  ∧ t.getScaledTileHeight lodViewer.globals
                    > 0.5 * lodViewer.globals.rendererHeight) →
              t1._visible = false) :=
  ⟨rfl, rfl, by decide,
    by norm_num [getDisplayScale, lodViewer, sampleGlobals, lodTileset, Tileset.default],
    by norm_num [getDisplayScale, lodViewer, sampleGlobals, lodTileset, Tileset.default],
    by norm_num [lodVisible, getDisplayScale, lodViewer, sampleGlobals, lodTileset,
      Tileset.default],
    by norm_num [lodVisible, getDisplayScale, getScaledTileWidth, getScaledTileHeight,
      lodViewer, sampleGlobals, lodTileset, Tileset.default],
    lod_visibility_policy lodViewer lodMap 0 rfl rfl (by decide)⟩

/-- C9. The overview is always visible: whatever the global zoom level and the viewport
size, after `globalZoomLevelChanged` the tileset referred to by `_overview` has
`_visible = true`. -/
theorem overview_always_visible (v : Viewer) (m : MapData) (o : Nat)
    (hm : v.currentMap = some m) (ho : m._overview = some o) (hlt : o < m.tilesets.length) :
    ∃ (v1 : Viewer) (m1 : MapData) (t1 : Tileset),
      globalZoomLevelChanged v = some v1 ∧ v1.currentMap = some m1
      ∧ m1._overview = some o ∧ m1.tilesets[o]? = some t1 ∧ t1._visible = true := by
  obtain ⟨v1, m1, best1, e, hm1, _, ho1, _, hts, _⟩ := globalZoomLevelChanged_spec v m o hm ho hlt
  refine ⟨v1, m1, lodStep v.globals (some o) o m.tilesets[o], e, hm1, ho1, ?_, ?_⟩
  · rw [hts o, List.getElem?_eq_getElem hlt]; rfl
  · rw [lodStep_visible]
    simp [lodVisible]

theorem overview_always_visible_witness :
    lodViewer.currentMap = some lodMap ∧ lodMap._overview = some 0
    ∧ 0 < lodMap.tilesets.length
    ∧ ∃ (v1 : Viewer) (m1 : MapData) (t1 : Tileset),
      globalZoomLevelChanged lodViewer = some v1 ∧ v1.currentMap = some m1
      ∧ m1._overview = some 0 ∧ m1.tilesets[0]? = some t1 ∧ t1._visible = true :=
  ⟨rfl, rfl, by decide, overview_always_visible lodViewer lodMap 0 rfl rfl (by decide)⟩

/-- C10. Selection of the current tileset: after `globalZoomLevelChanged` the reference
`currentTileset` designates a visible tileset of the map whose `_zOrder` is at least
the `_zOrder` of every visible tileset. -/
theorem currentTileset_is_best_visible (v : Viewer) (m : MapData) (o : Nat)
    (hm : v.currentMap = some m) (ho : m._overview = some o) (hlt : o < m.tilesets.length) :
    ∃ (v1 : Viewer) (m1 : MapData) (b : Nat) (tb : Tileset),
      globalZoomLevelChanged v = some v1 ∧ v1.currentMap = some m1
      ∧ v1.currentTileset = some b ∧ m1.tilesets[b]? = some tb ∧ tb._visible = true
      ∧ ∀ (j : Nat) (tj : Tileset), m1.tilesets[j]? = some tj → tj._visible = true →
          tj._zOrder ≤ tb._zOrder := by
  obtain ⟨v1, m1, best1, e, hm1, hc, _, hl, hts, hb, hbv, hmax⟩ :=
    globalZoomLevelChanged_spec v m o hm ho hlt
  have hb1 : best1 < m1.tilesets.length := by rw [hl]; exact hb
  have hz : ∀ j tj, m1.tilesets[j]? = some tj → tj._zOrder = zOrderAt m.tilesets j := by
    intro j tj hj
    rw [hts j] at hj
    cases hmj : m.tilesets[j]? with
    | none => rw [hmj] at hj; simp at hj
    | some t0 =>
      rw [hmj] at hj
      simp only [Option.map_some', Option.some.injEq] at hj
      rw [← hj, lodStep_zOrder]
      simp [zOrderAt, hmj]
  refine ⟨v1, m1, best1, m1.tilesets[best1], e, hm1, hc, List.getElem?_eq_getElem hb1, ?_, ?_⟩
  · rcases hbv with h | h
    · subst h
      have : m1.tilesets[best1]? = some (lodStep v.globals (some best1) best1 m.tilesets[best1]) := by
        rw [hts best1, List.getElem?_eq_getElem hlt]; rfl
      have h2 := List.getElem?_eq_getElem hb1
      rw [this] at h2
      have h3 : m1.tilesets[best1] = lodStep v.globals (some best1) best1 m.tilesets[best1] :=
        (Option.some.inj h2).symm
      rw [h3, lodStep_visible]
      simp [lodVisible]
    · simpa [visibleAt, List.getElem?_eq_getElem hb1] using h
  · intro j tj hj hv
    have h1 := hmax j (by simp [visibleAt, hj, hv])
    rw [hz j tj hj, hz best1 _ (List.getElem?_eq_getElem hb1)]
    exact h1

theorem currentTileset_is_best_visible_witness :
    lodViewer.currentMap = some lodMap ∧ lodMap._overview = some 0
    ∧ 0 < lodMap.tilesets.length
    ∧ ∃ (v1 : Viewer) (m1 : MapData) (b : Nat) (tb : Tileset),
      globalZoomLevelChanged lodViewer = some v1 ∧ v1.currentMap = some m1
      ∧ v1.currentTileset = some b ∧ m1.tilesets[b]? = some tb ∧ tb._visible = true
      ∧ ∀ (j : Nat) (tj : Tileset), m1.tilesets[j]? = some tj → tj._visible = true →
          tj._zOrder ≤ tb._zOrder :=
  ⟨rfl, rfl, by decide, currentTileset_is_best_visible lodViewer lodMap 0 rfl rfl (by decide)⟩

/-! ## Order of the tilesets -/

theorem toSortedInsert_perm {α : Type} (cmp : α → α → ℚ) (a : α) (l : List α) :
    List.Perm (toSortedInsert cmp a l) (a :: l) := by
  induction l with
  | nil => exact List.Perm.refl _
  | cons b l ih =>
    unfold toSortedInsert
    split
    · exact List.Perm.refl _
    · exact (List.Perm.cons b ih).trans (List.Perm.swap a b l)

theorem toSorted_perm {α : Type} (cmp : α → α → ℚ) (l : List α) :
    List.Perm (toSorted cmp l) l := by
  induction l with
  | nil => exact List.Perm.refl _
  | cons a l ih =>
    unfold toSorted
    exact (toSortedInsert_perm cmp a _).trans (List.Perm.cons a ih)

theorem rankBefore_zoom_le (ts : List Tileset) (p q : Nat) (h : rankBefore ts p q) :
    zoomLevelAt ts p ≤ zoomLevelAt ts q := by
  rcases h with h | h
  · exact h.le
  · exact h.1.le

theorem rankBefore_asymm (ts : List Tileset) (p q : Nat) (h : rankBefore ts p q) :
    ¬ rankBefore ts q p := by
  rintro (h2 | ⟨h2, h3⟩)
  · have := rankBefore_zoom_le ts p q h
    exact absurd h2 (not_lt.2 this)
  · rcases h with h | ⟨_, h⟩
    · rw [h2] at h; exact lt_irrefl _ h
    · omega

/-- Inserting a position that precedes all others keeps the list in rank order. -/
theorem toSortedInsert_pairwise (ts : List Tileset) (a : Nat) (l : List Nat)
    (hl : l.Pairwise (rankBefore ts)) (ha : ∀ x ∈ l, a < x) :
    (toSortedInsert (fun a b => zoomLevelAt ts a - zoomLevelAt ts b) a l).Pairwise
      (rankBefore ts) := by
  induction l with
  | nil => simp [toSortedInsert]
  | cons b l ih =>
    unfold toSortedInsert
    rw [List.pairwise_cons] at hl
    by_cases hc : zoomLevelAt ts a - zoomLevelAt ts b ≤ 0
    · rw [if_pos hc]
      have hab : zoomLevelAt ts a ≤ zoomLevelAt ts b := by linarith
      have key : ∀ x, x ∈ b :: l → rankBefore ts a x := by
        intro x hx
        have hax := ha x hx
        have hbx : zoomLevelAt ts b ≤ zoomLevelAt ts x := by
          rcases List.mem_cons.1 hx with rfl | hx
          · exact le_refl _
          · exact rankBefore_zoom_le ts b x (hl.1 x hx)
        rcases lt_or_eq_of_le (le_trans hab hbx) with h | h
        · exact Or.inl h
        · exact Or.inr ⟨h, hax⟩
      exact List.pairwise_cons.2 ⟨key, List.pairwise_cons.2 hl⟩
    · rw [if_neg hc]
      have hba : zoomLevelAt ts b < zoomLevelAt ts a := by linarith
      refine List.pairwise_cons.2 ⟨?_, ih hl.2 (fun x hx => ha x (List.mem_cons_of_mem _ hx))⟩
      intro y hy
      rcases List.mem_cons.1 ((toSortedInsert_perm _ a l).mem_iff.1 hy) with rfl | hy
      · exact Or.inl hba
      · exact hl.1 y hy

theorem toSorted_pairwise (ts : List Tileset) (l : List Nat) (hl : l.Pairwise (· < ·)) :
    (toSorted (fun a b => zoomLevelAt ts a - zoomLevelAt ts b) l).Pairwise (rankBefore ts) := by
  induction l with
  | nil => simp [toSorted]
  | cons a l ih =>
    unfold toSorted
    rw [List.pairwise_cons] at hl
    apply toSortedInsert_pairwise ts a _ (ih hl.2)
    intro x hx
    exact hl.1 x ((toSorted_perm _ l).mem_iff.1 hx)

/-- The array `sorted` of `updateTilesetOrder` holds every position once, in rank
order. -/
theorem sortedTilesets_spec (m : MapData) :
    List.Perm m.sortedTilesets (List.range m.tilesets.length)
    ∧ m.sortedTilesets.Pairwise (rankBefore m.tilesets)
    ∧ m.sortedTilesets.Nodup
    ∧ m.sortedTilesets.length = m.tilesets.length := by
  have hp : List.Perm m.sortedTilesets (List.range m.tilesets.length) := toSorted_perm _ _
  refine ⟨hp, ?_, hp.nodup_iff.2 (List.nodup_range _), ?_⟩
  · apply toSorted_pairwise
    exact List.pairwise_lt_range _
  · rw [hp.length_eq, List.length_range]

theorem modifyAt_length {α : Type} (f : α → α) (p : Nat) (l : List α) :
    (modifyAt f p l).length = l.length := by
  unfold modifyAt
  split <;> simp

theorem modifyAt_getElem? {α : Type} (f : α → α) (p q : Nat) (l : List α) :
    (modifyAt f p l)[q]? = if q = p then (l[q]?).map f else l[q]? := by
  unfold modifyAt
  cases hp : l[p]? with
  | none =>
    dsimp only
    by_cases h : q = p
    · subst h; simp [hp]
    · simp [h]
  | some a =>
    dsimp only
    by_cases h : q = p
    · subst h
      have hlt : q < l.length := (List.getElem?_eq_some.1 hp).1
      rw [List.getElem?_set_self hlt]
      simp [hp]
    · rw [List.getElem?_set_ne (fun e => h e.symm)]
      simp [h]

theorem assignZOrder_length (s : List Nat) (i : Nat) (ts : List Tileset) :
    (assignZOrder s i ts).length = ts.length := by
  induction s generalizing i ts with
  | nil => rfl
  | cons p s ih =>
    unfold assignZOrder
    rw [ih, modifyAt_length]

theorem assignZOrder_not_mem (s : List Nat) (i : Nat) (ts : List Tileset) (q : Nat)
    (h : q ∉ s) : (assignZOrder s i ts)[q]? = ts[q]? := by
  induction s generalizing i ts with
  | nil => rfl
  | cons p s ih =>
    unfold assignZOrder
    rw [List.mem_cons, not_or] at h
    rw [ih _ _ h.2, modifyAt_getElem?, if_neg h.1]

/-- The loop of `updateTilesetOrder` gives the tileset referred to by `sorted[k]` the
order `i + k` and changes nothing else. -/
theorem assignZOrder_getElem? (s : List Nat) (hs : s.Nodup) (i : Nat) (ts : List Tileset)
    (k q : Nat) (hk : s[k]? = some q) :
    (assignZOrder s i ts)[q]? = (ts[q]?).map (Tileset.setZOrder (i + k)) := by
  induction s generalizing i ts k with
  | nil => simp at hk
  | cons p s ih =>
    unfold assignZOrder
    rw [List.nodup_cons] at hs
    cases k with
    | zero =>
      simp only [List.getElem?_cons_zero, Option.some.injEq] at hk
      subst hk
      rw [assignZOrder_not_mem _ _ _ _ hs.1, modifyAt_getElem?, if_pos rfl]
      rfl
    | succ k =>
      simp only [List.getElem?_cons_succ] at hk
      have hne : q ≠ p := by
        intro e
        subst e
        exact hs.1 (List.mem_iff_getElem?.2 ⟨k, hk⟩)
      rw [ih hs.2 _ _ _ hk, modifyAt_getElem?, if_neg hne]
      have : i + 1 + k = i + (k + 1) := by omega
      rw [this]

/-- After `updateTilesetOrder`, every tileset is the former one with a new order, which
is the place of its position in `sorted`. -/
theorem updateTilesetOrder_getElem? (m : MapData) (q : Nat) (t : Tileset)
    (hq : m.tilesets[q]? = some t) :
    ∃ k, m.sortedTilesets[k]? = some q
      ∧ m.updateTilesetOrder.tilesets[q]? = some (t.setZOrder k) := by
  obtain ⟨hp, _, hn, _⟩ := sortedTilesets_spec m
  have hlt : q < m.tilesets.length := (List.getElem?_eq_some.1 hq).1
  have hmem : q ∈ m.sortedTilesets := hp.mem_iff.2 (List.mem_range.2 hlt)
  obtain ⟨k, hk⟩ := List.mem_iff_getElem?.1 hmem
  refine ⟨k, hk, ?_⟩
  show (assignZOrder m.sortedTilesets 0 m.tilesets)[q]? = _
  rw [assignZOrder_getElem? _ hn 0 _ k q hk, hq]
  simp

theorem zoomLevelAt_eq (ts : List Tileset) (q : Nat) (t : Tileset) (h : ts[q]? = some t) :
    zoomLevelAt ts q = t.zoomLevel := by
  simp [zoomLevelAt, h]

/-- Places in a list without repetition that is in rank order follow the rank. -/
theorem place_lt_of_rankBefore (ts : List Tileset) (s : List Nat)
    (hs : s.Pairwise (rankBefore ts)) (k1 k2 p q : Nat)
    (h1 : s[k1]? = some p) (h2 : s[k2]? = some q) (h : rankBefore ts p q) : k1 < k2 := by
  by_contra hnot
  have hle : k2 ≤ k1 := not_lt.1 hnot
  rcases Nat.lt_or_eq_of_le hle with hlt | heq
  · obtain ⟨hk1, e1⟩ := List.getElem?_eq_some.1 h1
    obtain ⟨hk2, e2⟩ := List.getElem?_eq_some.1 h2
    have := (List.pairwise_iff_getElem.1 hs) k2 k1 hk2 hk1 hlt
    rw [e1, e2] at this
    exact rankBefore_asymm ts p q h this
  · subst heq
    rw [h1] at h2
    have e : p = q := Option.some.inj h2
    subst e
    exact rankBefore_asymm ts p p h h

/-- C11. `updateTilesetOrder` assigns `_zOrder` as the rank in a stable ascending sort by
`zoomLevel`: the tilesets keep their positions and zoom levels, the assigned orders are
a permutation of `0 .. n-1`, a lower zoom level gets a lower order, and among equal zoom
levels the smaller position gets the lower order. -/
theorem updateTilesetOrder_stable_rank (m : MapData) :
    m.updateTilesetOrder.tilesets.length = m.tilesets.length
    ∧ (∀ i : Nat, (m.updateTilesetOrder.tilesets[i]?).map (fun t => t.zoomLevel)
        = (m.tilesets[i]?).map (fun t => t.zoomLevel))
    ∧ List.Perm (m.updateTilesetOrder.tilesets.map (fun t => t._zOrder))
        (List.range m.tilesets.length)
    ∧ ∀ (i j : Nat) (a b : Tileset),
        m.updateTilesetOrder.tilesets[i]? = some a →
        m.updateTilesetOrder.tilesets[j]? = some b →
        (a.zoomLevel < b.zoomLevel → a._zOrder < b._zOrder)
        ∧ (a.zoomLevel = b.zoomLevel → i < j → a._zOrder < b._zOrder) := by
  obtain ⟨hp, hpw, hn, hlen⟩ := sortedTilesets_spec m
  have hl : m.updateTilesetOrder.tilesets.length = m.tilesets.length :=
    assignZOrder_length _ _ _
  -- description of every tileset of the result
  have hdesc : ∀ (i : Nat) (a : Tileset), m.updateTilesetOrder.tilesets[i]? = some a →
      ∃ t k, m.tilesets[i]? = some t ∧ m.sortedTilesets[k]? = some i ∧ a = t.setZOrder k := by
    intro i a ha
    have hi : i < m.tilesets.length := by
      rw [← hl]; exact (List.getElem?_eq_some.1 ha).1
    obtain ⟨k, hk, e⟩ := updateTilesetOrder_getElem? m i _ (List.getElem?_eq_getElem hi)
    rw [ha] at e
    exact ⟨_, k, List.getElem?_eq_getElem hi, hk, Option.some.inj e⟩
  refine ⟨hl, ?_, ?_, ?_⟩
  · intro i
    cases hi : m.tilesets[i]? with
    | none =>
      have : m.updateTilesetOrder.tilesets[i]? = none := by
        apply List.getElem?_eq_none
        rw [hl]
        exact List.getElem?_eq_none_iff.1 hi
      rw [this]
    | some t =>
      obtain ⟨k, _, e⟩ := updateTilesetOrder_getElem? m i t hi
      rw [e]; rfl
  · -- the orders read along `sorted` are 0, 1, 2, ...
    have h1 : m.sortedTilesets.map (fun p => zOrderAt m.updateTilesetOrder.tilesets p)
        = List.range m.tilesets.length := by
      apply List.ext_getElem?
      intro k
      rw [List.getElem?_map]
      cases hk : m.sortedTilesets[k]? with
      | none =>
        have : m.tilesets.length ≤ k := by
          rw [← hlen]; exact List.getElem?_eq_none_iff.1 hk
        rw [List.getElem?_eq_none (by simpa using this)]
        rfl
      | some q =>
        have hklt : k < m.tilesets.length := by
          rw [← hlen]; exact (List.getElem?_eq_some.1 hk).1
        have hq : q < m.tilesets.length :=
          List.mem_range.1 (hp.mem_iff.1 (List.mem_iff_getElem?.2 ⟨k, hk⟩))
        have e := assignZOrder_getElem? _ hn 0 m.tilesets k q hk
        rw [List.getElem?_range hklt]
        simp only [Option.map_some']
        have e2 : m.updateTilesetOrder.tilesets[q]?
            = some ((m.tilesets[q]).setZOrder (0 + k)) := by
          show (assignZOrder m.sortedTilesets 0 m.tilesets)[q]? = _
          rw [e, List.getElem?_eq_getElem hq]; rfl
        simp [zOrderAt, e2, setZOrder]
    have h2 : m.updateTilesetOrder.tilesets.map (fun t => t._zOrder)
        = (List.range m.tilesets.length).map
            (fun p => zOrderAt m.updateTilesetOrder.tilesets p) := by
      apply List.ext_getElem?
      intro i
      rw [List.getElem?_map, List.getElem?_map]
      by_cases hi : i < m.tilesets.length
      · rw [List.getElem?_range hi]
        have hi2 : i < m.updateTilesetOrder.tilesets.length := by rw [hl]; exact hi
        simp [zOrderAt, List.getElem?_eq_getElem hi2]
      · rw [List.getElem?_eq_none (by rw [hl]; omega),
          List.getElem?_eq_none (by simpa using hi)]
        rfl
    rw [h2]
    exact (List.Perm.map _ hp.symm).trans (List.Perm.of_eq h1)
  · intro i j a b ha hb
    obtain ⟨ta, ka, hta, hka, ea⟩ := hdesc i a ha
    obtain ⟨tb, kb, htb, hkb, eb⟩ := hdesc j b hb
    have za : a.zoomLevel = zoomLevelAt m.tilesets i := by
      rw [zoomLevelAt_eq _ _ _ hta, ea]; rfl
    have zb : b.zoomLevel = zoomLevelAt m.tilesets j := by
      rw [zoomLevelAt_eq _ _ _ htb, eb]; rfl
    have oa : a._zOrder = ka := by rw [ea]; rfl
    have ob : b._zOrder = kb := by rw [eb]; rfl
    rw [za, zb, oa, ob]
    constructor
    · intro h
      exact place_lt_of_rankBefore _ _ hpw ka kb i j hka hkb (Or.inl h)
    · intro h hij
      exact place_lt_of_rankBefore _ _ hpw ka kb i j hka hkb (Or.inr ⟨h, hij⟩)

/-- After `updateTilesetOrder` on a map with at least one tileset, `_overview` refers to
a tileset of the map that has order 0 and the lowest zoom level. -/
theorem updateTilesetOrder_overview (m : MapData) (hne : m.tilesets ≠ []) :
    ∃ (o : Nat) (t : Tileset), m.updateTilesetOrder._overview = some o
      ∧ m.updateTilesetOrder.tilesets[o]? = some t ∧ t._zOrder = 0
      ∧ ∀ (j : Nat) (b : Tileset), m.updateTilesetOrder.tilesets[j]? = some b →
          t.zoomLevel ≤ b.zoomLevel := by
  obtain ⟨hp, hpw, hn, hlen⟩ := sortedTilesets_spec m
  have hpos : 0 < m.sortedTilesets.length := by
    rw [hlen]; exact List.length_pos.2 hne
  have h0 : m.sortedTilesets[0]? = some m.sortedTilesets[0] := List.getElem?_eq_getElem hpos
  generalize m.sortedTilesets[0] = o at h0
  have ho : o < m.tilesets.length :=
    List.mem_range.1 (hp.mem_iff.1 (List.mem_iff_getElem?.2 ⟨0, h0⟩))
  have hto : m.updateTilesetOrder.tilesets[o]? = some ((m.tilesets[o]).setZOrder 0) := by
    show (assignZOrder m.sortedTilesets 0 m.tilesets)[o]? = _
    rw [assignZOrder_getElem? _ hn 0 _ 0 o h0, List.getElem?_eq_getElem ho]
    rfl
  refine ⟨o, _, h0, hto, rfl, ?_⟩
  intro j b hb
  have hl : m.updateTilesetOrder.tilesets.length = m.tilesets.length :=
    assignZOrder_length _ _ _
  have hj : j < m.tilesets.length := by
    rw [← hl]; exact (List.getElem?_eq_some.1 hb).1
  obtain ⟨k, hk, e⟩ := updateTilesetOrder_getElem? m j _ (List.getElem?_eq_getElem hj)
  rw [hb] at e
  have eb : b = (m.tilesets[j]).setZOrder k := Option.some.inj e
  have zb : b.zoomLevel = zoomLevelAt m.tilesets j := by
    rw [zoomLevelAt_eq _ _ _ (List.getElem?_eq_getElem hj), eb]; rfl
  have zo : ((m.tilesets[o]).setZOrder 0).zoomLevel = zoomLevelAt m.tilesets o := by
    rw [zoomLevelAt_eq _ _ _ (List.getElem?_eq_getElem ho)]; rfl
  rw [zb, zo]
  cases k with
  | zero =>
    rw [h0] at hk
    rw [Option.some.inj hk]
  | succ k =>
    obtain ⟨hk1, e1⟩ := List.getElem?_eq_some.1 hk
    obtain ⟨hk0, e0⟩ := List.getElem?_eq_some.1 h0
    have := (List.pairwise_iff_getElem.1 hpw) 0 (k + 1) hk0 hk1 (Nat.succ_pos k)
    rw [e0, e1] at this
    exact rankBefore_zoom_le _ _ _ this

/-- C12 (evaluation at the failing input). Loading a saved map whose array of tilesets
is empty gives a map without tilesets and without overview. -/
theorem fromData_empty_tilesets_no_overview :
    (MapData.fromData emptyTilesetsInput).tilesets = []
    ∧ (MapData.fromData emptyTilesetsInput)._overview = none := by
  decide

theorem mapWithIndex_getElem? {α β : Type} (f : α → Nat → β) (start : Nat) (l : List α)
    (i : Nat) : (mapWithIndex f start l)[i]? = (l[i]?).map (fun a => f a (start + i)) := by
  induction l generalizing start i with
  | nil => simp [mapWithIndex]
  | cons a l ih =>
    unfold mapWithIndex
    cases i with
    | zero => simp
    | succ i =>
      simp only [List.getElem?_cons_succ]
      rw [ih]
      have : start + 1 + i = start + (i + 1) := by omega
      rw [this]

theorem mapWithIndex_length {α β : Type} (f : α → Nat → β) (start : Nat) (l : List α) :
    (mapWithIndex f start l).length = l.length := by
  induction l generalizing start with
  | nil => rfl
  | cons a l ih => simp [mapWithIndex, ih]

/-- The permanent index is untouched by `updateTilesetOrder`. -/
theorem updateTilesetOrder_indexInvariant (m : MapData) (h : IndexInvariant m.tilesets) :
    IndexInvariant m.updateTilesetOrder.tilesets := by
  intro i t ht
  have hl : m.updateTilesetOrder.tilesets.length = m.tilesets.length :=
    assignZOrder_length _ _ _
  have hi : i < m.tilesets.length := by
    rw [← hl]; exact (List.getElem?_eq_some.1 ht).1
  obtain ⟨k, _, e⟩ := updateTilesetOrder_getElem? m i _ (List.getElem?_eq_getElem hi)
  rw [ht] at e
  rw [Option.some.inj e]
  exact h i m.tilesets[i] (List.getElem?_eq_getElem hi)

/-- The loop of `cullEmptyTilesets` removes a run of empty tilesets at the end and stops
at a tileset that is not empty. -/
theorem cullLoop_spec : ∀ (n : Nat) (ts : List Tileset), ts.length ≤ n →
    ∃ removed : List Tileset, ts = MapData.cullLoop n ts ++ removed
      ∧ (∀ t ∈ removed, t.isEmpty = true)
      ∧ (∀ t, (MapData.cullLoop n ts).getLast? = some t → t.isEmpty = false) := by
  intro n
  induction n with
  | zero =>
    intro ts h
    have : ts = [] := List.length_eq_zero.1 (Nat.le_zero.1 h)
    subst this
    exact ⟨[], rfl, by simp, by simp [MapData.cullLoop]⟩
  | succ n ih =>
    intro ts h
    unfold MapData.cullLoop
    cases hlast : ts.getLast? with
    | none =>
      have : ts = [] := List.getLast?_eq_none_iff.1 hlast
      subst this
      exact ⟨[], rfl, by simp, by simp⟩
    | some t =>
      dsimp only
      have hne : ts ≠ [] := by
        intro e; subst e; simp at hlast
      have hsplit : ts = ts.dropLast ++ [t] := by
        have h1 := List.dropLast_concat_getLast hne
        have h2 : ts.getLast hne = t := by
          rw [List.getLast?_eq_getLast _ hne] at hlast
          exact Option.some.inj hlast
        rw [h2] at h1
        exact h1.symm
      by_cases he : t.isEmpty = true
      · rw [if_pos he]
        have hlen : ts.dropLast.length ≤ n := by
          rw [List.length_dropLast]; omega
        obtain ⟨removed, e1, e2, e3⟩ := ih ts.dropLast hlen
        refine ⟨removed ++ [t], ?_, ?_, e3⟩
        · rw [← List.append_assoc, ← e1]
          exact hsplit
        · intro x hx
          rcases List.mem_append.1 hx with hx | hx
          · exact e2 x hx
          · rw [List.mem_singleton.1 hx]; exact he
      · rw [if_neg he]
        refine ⟨[], by simp, by simp, ?_⟩
        intro x hx
        rw [hlast] at hx
        rw [← Option.some.inj hx]
        simpa using he

/-! ## Permanent index and culling -/

theorem indexInvariant_of_map (ts : List Tileset)
    (h : ts.map (fun t => t._index) = List.range ts.length) : IndexInvariant ts := by
  intro i t ht
  have hi : i < ts.length := (List.getElem?_eq_some.1 ht).1
  have h1 : (ts.map (fun t => t._index))[i]? = some t._index := by
    rw [List.getElem?_map, ht]; rfl
  rw [h, List.getElem?_range hi] at h1
  exact (Option.some.inj h1).symm

theorem indexInvariant_append (ts : List Tileset) (t : Tileset) (h : IndexInvariant ts)
    (ht : t._index = ts.length) : IndexInvariant (ts ++ [t]) := by
  intro i x hx
  by_cases hi : i < ts.length
  · rw [List.getElem?_append_left hi] at hx
    exact h i x hx
  · have hi2 : ts.length ≤ i := not_lt.1 hi
    rw [List.getElem?_append_right hi2] at hx
    have hlt := (List.getElem?_eq_some.1 hx).1
    simp only [List.length_singleton] at hlt
    have h0 : i - ts.length = 0 := by omega
    rw [h0] at hx
    simp only [List.getElem?_cons_zero, Option.some.injEq] at hx
    rw [← hx, ht]
    omega

/-- C13. Permanent tileset index: `tilesets[i]._index = i` holds after `MapData.fromData`
and is kept by `createNewTileset` and `cullEmptyTilesets`; `createNewTileset` returns a
reference to a new tileset placed at the end whose `_index` is the previous length, and
leaves the `_index`, the extents and the grid of every existing tileset unchanged. -/
theorem tileset_index_permanent :
    (∀ data : MapDataInput, IndexInvariant (MapData.fromData data).tilesets)
    ∧ (∀ (z : ℚ) (m : MapData), IndexInvariant m.tilesets →
        IndexInvariant (m.createNewTileset z).1.tilesets)
    ∧ (∀ m : MapData, IndexInvariant m.tilesets → IndexInvariant m.cullEmptyTilesets.tilesets)
    ∧ (∀ (z : ℚ) (m : MapData),
        (m.createNewTileset z).2 = m.tilesets.length
        ∧ (m.createNewTileset z).1.tilesets.length = m.tilesets.length + 1
        ∧ (∃ t, (m.createNewTileset z).1.tilesets[(m.createNewTileset z).2]? = some t
            ∧ t._index = m.tilesets.length ∧ t.zoomLevel = z)
        ∧ ∀ (i : Nat) (t : Tileset), m.tilesets[i]? = some t →
            ∃ t1, (m.createNewTileset z).1.tilesets[i]? = some t1
              ∧ t1._index = t._index ∧ t1.grid = t.grid
              ∧ t1.sizeN = t.sizeN ∧ t1.sizeS = t.sizeS
              ∧ t1.sizeW = t.sizeW ∧ t1.sizeE = t.sizeE) := by
  refine ⟨?_, ?_, ?_, ?_⟩
  · intro data
    apply updateTilesetOrder_indexInvariant
    intro i t ht
    dsimp only at ht
    rw [mapWithIndex_getElem?] at ht
    cases hd : (data.tilesets.getD [TilesetData.empty])[i]? with
    | none => rw [hd] at ht; simp at ht
    | some d =>
      rw [hd] at ht
      simp only [Option.map_some', Option.some.injEq] at ht
      rw [← ht]
      simp [Tileset.fromData]
  · intro z m h
    apply updateTilesetOrder_indexInvariant
    exact indexInvariant_append _ _ h rfl
  · intro m h i t ht
    obtain ⟨removed, e1, _, _⟩ := cullLoop_spec m.tilesets.length m.tilesets (le_refl _)
    have hlt : i < (MapData.cullLoop m.tilesets.length m.tilesets).length :=
      (List.getElem?_eq_some.1 ht).1
    apply h i t
    rw [e1, List.getElem?_append_left hlt]
    exact ht
  · intro z m
    have hl : (m.createNewTileset z).1.tilesets.length = m.tilesets.length + 1 := by
      show (assignZOrder _ 0 _).length = _
      rw [assignZOrder_length]
      simp
    refine ⟨rfl, hl, ?_, ?_⟩
    · obtain ⟨k, _, e⟩ := updateTilesetOrder_getElem?
        { m with tilesets := m.tilesets ++
            [Tileset.fromData { TilesetData.empty with zoomLevel := some z } m.tilesets.length] }
        m.tilesets.length
        (Tileset.fromData { TilesetData.empty with zoomLevel := some z } m.tilesets.length)
        (by simp)
      exact ⟨_, e, rfl, rfl⟩
    · intro i t ht
      have hi : i < m.tilesets.length := (List.getElem?_eq_some.1 ht).1
      obtain ⟨k, _, e⟩ := updateTilesetOrder_getElem?
        { m with tilesets := m.tilesets ++
            [Tileset.fromData { TilesetData.empty with zoomLevel := some z } m.tilesets.length] }
        i t (by rw [List.getElem?_append_left hi]; exact ht)
      exact ⟨_, e, rfl, rfl, rfl, rfl, rfl, rfl⟩

theorem tileset_index_permanent_witness :
    IndexInvariant lodMap.tilesets
    ∧ IndexInvariant (lodMap.createNewTileset 5).1.tilesets
    ∧ IndexInvariant cullExampleTail.cullEmptyTilesets.tilesets :=
  ⟨indexInvariant_of_map _ (by decide),
    tileset_index_permanent.2.1 5 lodMap (indexInvariant_of_map _ (by decide)),
    tileset_index_permanent.2.2.1 cullExampleTail (indexInvariant_of_map _ (by decide))⟩

/-- C14. `cullEmptyTilesets` removes exactly the maximal trailing run of empty tilesets:
the result is a start of the original list, everything removed is empty, the result is
empty or ends with a tileset that is not empty, and it is the longest such start; the
other fields of the map are untouched. -/
theorem cullEmptyTilesets_spec (m : MapData) :
    (m.cullEmptyTilesets.bgColor = m.bgColor ∧ m.cullEmptyTilesets.icons = m.icons
      ∧ m.cullEmptyTilesets._overview = m._overview)
    ∧ (∃ removed : List Tileset, m.tilesets = m.cullEmptyTilesets.tilesets ++ removed
        ∧ ∀ t ∈ removed, t.isEmpty = true)
    ∧ (∀ t, m.cullEmptyTilesets.tilesets.getLast? = some t → t.isEmpty = false)
    ∧ (∀ p : List Tileset, p <+: m.tilesets →
        (∀ t, p.getLast? = some t → t.isEmpty = false) →
        p.length ≤ m.cullEmptyTilesets.tilesets.length) := by
  obtain ⟨removed, e1, e2, e3⟩ := cullLoop_spec m.tilesets.length m.tilesets (le_refl _)
  refine ⟨⟨rfl, rfl, rfl⟩, ⟨removed, e1, e2⟩, e3, ?_⟩
  intro p hp hlast
  show p.length ≤ (MapData.cullLoop m.tilesets.length m.tilesets).length
  generalize MapData.cullLoop m.tilesets.length m.tilesets = r at e1 e3
  by_contra hnot
  have hgt : r.length < p.length := not_le.1 hnot
  obtain ⟨q, hq⟩ := hp
  obtain ⟨x, hx⟩ : ∃ x, p[p.length - 1]? = some x :=
    ⟨p[p.length - 1], List.getElem?_eq_getElem (by omega)⟩
  have h1 : (p ++ q)[p.length - 1]? = some x := by
    rw [List.getElem?_append_left (by omega)]
    exact hx
  have h2 : p.getLast? = some x := by
    rw [List.getLast?_eq_getElem?]; exact hx
  have h3 := hlast _ h2
  rw [hq, e1, List.getElem?_append_right (by omega)] at h1
  have h4 := e2 _ (List.mem_iff_getElem?.2 ⟨_, h1⟩)
  rw [h3] at h4
  exact Bool.false_ne_true h4

theorem cullEmptyTilesets_spec_witness :
    cullExampleTail.cullEmptyTilesets.tilesets = [filledTileset 0]
    ∧ cullExampleHead.cullEmptyTilesets.tilesets = cullExampleHead.tilesets
    ∧ (∃ removed : List Tileset,
        cullExampleTail.tilesets = cullExampleTail.cullEmptyTilesets.tilesets ++ removed
        ∧ ∀ t ∈ removed, t.isEmpty = true) :=
  ⟨by decide, by decide, (cullEmptyTilesets_spec cullExampleTail).2.1⟩

/-! ## Icon index -/

theorem iconIndexInvariant_of_map (icons : List MarkerIconDefinition)
    (h : icons.map (fun icon => icon._index) = List.range icons.length) :
    IconIndexInvariant icons := by
  intro i icon hi
  have hlt : i < icons.length := (List.getElem?_eq_some.1 hi).1
  have h1 : (icons.map (fun icon => icon._index))[i]? = some icon._index := by
    rw [List.getElem?_map, hi]; rfl
  rw [h, List.getElem?_range hlt] at h1
  exact (Option.some.inj h1).symm

theorem setIndexLoop_length (n i : Nat) (l : List MarkerIconDefinition) :
    (MapData.setIndexLoop n i l).length = l.length := by
  induction n generalizing i l with
  | zero => rfl
  | succ n ih =>
    unfold MapData.setIndexLoop
    rw [ih, modifyAt_length]

/-- The renumbering loop of `removeIcon` sets the index of the icons at the positions
`i .. i+n-1` to their position. -/
theorem setIndexLoop_getElem? (n i : Nat) (l : List MarkerIconDefinition) (q : Nat) :
    (MapData.setIndexLoop n i l)[q]?
      = if i ≤ q ∧ q < i + n then (l[q]?).map (MarkerIconDefinition.setIndex q) else l[q]? := by
  induction n generalizing i l with
  | zero =>
    have : ¬ (i ≤ q ∧ q < i + 0) := by omega
    rw [if_neg this]
    rfl
  | succ n ih =>
    unfold MapData.setIndexLoop
    rw [ih, modifyAt_getElem?]
    by_cases hq : q = i
    · subst hq
      have h1 : ¬ (q + 1 ≤ q ∧ q < q + 1 + n) := by omega
      have h2 : q ≤ q ∧ q < q + (n + 1) := by omega
      rw [if_neg h1, if_pos rfl, if_pos h2]
    · rw [if_neg hq]
      by_cases h1 : i + 1 ≤ q ∧ q < i + 1 + n
      · have h2 : i ≤ q ∧ q < i + (n + 1) := by omega
        rw [if_pos h1, if_pos h2]
      · have h2 : ¬ (i ≤ q ∧ q < i + (n + 1)) := by omega
        rw [if_neg h1, if_neg h2]

/-- The effect of `removeIcon` once the position `j` of the icon is known. -/
theorem removeIcon_at (m : MapData) (j : Nat) (arg : IconOrIndex) (hj : j < m.icons.length)
    (harg : arg = IconOrIndex.index (j : Int) ∨ arg = IconOrIndex.icon (some j)) :
    m.removeIcon arg = some { m with
      icons := MapData.setIndexLoop ((m.icons.eraseIdx j).length - j) j (m.icons.eraseIdx j) } := by
  have hget : m.icons[j]? = some m.icons[j] := List.getElem?_eq_getElem hj
  rcases harg with rfl | rfl
  · unfold MapData.removeIcon
    simp [hget]
  · unfold MapData.removeIcon
    simp [hget, hj]

/-- C15. Icon index compaction: `icons[i]._index = i` is kept by `createNewIcon` and by
`removeIcon`; `removeIcon` with a valid index `j`, or with the icon object found at
position `j`, removes exactly that icon, keeps the order of the others and lowers by one
the `_index` of every icon that followed it; with an icon object that is not in the
list it leaves the map unchanged. -/
theorem icon_index_compaction (g : Globals) :
    (∀ (data : IconData) (m : MapData), IconIndexInvariant m.icons →
        IconIndexInvariant (m.createNewIcon g data).1.icons)
    ∧ (∀ (m : MapData) (j : Nat) (arg : IconOrIndex), j < m.icons.length →
        (arg = IconOrIndex.index (j : Int) ∨ arg = IconOrIndex.icon (some j)) →
        ∃ m1, m.removeIcon arg = some m1
          ∧ m1.tilesets = m.tilesets ∧ m1._overview = m._overview
          ∧ m1.icons.length + 1 = m.icons.length
          ∧ (∀ i, i < j → m1.icons[i]? = m.icons[i]?)
          ∧ (∀ i, j ≤ i →
              m1.icons[i]? = (m.icons[i + 1]?).map (MarkerIconDefinition.setIndex i))
          ∧ (IconIndexInvariant m.icons →
              IconIndexInvariant m1.icons
              ∧ ∀ (i : Nat) (icon : MarkerIconDefinition), j ≤ i →
                  m.icons[i + 1]? = some icon →
                  ∃ icon1, m1.icons[i]? = some icon1 ∧ icon1._index + 1 = icon._index))
    ∧ (∀ m : MapData, m.removeIcon (IconOrIndex.icon none) = some m) := by
  refine ⟨?_, ?_, ?_⟩
  · intro data m h i icon hi
    by_cases hlt : i < m.icons.length
    · have : (m.createNewIcon g data).1.icons[i]? = m.icons[i]? :=
        List.getElem?_append_left hlt
      rw [this] at hi
      exact h i icon hi
    · have hge : m.icons.length ≤ i := not_lt.1 hlt
      have h1 : (m.createNewIcon g data).1.icons[i]?
          = [(MarkerIconDefinition.fromData data m.icons.length).setEnabled g true][i - m.icons.length]? :=
        List.getElem?_append_right hge
      rw [h1] at hi
      have hl := (List.getElem?_eq_some.1 hi).1
      simp only [List.length_singleton] at hl
      have h0 : i - m.icons.length = 0 := by omega
      rw [h0] at hi
      simp only [List.getElem?_cons_zero, Option.some.injEq] at hi
      have hidx : ((MarkerIconDefinition.fromData data m.icons.length).setEnabled g true)._index
          = m.icons.length := by
        unfold MarkerIconDefinition.setEnabled MarkerIconDefinition.renderLayer
        dsimp only
        split
        · rfl
        · split <;> rfl
      rw [← hi, hidx]
      omega
  · intro m j arg hj harg
    have hlen : (m.icons.eraseIdx j).length + 1 = m.icons.length := by
      rw [List.length_eraseIdx]
      simp only [hj, if_true]
      omega
    have hn : j + ((m.icons.eraseIdx j).length - j) = (m.icons.eraseIdx j).length :=
      Nat.add_sub_cancel' (by omega)
    have hlow : ∀ i, i < j →
        (MapData.setIndexLoop ((m.icons.eraseIdx j).length - j) j (m.icons.eraseIdx j))[i]?
          = m.icons[i]? := by
      intro i hi
      have hc : ¬ (j ≤ i ∧ i < (m.icons.eraseIdx j).length) := by omega
      rw [setIndexLoop_getElem?, hn, if_neg hc, List.getElem?_eraseIdx, if_pos hi]
    have hhigh : ∀ i, j ≤ i →
        (MapData.setIndexLoop ((m.icons.eraseIdx j).length - j) j (m.icons.eraseIdx j))[i]?
          = (m.icons[i + 1]?).map (MarkerIconDefinition.setIndex i) := by
      intro i hi
      have he : (m.icons.eraseIdx j)[i]? = m.icons[i + 1]? := by
        rw [List.getElem?_eraseIdx, if_neg (by omega)]
      rw [setIndexLoop_getElem?, hn, he]
      by_cases hin : i < (m.icons.eraseIdx j).length
      · rw [if_pos ⟨hi, hin⟩]
      · have hc : ¬ (j ≤ i ∧ i < (m.icons.eraseIdx j).length) := by omega
        rw [if_neg hc]
        have : m.icons[i + 1]? = none := List.getElem?_eq_none (by omega)
        rw [this]; rfl
    refine ⟨_, removeIcon_at m j arg hj harg, rfl, rfl, ?_, hlow, hhigh, ?_⟩
    · show (MapData.setIndexLoop _ _ _).length + 1 = _
      rw [setIndexLoop_length]; exact hlen
    · intro hinv
      constructor
      · intro i icon hi
        dsimp only at hi
        by_cases hij : i < j
        · rw [hlow i hij] at hi
          exact hinv i icon hi
        · rw [hhigh i (by omega)] at hi
          cases ho : m.icons[i + 1]? with
          | none => rw [ho] at hi; simp at hi
          | some old =>
            rw [ho] at hi
            simp only [Option.map_some', Option.some.injEq] at hi
            rw [← hi]; rfl
      · intro i icon hi ho
        refine ⟨icon.setIndex i, ?_, ?_⟩
        · dsimp only
          rw [hhigh i hi, ho]; rfl
        · have := hinv (i + 1) icon ho
          rw [this]; rfl
  · intro m
    rfl

theorem icon_index_compaction_witness :
    IconIndexInvariant iconExample.icons
    ∧ (1 : Nat) < iconExample.icons.length
    ∧ IconIndexInvariant (iconExample.createNewIcon sampleGlobals (sampleIconData "d")).1.icons
    ∧ ∃ m1, iconExample.removeIcon (IconOrIndex.index ((1 : Nat) : Int)) = some m1
        ∧ m1.tilesets = iconExample.tilesets ∧ m1._overview = iconExample._overview
        ∧ m1.icons.length + 1 = iconExample.icons.length
        ∧ (∀ i, i < 1 → m1.icons[i]? = iconExample.icons[i]?)
        ∧ (∀ i, 1 ≤ i →
            m1.icons[i]? = (iconExample.icons[i + 1]?).map (MarkerIconDefinition.setIndex i))
        ∧ (IconIndexInvariant iconExample.icons →
            IconIndexInvariant m1.icons
            ∧ ∀ (i : Nat) (icon : MarkerIconDefinition), 1 ≤ i →
                iconExample.icons[i + 1]? = some icon →
                ∃ icon1, m1.icons[i]? = some icon1 ∧ icon1._index + 1 = icon._index) :=
  ⟨iconIndexInvariant_of_map _ (by decide), by decide,
    (icon_index_compaction sampleGlobals).1 (sampleIconData "d") iconExample
      (iconIndexInvariant_of_map _ (by decide)),
    (icon_index_compaction sampleGlobals).2.1 iconExample 1 (IconOrIndex.index ((1 : Nat) : Int))
      (by decide) (Or.inl rfl)⟩

/-! ## Cell lookup, addressing out of range and the rebuild decision -/

/-- One axis of `getCellAt`: a point at offset `d` inside the cell of index `cell`
falls in that cell. -/
theorem floor_cell_offset (s d : ℚ) (cell first : Int) (hs : 0 < s) (h0 : 0 ≤ d) (h1 : d < s) :
    first + ⌊(((cell : ℚ) - (first : ℚ)) * s + d) / s⌋ = cell := by
  have h : ⌊(((cell : ℚ) - (first : ℚ)) * s + d) / s⌋ = cell - first := by
    rw [Int.floor_eq_iff]
    push_cast
    constructor
    · rw [le_div_iff₀ hs]
      linarith
    · rw [div_lt_iff₀ hs]
      linarith
  rw [h]
  ring

/-- C16 (amended). Cell lookup round trip in exact arithmetic: with positive scaled tile
sizes and a stored render area, `getCellAt` applied to the client position of the top-left
corner of the cell `(row, col)`, or of any point of that cell at offsets
`0 <= dx < scaledTileWidth`, `0 <= dy < scaledTileHeight` from the corner, returns
`(row, col)` when positions, quotient and floor are computed without rounding. -/
theorem getCellAt_round_trip (g : Globals) (t : Tileset) (a : RenderArea)
    (ha : t._renderArea = some a)
    (hw : 0 < t.getScaledTileWidth g) (hh : 0 < t.getScaledTileHeight g)
    (row col : Int) (dx dy : ℚ)
    (hdx : 0 ≤ dx ∧ dx < t.getScaledTileWidth g) (hdy : 0 ≤ dy ∧ dy < t.getScaledTileHeight g) :
    t.getCellAt g
        (g.rendererLeft + a.posX + ((col : ℚ) - (a.firstCol : ℚ)) * t.getScaledTileWidth g + dx)
        (g.rendererTop + a.posY + ((row : ℚ) - (a.firstRow : ℚ)) * t.getScaledTileHeight g + dy)
      = some { row := row, col := col } := by
  unfold getCellAt
  rw [ha]
  dsimp only
  have ex : g.rendererLeft + a.posX + ((col : ℚ) - (a.firstCol : ℚ)) * t.getScaledTileWidth g + dx
      - g.rendererLeft - a.posX
      = ((col : ℚ) - (a.firstCol : ℚ)) * t.getScaledTileWidth g + dx := by ring
  have ey : g.rendererTop + a.posY + ((row : ℚ) - (a.firstRow : ℚ)) * t.getScaledTileHeight g + dy
      - g.rendererTop - a.posY
      = ((row : ℚ) - (a.firstRow : ℚ)) * t.getScaledTileHeight g + dy := by ring
  rw [ex, ey, floor_cell_offset _ _ _ _ hw hdx.1 hdx.2, floor_cell_offset _ _ _ _ hh hdy.1 hdy.2]

theorem getCellAt_round_trip_witness :
    renderedMarginTile._renderArea = some (marginTile.computeRenderArea sampleGlobals)
    ∧ 0 < renderedMarginTile.getScaledTileWidth sampleGlobals
    ∧ 0 < renderedMarginTile.getScaledTileHeight sampleGlobals
    ∧ ((0 : ℚ) ≤ 0 ∧ (0 : ℚ) < renderedMarginTile.getScaledTileWidth sampleGlobals)
    ∧ ((0 : ℚ) ≤ 0 ∧ (0 : ℚ) < renderedMarginTile.getScaledTileHeight sampleGlobals)
    ∧ renderedMarginTile.getCellAt sampleGlobals
        (sampleGlobals.rendererLeft + (marginTile.computeRenderArea sampleGlobals).posX
          + (((2 : Int) : ℚ) - ((marginTile.computeRenderArea sampleGlobals).firstCol : ℚ))
            * renderedMarginTile.getScaledTileWidth sampleGlobals + 0)
        (sampleGlobals.rendererTop + (marginTile.computeRenderArea sampleGlobals).posY
          + (((1 : Int) : ℚ) - ((marginTile.computeRenderArea sampleGlobals).firstRow : ℚ))
            * renderedMarginTile.getScaledTileHeight sampleGlobals + 0)
      = some { row := 1, col := 2 } :=
  have hw : 0 < renderedMarginTile.getScaledTileWidth sampleGlobals := by
    norm_num [getScaledTileWidth, getDisplayScale, sampleGlobals, renderedMarginTile,
      marginTile, Tileset.default]
  have hh : 0 < renderedMarginTile.getScaledTileHeight sampleGlobals := by
    norm_num [getScaledTileHeight, getDisplayScale, sampleGlobals, renderedMarginTile,
      marginTile, Tileset.default]
  ⟨rfl, hw, hh, ⟨le_refl _, hw⟩, ⟨le_refl _, hh⟩,
    getCellAt_round_trip sampleGlobals renderedMarginTile
      (marginTile.computeRenderArea sampleGlobals) rfl hw hh 1 2 0 0
      ⟨le_refl _, hw⟩ ⟨le_refl _, hh⟩⟩

/-- C17 (as stated, refuted). `getTileAt` has no failure result: at an address outside
the bounds it returns the absent value, as for an empty cell. -/
theorem getTileAt_out_of_range_no_failure :
    ¬ (∀ (t : Tileset) (row col : Int),
        (row < 0 ∨ t.numRows ≤ row ∨ col < 0 ∨ t.numCols ≤ col) →
        t.getTileAt row col ≠ none) :=
  fun h => h singleTile 5 5 (by decide) (by decide)

/-- C17 (amended). `getTileAt` returns the absent value at every address outside the
stored grid (a negative row or column, a row past the last stored row, a column past the
end of the stored row) and, when every stored tile has its indices inside the bounds, at
every address outside the bounds `[0, numRows()) x [0, numCols())`. -/
theorem getTileAt_out_of_range_absent (t : Tileset) (row col : Int) :
    ((row < 0 ∨ (t.grid.length : Int) ≤ row ∨ col < 0
        ∨ ((((t.grid[row.toNat]?).getD []).length : Nat) : Int) ≤ col) →
      t.getTileAt row col = none)
    ∧ (tilesInBounds t = true →
        (row < 0 ∨ t.numRows ≤ row ∨ col < 0 ∨ t.numCols ≤ col) →
        t.getTileAt row col = none) := by
  constructor
  · intro h
    by_contra hne
    have hs := Option.isSome_iff_ne_none.2 hne
    obtain ⟨h1, h2, h3, h4⟩ := getTileAt_isSome_index t row col hs
    omega
  · intro hB h
    by_contra hne
    have hs := Option.isSome_iff_ne_none.2 hne
    obtain ⟨h1, h2, h3, h4⟩ := inBounds_of_tilesInBounds t hB row col hs
    omega

theorem getTileAt_out_of_range_absent_witness :
    (tilesInBounds singleTile = true
      ∧ ((5 : Int) < 0 ∨ singleTile.numRows ≤ 5 ∨ (5 : Int) < 0 ∨ singleTile.numCols ≤ 5))
    ∧ singleTile.getTileAt 5 5 = none :=
  ⟨⟨by decide, by decide⟩,
    (getTileAt_out_of_range_absent singleTile 5 5).2 (by decide) (by decide)⟩

/-- C18. Rebuild decision of `updateRenderArea` called without the redraw flag on a
tileset that has a table: when a bound of the newly computed area differs from the stored
one the table is the one built by `renderTableArea` for the new area; otherwise the
existing table is kept, cells included, whatever the change of position or scale; in
both cases the table is placed at the new position and scale and the stored area is the
newly computed one. -/
theorem updateRenderArea_rebuild_decision (g : Globals) (t : Tileset) (tb : Table)
    (a : RenderArea) (ht : t.table = some tb) (ha : t._renderArea = some a) :
    (t.updateRenderArea g false)._renderArea = some (t.computeRenderArea g)
    ∧ (((t.computeRenderArea g).firstRow ≠ a.firstRow
          ∨ (t.computeRenderArea g).numRows ≠ a.numRows
          ∨ (t.computeRenderArea g).firstCol ≠ a.firstCol
          ∨ (t.computeRenderArea g).numCols ≠ a.numCols) →
        (t.updateRenderArea g false).table
          = ((t.renderTableArea g (t.computeRenderArea g)).table).map (fun tb1 =>
              { tb1 with left := (t.computeRenderArea g).posX
                         top := (t.computeRenderArea g).posY
                         scale := t.getDisplayScale g }))
    ∧ (¬ ((t.computeRenderArea g).firstRow ≠ a.firstRow
          ∨ (t.computeRenderArea g).numRows ≠ a.numRows
          ∨ (t.computeRenderArea g).firstCol ≠ a.firstCol
          ∨ (t.computeRenderArea g).numCols ≠ a.numCols) →
        (t.updateRenderArea g false).table
          = some { tb with left := (t.computeRenderArea g).posX
                           top := (t.computeRenderArea g).posY
                           scale := t.getDisplayScale g }) := by
  have hd : areaBoundsDiffer (t.computeRenderArea g) t._renderArea = true ↔
      ((t.computeRenderArea g).firstRow ≠ a.firstRow
        ∨ (t.computeRenderArea g).numRows ≠ a.numRows
        ∨ (t.computeRenderArea g).firstCol ≠ a.firstCol
        ∨ (t.computeRenderArea g).numCols ≠ a.numCols) := by
    rw [ha]
    simp [areaBoundsDiffer, or_assoc]
  have hcond : (false || t.table.isNone || areaBoundsDiffer (t.computeRenderArea g) t._renderArea)
      = areaBoundsDiffer (t.computeRenderArea g) t._renderArea := by
    rw [ht]; rfl
  refine ⟨?_, ?_, ?_⟩
  · unfold updateRenderArea
    rfl
  · intro h
    unfold updateRenderArea
    dsimp only
    rw [hcond, if_pos (hd.2 h)]
  · intro h
    have hf : ¬ areaBoundsDiffer (t.computeRenderArea g) t._renderArea = true :=
      fun e => h (hd.1 e)
    unfold updateRenderArea
    dsimp only
    rw [hcond, if_neg hf, ht]
    rfl

theorem updateRenderArea_rebuild_decision_witness :
    ∃ (tb : Table) (a : RenderArea),
      shownMarginTile.table = some tb ∧ shownMarginTile._renderArea = some a
      ∧ (shownMarginTile.updateRenderArea sampleGlobals false)._renderArea
          = some (shownMarginTile.computeRenderArea sampleGlobals) :=
  ⟨_, _, rfl, rfl,
    (updateRenderArea_rebuild_decision sampleGlobals shownMarginTile _ _ rfl rfl).1⟩

/-! ## Hidden tilesets and marker layers -/

/-- A property kept by the removal step and by the assignment of the extent is kept by
the loop of `trimHelper`. -/
theorem trimLoop_keeps (dir : Dir) (minValue tileCount : Int)
    (getter : Tileset → Int → Option Tile) (removeFn : Tileset → Tileset)
    (P : Tileset → Prop)
    (hstep : ∀ s v, P s → P ((removeFn s).setSize dir v)) :
    ∀ (n : Nat) (s : Tileset), P s → P (trimLoop dir minValue tileCount getter removeFn n s) := by
  intro n
  induction n with
  | zero => intro s h; exact h
  | succ n ih =>
    intro s h
    unfold trimLoop
    split
    · split
      · exact h
      · exact ih _ (hstep s _ h)
    · exact h

theorem setSize_render_fields (dir : Dir) (v : Int) (s : Tileset) :
    (s.setSize dir v)._visible = s._visible ∧ (s.setSize dir v).table = s.table := by
  cases dir <;> exact ⟨rfl, rfl⟩

/-- The four passes of `trim` do not touch the visibility and the table. -/
theorem trimGrid_render_fields (t : Tileset) :
    (trimGrid t)._visible = t._visible ∧ (trimGrid t).table = t.table := by
  have key : ∀ (dir : Dir) (minValue tileCount : Int)
      (getter : Tileset → Int → Option Tile) (removeFn : Tileset → Tileset),
      (∀ s, (removeFn s)._visible = s._visible ∧ (removeFn s).table = s.table) →
      ∀ s : Tileset, (s._visible = t._visible ∧ s.table = t.table) →
        ((trimHelper dir minValue tileCount getter removeFn s)._visible = t._visible
          ∧ (trimHelper dir minValue tileCount getter removeFn s).table = t.table) := by
    intro dir minValue tileCount getter removeFn hrem s hs
    unfold trimHelper
    apply trimLoop_keeps dir minValue tileCount getter removeFn
      (fun s => s._visible = t._visible ∧ s.table = t.table) _ _ s hs
    intro s v h
    have h1 := setSize_render_fields dir v (removeFn s)
    have h2 := hrem s
    exact ⟨h1.1.trans (h2.1.trans h.1), h1.2.trans (h2.2.trans h.2)⟩
  unfold trimGrid
  dsimp only
  apply key Dir.E _ _ _ removeEast (fun s => ⟨rfl, rfl⟩)
  apply key Dir.W _ _ _ removeWest (fun s => ⟨rfl, rfl⟩)
  apply key Dir.S _ _ _ removeSouth
    (fun s => by unfold removeSouth; split <;> exact ⟨rfl, rfl⟩)
  apply key Dir.N _ _ _ removeNorth (fun s => ⟨rfl, rfl⟩)
  exact ⟨rfl, rfl⟩

theorem hiddenHasNoTable_setVisible (b : Bool) (t : Tileset) :
    HiddenHasNoTable (t.setVisible b) := by
  intro h
  rw [setVisible_visible] at h
  subst h
  unfold setVisible
  dsimp only
  cases ht : t.table with
  | none => simp [ht]
  | some tb => simp [ht, remove]

theorem render_hidden (g : Globals) (b : Bool) (t : Tileset) (h : t._visible = false) :
    t.render g b = t := by
  unfold render isVisible
  rw [h]
  rfl

theorem hiddenHasNoTable_render (g : Globals) (b : Bool) (t : Tileset)
    (h : HiddenHasNoTable t) : HiddenHasNoTable (t.render g b) := by
  intro hv
  rw [render_visible] at hv
  rw [render_hidden g b t hv]
  exact h hv

theorem expand_render_fields (dir : Dir) (amount : Nat) (t : Tileset) :
    ∃ t2 : Tileset, (∀ g, t.expand g dir amount = t2.render g false)
      ∧ t2._visible = t._visible ∧ t2.table = t.table := by
  cases dir
  · exact ⟨_, fun g => rfl, rfl, rfl⟩
  · exact ⟨_, fun g => rfl, rfl, rfl⟩
  · exact ⟨_, fun g => rfl, rfl, rfl⟩
  · exact ⟨_, fun g => rfl, rfl, rfl⟩

/-- C19. Hidden tilesets hold no table: the property "a tileset with `_visible = false`
has no table" holds for a new tileset and is kept by `setVisible`, `render`, `expand`,
`trim` and `globalZoomLevelChanged`; `setVisible(false)` always leaves the tileset
without a table, and `render` leaves a hidden tileset as it is. -/
theorem hidden_tileset_has_no_table (g : Globals) :
    (∀ (data : TilesetData) (index : Nat), HiddenHasNoTable (Tileset.fromData data index))
    ∧ (∀ (b : Bool) (t : Tileset), HiddenHasNoTable (t.setVisible b))
    ∧ (∀ t : Tileset, (t.setVisible false).table = none)
    ∧ (∀ (b : Bool) (t : Tileset), HiddenHasNoTable t → HiddenHasNoTable (t.render g b))
    ∧ (∀ (b : Bool) (t : Tileset), t._visible = false → t.render g b = t)
    ∧ (∀ (dir : Dir) (amount : Nat) (t : Tileset), HiddenHasNoTable t →
        HiddenHasNoTable (t.expand g dir amount))
    ∧ (∀ t : Tileset, HiddenHasNoTable t → HiddenHasNoTable (t.trim g))
    ∧ (∀ (v : Viewer) (m : MapData) (o : Nat), v.currentMap = some m → m._overview = some o →
        o < m.tilesets.length →
        ∃ (v1 : Viewer) (m1 : MapData), globalZoomLevelChanged v = some v1
          ∧ v1.currentMap = some m1 ∧ ∀ t ∈ m1.tilesets, HiddenHasNoTable t) := by
  refine ⟨fun _ _ _ => rfl, hiddenHasNoTable_setVisible, ?_, hiddenHasNoTable_render g,
    render_hidden g, ?_, ?_, ?_⟩
  · intro t
    exact hiddenHasNoTable_setVisible false t (setVisible_visible false t)
  · intro dir amount t h
    obtain ⟨t2, e, hv, htb⟩ := expand_render_fields dir amount t
    rw [e g]
    apply hiddenHasNoTable_render
    intro hv2
    rw [htb]
    exact h (hv.symm.trans hv2)
  · intro t h
    unfold trim
    apply hiddenHasNoTable_render
    obtain ⟨hv, htb⟩ := trimGrid_render_fields t
    intro hv2
    rw [htb]
    exact h (hv.symm.trans hv2)
  · intro v m o hm ho hlt
    obtain ⟨v1, m1, _, e, hm1, _, _, _, hts, _⟩ := globalZoomLevelChanged_spec v m o hm ho hlt
    refine ⟨v1, m1, e, hm1, ?_⟩
    intro t ht
    obtain ⟨j, hj⟩ := List.mem_iff_getElem?.1 ht
    rw [hts j] at hj
    cases h0 : m.tilesets[j]? with
    | none => rw [h0] at hj; simp at hj
    | some t0 =>
      rw [h0] at hj
      simp only [Option.map_some', Option.some.injEq] at hj
      rw [← hj]
      unfold lodStep
      exact hiddenHasNoTable_render _ _ _ (hiddenHasNoTable_setVisible _ _)

theorem hidden_tileset_has_no_table_witness :
    HiddenHasNoTable marginTile
    ∧ HiddenHasNoTable (marginTile.trim sampleGlobals)
    ∧ HiddenHasNoTable (marginTile.expand sampleGlobals Dir.N 1)
    ∧ (shownMarginTile.setVisible false).table = none :=
  ⟨fun _ => rfl,
    (hidden_tileset_has_no_table sampleGlobals).2.2.2.2.2.2.1 marginTile (fun _ => rfl),
    (hidden_tileset_has_no_table sampleGlobals).2.2.2.2.2.1 Dir.N 1 marginTile (fun _ => rfl),
    (hidden_tileset_has_no_table sampleGlobals).2.2.1 shownMarginTile⟩

theorem zoomIcons_getElem? (g : Globals) (icons : List MarkerIconDefinition) (i : Nat) :
    (zoomIcons g icons)[i]? = (icons[i]?).map (fun icon =>
      { icon.setVisible g (decide (g.globalZoomLevel ≥ icon.zoomLevel)) with
        layer := (icon.setVisible g (decide (g.globalZoomLevel ≥ icon.zoomLevel))).layer.map
          (fun layer => { layer with children := layer.children.map (fun el =>
            { el with scale := 100 / g.globalZoomLevel }) }) }) := by
  unfold zoomIcons
  simp only [List.getElem?_map, Option.map_map]
  rfl

/-- The icons after `globalZoomLevelChanged` with a valid overview reference. -/
theorem globalZoomLevelChanged_icons (v : Viewer) (m : MapData) (o : Nat)
    (hm : v.currentMap = some m) (ho : m._overview = some o) (hlt : o < m.tilesets.length) :
    ∃ (v1 : Viewer) (m1 : MapData), globalZoomLevelChanged v = some v1
      ∧ v1.currentMap = some m1 ∧ m1.icons = zoomIcons v.globals m.icons := by
  obtain ⟨ts1, best1, e, _⟩ :=
    zoomLoop_spec v.globals (some o) m.tilesets.length 0 m.tilesets o (by omega) hlt
  have e2 : globalZoomLevelChanged v = some
      { v with
        originLeft := v.globals.globalOriginX, originTop := v.globals.globalOriginY
        currentMap := some { m with tilesets := ts1, icons := zoomIcons v.globals m.icons }
        currentTileset := some best1
        markersLeft := v.globals.globalOriginX
        markersTop := v.globals.globalOriginY
        markersScalePercent := v.globals.globalZoomLevel } := by
    unfold globalZoomLevelChanged
    simp only [hm, ho, e]
  exact ⟨_, _, e2, rfl, rfl⟩

/-- The layer of an icon type after the marker part of `globalZoomLevelChanged`. -/
theorem zoomIcon_layer (g : Globals) (icon : MarkerIconDefinition) :
    ((icon.setVisible g (decide (g.globalZoomLevel ≥ icon.zoomLevel)))._enabled = icon._enabled
      ∧ (icon.setVisible g (decide (g.globalZoomLevel ≥ icon.zoomLevel))).zoomLevel
          = icon.zoomLevel)
    ∧ (∀ layer, (icon.setVisible g (decide (g.globalZoomLevel ≥ icon.zoomLevel))).layer
          = some layer →
        (layer.hidden = false ↔ (icon._enabled = true ∧ g.globalZoomLevel ≥ icon.zoomLevel)))
    ∧ (icon.layer = none → ¬ (icon._enabled = true ∧ g.globalZoomLevel ≥ icon.zoomLevel) →
        (icon.setVisible g (decide (g.globalZoomLevel ≥ icon.zoomLevel))).layer = none) := by
  unfold MarkerIconDefinition.setVisible MarkerIconDefinition.renderLayer
    MarkerIconDefinition.isEnabled MarkerIconDefinition.isVisible
  dsimp only
  cases hl : icon.layer with
  | some l =>
    dsimp only
    refine ⟨⟨rfl, rfl⟩, ?_, ?_⟩
    · intro layer hlayer
      simp only [Option.some.injEq] at hlayer
      rw [← hlayer]
      simp
    · intro h; simp at h
  | none =>
    dsimp only
    by_cases hs : (icon._enabled && decide (g.globalZoomLevel ≥ icon.zoomLevel)) = true
    · rw [if_pos hs]
      refine ⟨⟨rfl, rfl⟩, ?_, ?_⟩
      · intro layer hlayer
        simp only [Option.some.injEq] at hlayer
        rw [← hlayer]
        simpa using hs
      · intro _ hn
        exfalso
        apply hn
        simpa using hs
    · rw [if_neg hs]
      refine ⟨⟨rfl, rfl⟩, ?_, ?_⟩
      · intro layer hlayer
        simp at hlayer
      · intro _ _
        rfl

/-- Source `renderLayer()` creates no layer unless the icon type is enabled and
visible. -/
theorem renderLayer_creates_only_when_shown (g : Globals) (icon : MarkerIconDefinition)
    (hl : icon.layer = none) (hn : ¬ (icon._enabled = true ∧ icon._visible = true)) :
    (icon.renderLayer g).layer = none := by
  unfold MarkerIconDefinition.renderLayer MarkerIconDefinition.isEnabled
    MarkerIconDefinition.isVisible
  dsimp only
  rw [hl]
  dsimp only
  have hs : ¬ (icon._enabled && icon._visible) = true := by
    simpa using hn
  rw [if_neg hs]
  exact hl

/-- The marker layers right after `globalZoomLevelChanged`: every icon type that has a
layer has it shown (class `d-none` absent) if and only if the icon type is enabled and the
global zoom level is at least its zoom level; and an icon type without layer for which
that condition is false still has no layer.  Between two calls `renderLayer` decides on
`_enabled` and the stored `_visible`, not on the zoom levels. -/
theorem marker_layer_visibility (v : Viewer) (m : MapData) (o : Nat)
    (hm : v.currentMap = some m) (ho : m._overview = some o) (hlt : o < m.tilesets.length) :
    (∃ (v1 : Viewer) (m1 : MapData), globalZoomLevelChanged v = some v1
      ∧ v1.currentMap = some m1
      ∧ ∀ (i : Nat) (icon : MarkerIconDefinition), m.icons[i]? = some icon →
        ∃ icon1, m1.icons[i]? = some icon1
          ∧ icon1._enabled = icon._enabled ∧ icon1.zoomLevel = icon.zoomLevel
          ∧ (∀ layer, icon1.layer = some layer →
              (layer.hidden = false ↔
                (icon._enabled = true ∧ v.globals.globalZoomLevel ≥ icon.zoomLevel)))
          ∧ (icon.layer = none →
              ¬ (icon._enabled = true ∧ v.globals.globalZoomLevel ≥ icon.zoomLevel) →
              icon1.layer = none))
    ∧ (∀ (g : Globals) (icon : MarkerIconDefinition), icon.layer = none →
        ¬ (icon._enabled = true ∧ icon._visible = true) → (icon.renderLayer g).layer = none) := by
  refine ⟨?_, renderLayer_creates_only_when_shown⟩
  obtain ⟨v1, m1, e, hm1, hi⟩ := globalZoomLevelChanged_icons v m o hm ho hlt
  refine ⟨v1, m1, e, hm1, ?_⟩
  intro i icon hicon
  obtain ⟨⟨h1, h2⟩, h3, h4⟩ := zoomIcon_layer v.globals icon
  have hget : m1.icons[i]? = some
      { icon.setVisible v.globals (decide (v.globals.globalZoomLevel ≥ icon.zoomLevel)) with
        layer := (icon.setVisible v.globals
            (decide (v.globals.globalZoomLevel ≥ icon.zoomLevel))).layer.map
          (fun layer => { layer with children := layer.children.map (fun el =>
            { el with scale := 100 / v.globals.globalZoomLevel }) }) } := by
    rw [hi, zoomIcons_getElem?, hicon]
    rfl
  refine ⟨_, hget, h1, h2, ?_, ?_⟩
  · intro layer hlayer
    dsimp only at hlayer
    cases hsv : (icon.setVisible v.globals
        (decide (v.globals.globalZoomLevel ≥ icon.zoomLevel))).layer with
    | none => rw [hsv] at hlayer; simp at hlayer
    | some l0 =>
      rw [hsv] at hlayer
      simp only [Option.map_some', Option.some.injEq] at hlayer
      rw [← hlayer]
      exact h3 l0 hsv
  · intro hn hc
    dsimp only
    rw [h4 hn hc]
    rfl

theorem marker_layer_visibility_witness :
    iconViewer.currentMap = some iconExample ∧ iconExample._overview = some 0
    ∧ 0 < iconExample.tilesets.length
    ∧ ∃ (v1 : Viewer) (m1 : MapData), globalZoomLevelChanged iconViewer = some v1
      ∧ v1.currentMap = some m1
      ∧ ∀ (i : Nat) (icon : MarkerIconDefinition), iconExample.icons[i]? = some icon →
        ∃ icon1, m1.icons[i]? = some icon1
          ∧ icon1._enabled = icon._enabled ∧ icon1.zoomLevel = icon.zoomLevel
          ∧ (∀ layer, icon1.layer = some layer →
              (layer.hidden = false ↔
                (icon._enabled = true
                  ∧ iconViewer.globals.globalZoomLevel ≥ icon.zoomLevel)))
          ∧ (icon.layer = none →
              ¬ (icon._enabled = true
                  ∧ iconViewer.globals.globalZoomLevel ≥ icon.zoomLevel) →
              icon1.layer = none) :=
  ⟨rfl, by decide, by decide,
    (marker_layer_visibility iconViewer iconExample 0 rfl (by decide) (by decide)).1⟩

/-! ## Markers on screen, wheel zoom and monotone visibility -/

/-- The state after `globalZoomLevelChanged` with a valid overview reference, written
out. -/
theorem globalZoomLevelChanged_eq (v : Viewer) (m : MapData) (o : Nat)
    (hm : v.currentMap = some m) (ho : m._overview = some o) (hlt : o < m.tilesets.length) :
    ∃ (ts1 : List Tileset) (best1 : Nat), globalZoomLevelChanged v = some
      { v with
        originLeft := v.globals.globalOriginX, originTop := v.globals.globalOriginY
        currentMap := some { m with tilesets := ts1, icons := zoomIcons v.globals m.icons }
        currentTileset := some best1
        markersLeft := v.globals.globalOriginX
        markersTop := v.globals.globalOriginY
        markersScalePercent := v.globals.globalZoomLevel } := by
  obtain ⟨ts1, best1, e, _⟩ :=
    zoomLoop_spec v.globals (some o) m.tilesets.length 0 m.tilesets o (by omega) hlt
  refine ⟨ts1, best1, ?_⟩
  unfold globalZoomLevelChanged
  simp only [hm, ho, e]

/-- Any successful `globalZoomLevelChanged` leaves the globals as they are. -/
theorem globalZoomLevelChanged_globals (v v1 : Viewer)
    (h : globalZoomLevelChanged v = some v1) : v1.globals = v.globals := by
  unfold globalZoomLevelChanged at h
  dsimp only at h
  split at h
  · cases h; rfl
  · split at h
    · cases h
    · cases h; rfl

/-- The position and scale of the children of a layer after the marker part of
`globalZoomLevelChanged`: positions are kept, every scale is `100 / globalZoomLevel`. -/
theorem zoomIcons_children (g : Globals) (icons : List MarkerIconDefinition) (i : Nat)
    (icon1 : MarkerIconDefinition) (layer1 : Layer) (k : Nat) (el : MarkerElement)
    (hi : (zoomIcons g icons)[i]? = some icon1) (hl : icon1.layer = some layer1)
    (hk : layer1.children[k]? = some el) :
    el.scale = 100 / g.globalZoomLevel := by
  rw [zoomIcons_getElem?] at hi
  cases hic : icons[i]? with
  | none => rw [hic] at hi; cases hi
  | some icon =>
    rw [hic] at hi
    simp only [Option.map_some', Option.some.injEq] at hi
    subst hi
    simp only [Option.map_eq_some'] at hl
    obtain ⟨l0, _, rfl⟩ := hl
    simp only [List.getElem?_map, Option.map_eq_some'] at hk
    obtain ⟨e0, _, rfl⟩ := hk
    rfl

/-- The conversion of the displayed position of an element back to coordinates. -/
theorem clientPos_of_screenPos (v : Viewer) (el : MarkerElement)
    (hz : v.globals.globalZoomLevel ≠ 0)
    (hl : v.markersLeft = v.globals.globalOriginX) (ht : v.markersTop = v.globals.globalOriginY)
    (hs : v.markersScalePercent = v.globals.globalZoomLevel) :
    clientPosToCoordinates v.globals (v.globals.rendererLeft + (markerScreenPos v el).1)
      (v.globals.rendererTop + (markerScreenPos v el).2) = { x := el.left, y := el.top } := by
  unfold clientPosToCoordinates markerScreenPos
  simp only [hl, ht, hs]
  congr 1
  · field_simp
    ring
  · field_simp
    ring

/-- The example of a marker at (100, 200) seen at zoom 50 with the origin at (0, 0): the
marker image has scale 2 and is displayed at (50, 100). -/
theorem markerViewer_example :
    ((zoomIcons markerViewer.globals markerMap.icons).map (fun icon => icon.layer.map (fun l => l.children)))
      = [some [{ src := "icon.svg", title := "a", left := 100, top := 200, scale := 2 }]]
    ∧ markerScreenPos { markerViewer with markersScalePercent := 50 }
        { src := "icon.svg", title := "a", left := 100, top := 200, scale := 2 } = (50, 100) := by
  constructor
  · simp [zoomIcons, markerViewer, markerMap, markerIcon, lodViewer, sampleGlobals,
      MarkerIconDefinition.setVisible, MarkerIconDefinition.setEnabled,
      MarkerIconDefinition.renderLayer, MarkerIconDefinition.fromData,
      MarkerIconDefinition.isEnabled, MarkerIconDefinition.isVisible,
      MarkerIconDefinition.markerElement, Marker.fromData]
    norm_num
  · norm_num [markerScreenPos, markerViewer, lodViewer]

/-- The wheel update of the globals keeps the coordinates under the cursor, for every
non-zero multiplier. -/
theorem wheelZoomGlobals_keeps_point (g : Globals) (zoomMult clientX clientY : ℚ)
    (hz : g.globalZoomLevel ≠ 0) (hm : zoomMult ≠ 0) :
    clientPosToCoordinates (wheelZoomGlobals g zoomMult clientX clientY) clientX clientY
      = clientPosToCoordinates g clientX clientY := by
  unfold clientPosToCoordinates wheelZoomGlobals
  dsimp only
  congr 1
  · field_simp
    ring
  · field_simp
    ring

/-- C23 (amended). Wheel zoom keeps the point under the cursor fixed in exact arithmetic:
for a non-zero zoom level and a multiplier 1.25 or 1/1.25, `clientPosToCoordinates(clientX,
clientY)` computed without rounding is the same before and after the update of the
`mousewheel` handler, which returns with the zoom level multiplied accordingly. -/
theorem wheel_zoom_keeps_cursor_point (v : Viewer) (m : MapData) (o : Nat)
    (hm : v.currentMap = some m) (ho : m._overview = some o) (hlt : o < m.tilesets.length)
    (hz : v.globals.globalZoomLevel ≠ 0) (deltaY clientX clientY : ℚ) :
    (∀ zoomMult : ℚ, zoomMult = 1.25 ∨ zoomMult = 1 / 1.25 →
      clientPosToCoordinates (wheelZoomGlobals v.globals zoomMult clientX clientY)
        clientX clientY = clientPosToCoordinates v.globals clientX clientY)
    ∧ ∃ v1 : Viewer, mousewheel v deltaY clientX clientY = some v1
      ∧ clientPosToCoordinates v1.globals clientX clientY
          = clientPosToCoordinates v.globals clientX clientY
      ∧ (deltaY < 0 → v1.globals.globalZoomLevel = v.globals.globalZoomLevel * 1.25)
      ∧ (deltaY > 0 → v1.globals.globalZoomLevel = v.globals.globalZoomLevel * (1 / 1.25))
      ∧ (deltaY = 0 → v1 = v) := by
  have hA : ∀ zoomMult : ℚ, zoomMult = 1.25 ∨ zoomMult = 1 / 1.25 →
      clientPosToCoordinates (wheelZoomGlobals v.globals zoomMult clientX clientY)
        clientX clientY = clientPosToCoordinates v.globals clientX clientY := by
    intro zoomMult hzm
    apply wheelZoomGlobals_keeps_point _ _ _ _ hz
    rcases hzm with h | h <;> rw [h] <;> norm_num
  refine ⟨hA, ?_⟩
  unfold mousewheel
  by_cases h1 : deltaY < 0
  · rw [if_pos h1]
    obtain ⟨ts1, best1, e⟩ := globalZoomLevelChanged_eq
      { v with globals := wheelZoomGlobals v.globals 1.25 clientX clientY } m o hm ho hlt
    refine ⟨_, e, hA _ (Or.inl rfl), fun _ => rfl, fun h => ?_, fun h => ?_⟩
    · exact absurd h (not_lt.2 h1.le)
    · exact absurd h h1.ne
  · rw [if_neg h1]
    by_cases h2 : deltaY > 0
    · rw [if_pos h2]
      obtain ⟨ts1, best1, e⟩ := globalZoomLevelChanged_eq
        { v with globals := wheelZoomGlobals v.globals (1 / 1.25) clientX clientY } m o hm ho hlt
      refine ⟨_, e, hA _ (Or.inr rfl), fun h => absurd h h1, fun _ => rfl, fun h => ?_⟩
      exact absurd h (ne_of_gt h2)
    · rw [if_neg h2]
      exact ⟨v, rfl, rfl, fun h => absurd h h1, fun h => absurd h h2, fun _ => rfl⟩

theorem wheel_zoom_keeps_cursor_point_witness :
    (lodViewer.currentMap = some lodMap ∧ lodMap._overview = some 0
      ∧ 0 < lodMap.tilesets.length ∧ lodViewer.globals.globalZoomLevel ≠ 0)
    ∧ ∃ v1 : Viewer, mousewheel lodViewer (-1) 300 200 = some v1
      ∧ clientPosToCoordinates v1.globals 300 200
          = clientPosToCoordinates lodViewer.globals 300 200 :=
  ⟨⟨rfl, rfl, by decide, by norm_num [lodViewer, sampleGlobals]⟩,
    by
      obtain ⟨v1, h1, h2, _⟩ := (wheel_zoom_keeps_cursor_point lodViewer lodMap 0 rfl rfl
        (by decide) (by norm_num [lodViewer, sampleGlobals]) (-1) 300 200).2
      exact ⟨v1, h1, h2⟩⟩

/-- The level-of-detail test is monotone in the global zoom level. -/
theorem lodVisible_mono (g : Globals) (z : ℚ) (isOverview : Bool) (t : Tileset)
    (hzt : 0 < t.zoomLevel) (htw : 0 < t.tileWidth) (hth : 0 < t.tileHeight)
    (hzz : g.globalZoomLevel ≤ z)
    (h : lodVisible g isOverview t = true) :
    lodVisible { g with globalZoomLevel := z } isOverview t = true := by
  unfold lodVisible at h ⊢
  unfold getScaledTileWidth getScaledTileHeight getDisplayScale at h ⊢
  dsimp only at h ⊢
  have hd : g.globalZoomLevel / t.zoomLevel ≤ z / t.zoomLevel :=
    div_le_div_of_nonneg_right hzz hzt.le
  by_cases ho : isOverview = true
  · rw [if_pos ho]
  · rw [if_neg ho] at h ⊢
    by_cases h1 : g.globalZoomLevel / t.zoomLevel > 0.7
    · rw [if_pos (show z / t.zoomLevel > 0.7 from lt_of_lt_of_le h1 hd)]
    · rw [if_neg h1] at h
      by_cases h2 : t.tileWidth * (g.globalZoomLevel / t.zoomLevel) > 0.5 * g.rendererWidth
          ∧ t.tileHeight * (g.globalZoomLevel / t.zoomLevel) > 0.5 * g.rendererHeight
      · have h3 : t.tileWidth * (z / t.zoomLevel) > 0.5 * g.rendererWidth
            ∧ t.tileHeight * (z / t.zoomLevel) > 0.5 * g.rendererHeight :=
          ⟨lt_of_lt_of_le h2.1 (mul_le_mul_of_nonneg_left hd htw.le),
            lt_of_lt_of_le h2.2 (mul_le_mul_of_nonneg_left hd hth.le)⟩
        split
        · rfl
        · simp only [if_pos h3]
      · rw [if_neg h2] at h
        cases h

/-- C29. Level-of-detail visibility is monotone in the zoom: for a tileset with positive
zoom level and tile dimensions, if the visibility rule of `globalZoomLevelChanged` holds at
one global zoom level it holds at every greater or equal one, and so a tileset that is
visible after `globalZoomLevelChanged` at the first level is visible after it at the
second. -/
theorem lod_visibility_monotone (v : Viewer) (m : MapData) (o : Nat) (z : ℚ)
    (hm : v.currentMap = some m) (ho : m._overview = some o) (hlt : o < m.tilesets.length)
    (hzz : v.globals.globalZoomLevel ≤ z) :
    (∀ (isOverview : Bool) (t : Tileset), 0 < t.zoomLevel → 0 < t.tileWidth →
        0 < t.tileHeight → lodVisible v.globals isOverview t = true →
        lodVisible { v.globals with globalZoomLevel := z } isOverview t = true)
    ∧ ∃ (v1 : Viewer) (m1 : MapData) (v2 : Viewer) (m2 : MapData),
      globalZoomLevelChanged v = some v1 ∧ v1.currentMap = some m1
      ∧ globalZoomLevelChanged { v with globals := { v.globals with globalZoomLevel := z } }
          = some v2
      ∧ v2.currentMap = some m2
      ∧ ∀ (j : Nat) (t : Tileset), m.tilesets[j]? = some t → 0 < t.zoomLevel →
          0 < t.tileWidth → 0 < t.tileHeight →
          visibleAt m1.tilesets j = true → visibleAt m2.tilesets j = true := by
  refine ⟨fun isOverview t p1 p2 p3 h => lodVisible_mono v.globals z isOverview t p1 p2 p3 hzz h,
    ?_⟩
  obtain ⟨v1, m1, _, e1, c1, _, _, _, s1, _⟩ := globalZoomLevelChanged_spec v m o hm ho hlt
  obtain ⟨v2, m2, _, e2, c2, _, _, _, s2, _⟩ := globalZoomLevelChanged_spec
    { v with globals := { v.globals with globalZoomLevel := z } } m o hm ho hlt
  refine ⟨v1, m1, v2, m2, e1, c1, e2, c2, ?_⟩
  intro j t hjt p1 p2 p3 hj
  unfold visibleAt at hj ⊢
  rw [s1 j, hjt] at hj
  rw [s2 j, hjt]
  simp only [Option.map_some', Option.getD_some, lodStep_visible] at hj ⊢
  exact lodVisible_mono v.globals z _ t p1 p2 p3 hzz hj

theorem lod_visibility_monotone_witness :
    (lodViewer.currentMap = some lodMap ∧ lodMap._overview = some 0
      ∧ 0 < lodMap.tilesets.length ∧ lodViewer.globals.globalZoomLevel ≤ 80)
    ∧ ∃ (v1 : Viewer) (m1 : MapData) (v2 : Viewer) (m2 : MapData),
      globalZoomLevelChanged lodViewer = some v1 ∧ v1.currentMap = some m1
      ∧ globalZoomLevelChanged
          { lodViewer with globals := { lodViewer.globals with globalZoomLevel := 80 } }
          = some v2
      ∧ v2.currentMap = some m2
      ∧ ∀ (j : Nat) (t : Tileset), lodMap.tilesets[j]? = some t → 0 < t.zoomLevel →
          0 < t.tileWidth → 0 < t.tileHeight →
          visibleAt m1.tilesets j = true → visibleAt m2.tilesets j = true :=
  have hzz : lodViewer.globals.globalZoomLevel ≤ 80 := by
    norm_num [lodViewer, sampleGlobals]
  ⟨⟨rfl, rfl, by decide, hzz⟩,
    (lod_visibility_monotone lodViewer lodMap 0 80 rfl rfl (by decide) hzz).2⟩

/-! ## Render area off-screen -/

/-- The single-tile tileset seen with the origin 2000 pixels to the left: the computed
area starts at column 3 of a grid with one column and has a negative number of columns. -/
theorem computeRenderArea_offscreen_example :
    (singleTile.computeRenderArea offscreenGlobals).numCols < 0
    ∧ singleTile.numCols < (singleTile.computeRenderArea offscreenGlobals).firstCol
    ∧ 0 < singleTile.getScaledTileWidth offscreenGlobals
    ∧ 0 < singleTile.getScaledTileHeight offscreenGlobals := by
  have hf : ⌊(2000 : ℚ) / 512⌋ = 3 := by norm_num [Int.floor_eq_iff]
  have h1 : (singleTile.computeRenderArea offscreenGlobals).firstCol = 3 := by
    norm_num [computeRenderArea, singleTile, offscreenGlobals, sampleGlobals, fullTableX,
      getScaledTileWidth, getDisplayScale, Tileset.default, Int.floor_eq_iff]
  have h2 : (singleTile.computeRenderArea offscreenGlobals).numCols
      ≤ singleTile.numCols - (singleTile.computeRenderArea offscreenGlobals).firstCol :=
    min_le_right _ _
  have h3 : singleTile.numCols = 1 := by decide
  rw [h1, h3] at h2
  rw [h1, h3]
  refine ⟨by omega, by omega, ?_, ?_⟩ <;>
    norm_num [getScaledTileWidth, getScaledTileHeight, getDisplayScale, singleTile,
      offscreenGlobals, sampleGlobals, Tileset.default]

/-- One axis of `computeRenderArea`: the count is positive exactly when some cell of the
grid overlaps the viewport, and the first index is then inside the grid. -/
theorem axis_count_pos (full s size : ℚ) (n : Int) (hs : 0 < s) (first : Int)
    (hfirst : first = if full < 0 then ⌊-full / s⌋ else 0) :
    (0 < min ⌈(size - (full + first * s)) / s⌉ (n - first)
      ↔ ∃ cell : Int, 0 ≤ cell ∧ cell < n
          ∧ overlapsViewport (full + cell * s) (full + (cell + 1) * s) size)
    ∧ (0 < min ⌈(size - (full + first * s)) / s⌉ (n - first) → 0 ≤ first ∧ first < n) := by
  have h0 : 0 ≤ first := by
    rw [hfirst]
    split
    · apply Int.floor_nonneg.2
      apply div_nonneg _ hs.le
      linarith
    · exact le_refl _
  have hlt : 0 < min ⌈(size - (full + first * s)) / s⌉ (n - first) → first < n := by
    intro h
    have := lt_of_lt_of_le h (min_le_right _ _)
    omega
  refine ⟨⟨fun h => ?_, fun h => ?_⟩, fun h => ⟨h0, hlt h⟩⟩
  · refine ⟨first, h0, hlt h, ?_⟩
    apply (axis_exact full s size n first hs h0 (hlt h) first hfirst).1
    exact ⟨le_refl _, by omega⟩
  · obtain ⟨cell, c0, cn, hov⟩ := h
    have := (axis_exact full s size n cell hs c0 cn first hfirst).2 hov
    omega

/-- C30 (as stated, refuted). With positive scaled tile sizes `computeRenderArea` can
return a negative count and a first index past the grid: it does for a grid that lies
entirely off-screen to the left. -/
theorem computeRenderArea_offscreen_not_wellformed :
    ¬ (∀ (g : Globals) (t : Tileset), 0 < t.getScaledTileWidth g →
        0 < t.getScaledTileHeight g →
        0 ≤ (t.computeRenderArea g).numRows ∧ 0 ≤ (t.computeRenderArea g).numCols
        ∧ (t.computeRenderArea g).firstRow ≤ t.numRows
        ∧ (t.computeRenderArea g).firstCol ≤ t.numCols) := by
  intro h
  obtain ⟨h1, h2, h3, h4⟩ := computeRenderArea_offscreen_example
  have := h offscreenGlobals singleTile h3 h4
  omega

/-- C30 (amended). For positive scaled tile sizes the first row and column returned by
`computeRenderArea` are non-negative; on each axis the count is positive exactly when
some row (column) of the grid overlaps the viewport, and the first index is then inside
the grid; when a count is not positive, `renderTableArea` builds a table without cells. -/
theorem computeRenderArea_wellformed_on_screen (g : Globals) (t : Tileset)
    (hw : 0 < t.getScaledTileWidth g) (hh : 0 < t.getScaledTileHeight g) :
    (0 ≤ (t.computeRenderArea g).firstRow ∧ 0 ≤ (t.computeRenderArea g).firstCol)
    ∧ (0 < (t.computeRenderArea g).numRows
        ↔ ∃ row : Int, 0 ≤ row ∧ row < t.numRows
            ∧ overlapsViewport (t.fullTableY g + row * t.getScaledTileHeight g)
                (t.fullTableY g + (row + 1) * t.getScaledTileHeight g) g.rendererHeight)
    ∧ (0 < (t.computeRenderArea g).numCols
        ↔ ∃ col : Int, 0 ≤ col ∧ col < t.numCols
            ∧ overlapsViewport (t.fullTableX g + col * t.getScaledTileWidth g)
                (t.fullTableX g + (col + 1) * t.getScaledTileWidth g) g.rendererWidth)
    ∧ (0 < (t.computeRenderArea g).numRows → (t.computeRenderArea g).firstRow < t.numRows)
    ∧ (0 < (t.computeRenderArea g).numCols → (t.computeRenderArea g).firstCol < t.numCols)
    ∧ ((t.computeRenderArea g).numRows ≤ 0 ∨ (t.computeRenderArea g).numCols ≤ 0 →
        ∀ table, (t.renderTableArea g (t.computeRenderArea g)).table = some table →
          ∀ tr ∈ table.cells, tr = []) := by
  have hrow := axis_count_pos (t.fullTableY g) (t.getScaledTileHeight g) g.rendererHeight
    t.numRows hh (t.computeRenderArea g).firstRow rfl
  have hcol := axis_count_pos (t.fullTableX g) (t.getScaledTileWidth g) g.rendererWidth
    t.numCols hw (t.computeRenderArea g).firstCol rfl
  have hr0 : 0 ≤ (t.computeRenderArea g).firstRow := by
    show (0 : Int) ≤ if t.fullTableY g < 0 then ⌊-t.fullTableY g / t.getScaledTileHeight g⌋ else 0
    split
    · exact Int.floor_nonneg.2 (div_nonneg (by linarith) hh.le)
    · exact le_refl _
  have hc0 : 0 ≤ (t.computeRenderArea g).firstCol := by
    show (0 : Int) ≤ if t.fullTableX g < 0 then ⌊-t.fullTableX g / t.getScaledTileWidth g⌋ else 0
    split
    · exact Int.floor_nonneg.2 (div_nonneg (by linarith) hw.le)
    · exact le_refl _
  refine ⟨⟨hr0, hc0⟩, hrow.1, hcol.1, fun h => (hrow.2 h).2, fun h => (hcol.2 h).2, ?_⟩
  intro hneg table htab tr htr
  unfold renderTableArea at htab
  simp only [Option.some.injEq] at htab
  subst htab
  simp only [List.mem_map, List.mem_range] at htr
  obtain ⟨r, hr, rfl⟩ := htr
  rcases hneg with h | h
  · have : (t.computeRenderArea g).numRows.toNat = 0 := Int.toNat_eq_zero.2 h
    omega
  · have : (t.computeRenderArea g).numCols.toNat = 0 := Int.toNat_eq_zero.2 h
    rw [this]
    rfl

theorem computeRenderArea_wellformed_on_screen_witness :
    (0 < marginTile.getScaledTileWidth sampleGlobals
      ∧ 0 < marginTile.getScaledTileHeight sampleGlobals)
    ∧ (0 < (marginTile.computeRenderArea sampleGlobals).numCols →
        (marginTile.computeRenderArea sampleGlobals).firstCol < marginTile.numCols) :=
  have hw : 0 < marginTile.getScaledTileWidth sampleGlobals := by
    norm_num [getScaledTileWidth, getDisplayScale, sampleGlobals, marginTile, Tileset.default]
  have hh : 0 < marginTile.getScaledTileHeight sampleGlobals := by
    norm_num [getScaledTileHeight, getDisplayScale, sampleGlobals, marginTile, Tileset.default]
  ⟨⟨hw, hh⟩,
    (computeRenderArea_wellformed_on_screen sampleGlobals marginTile hw hh).2.2.2.2.1⟩

/-! ## Overview after culling -/

/-- The example map written out: the tileset created last has the lowest zoom level, so
it is the overview and has order 0. -/
theorem staleOverviewExample_eq :
    staleOverviewExample =
      { tilesets :=
          [{ Tileset.default 0 with grid := [[Tile.fromData true]], _zOrder := 1 },
           { Tileset.default 1 with zoomLevel := 50, _zOrder := 0 }]
        bgColor := "#111", icons := [], _overview := some 1 } := by
  simp [staleOverviewExample, MapData.createNewTileset, MapData.fromData,
    MapData.updateTilesetOrder, MapData.sortedTilesets, mapWithIndex, Tileset.fromData,
    TilesetData.empty, toSorted, toSortedInsert, zoomLevelAt, assignZOrder, modifyAt,
    Tileset.setZOrder, Tileset.default, List.range, List.range.loop]
  norm_num

/-- C22 (evaluation at the failing input). On the map `[A(zoomLevel 100, one tile),
B(zoomLevel 50, empty)]`, whose overview is `B`, `cullEmptyTilesets` removes `B` and
leaves `_overview` and the order of `A` as they were: the overview is none of the
remaining tilesets and the only order left is 1, where `updateTilesetOrder` would give
the overview `A` and the order 0. -/
theorem cullEmptyTilesets_stale_overview :
    staleOverviewExample.tilesets.map (fun t => (t.zoomLevel, t.isEmpty, t._zOrder))
      = [(100, false, 1), (50, true, 0)]
    ∧ staleOverviewExample._overview = some 1
    ∧ staleOverviewExample.cullEmptyTilesets.tilesets.length = 1
    ∧ staleOverviewExample.cullEmptyTilesets._overview = some 1
    ∧ staleOverviewExample.cullEmptyTilesets.tilesets[1]? = none
    ∧ staleOverviewExample.cullEmptyTilesets.tilesets.map (fun t => t._zOrder) = [1]
    ∧ staleOverviewExample.cullEmptyTilesets.updateTilesetOrder._overview = some 0
    ∧ staleOverviewExample.cullEmptyTilesets.updateTilesetOrder.tilesets.map
        (fun t => t._zOrder) = [0] := by
  rw [staleOverviewExample_eq]
  refine ⟨?_, rfl, ?_, rfl, ?_, ?_, ?_, ?_⟩
  · simp [Tileset.default, Tileset.isEmpty, Tile.fromData]
  · decide
  · decide
  · decide
  · decide
  · decide

/-! ## Cell elements and centring -/

/-- The render area of the margin tileset in the 800 x 600 renderer: rows 1..2 and
columns 1..2. -/
theorem marginTile_renderArea :
    marginTile.computeRenderArea sampleGlobals
      = { firstRow := 1, numRows := 2, firstCol := 1, numCols := 2, posX := 0, posY := 0 } := by
  have h1 : ⌈(75 : ℚ) / 64⌉ = 2 := by norm_num [Int.ceil_eq_iff]
  have h2 : ⌈(25 : ℚ) / 16⌉ = 2 := by norm_num [Int.ceil_eq_iff]
  norm_num [computeRenderArea, marginTile, sampleGlobals, fullTableY, fullTableX,
    getScaledTileHeight, getScaledTileWidth, getDisplayScale, Tileset.default,
    Tileset.numRows, Tileset.numCols, Int.floor_eq_iff, h1, h2]

/-- On a table just built by `renderTableArea`, `getElementAt` returns the cell of the
table for every position inside the area, and `null` for every position before the area
or more than one past its end. -/
theorem getElementAt_renderTableArea (g : Globals) (area : RenderArea) (t : Tileset)
    (row col : Int) :
    ((area.firstRow ≤ row ∧ row < area.firstRow + area.numRows
        ∧ area.firstCol ≤ col ∧ col < area.firstCol + area.numCols) →
      (t.renderTableArea g area).getElementAt row col = some [t.renderTableCell g row col])
    ∧ ((row < area.firstRow ∨ area.firstRow + area.numRows < row
        ∨ col < area.firstCol ∨ area.firstCol + area.numCols < col) →
      (t.renderTableArea g area).getElementAt row col = none) := by
  constructor
  · rintro ⟨h1, h2, h3, h4⟩
    unfold getElementAt renderTableArea
    dsimp only
    rw [if_pos ⟨h1, by omega, h3, by omega⟩]
    have hr : (row - area.firstRow).toNat < area.numRows.toNat := by omega
    have hc : (col - area.firstCol).toNat < area.numCols.toNat := by omega
    have e1 : area.firstRow + ((row - area.firstRow).toNat : Int) = row := by omega
    have e2 : area.firstCol + ((col - area.firstCol).toNat : Int) = col := by omega
    simp only [List.getElem?_map, List.getElem?_range hr, List.getElem?_range hc,
      Option.map_some', e1, e2]
  · intro h
    unfold getElementAt renderTableArea
    dsimp only
    rw [if_neg]
    intro ⟨h1, h2, h3, h4⟩
    omega

/-- C24 (evaluation at the failing input). The margin tileset shown in the 800 x 600
renderer has a table for rows 1..2 and columns 1..2; `getElementAt` returns an object
that is not `null` and holds no cell for row 3 or column 3, one past the area. -/
theorem getElementAt_past_last_row :
    shownMarginTile._renderArea
      = some { firstRow := 1, numRows := 2, firstCol := 1, numCols := 2, posX := 0, posY := 0 }
    ∧ shownMarginTile.table.map (fun table => table.cells.map List.length) = some [2, 2]
    ∧ shownMarginTile.getElementAt 3 1 = some []
    ∧ shownMarginTile.getElementAt 1 3 = some []
    ∧ shownMarginTile.getElementAt 3 3 = some []
    ∧ shownMarginTile.getElementAt 4 1 = none
    ∧ shownMarginTile.getElementAt 2 2 = some [CellHtml.uploadButton] := by
  unfold shownMarginTile
  rw [marginTile_renderArea]
  refine ⟨rfl, by decide, by decide, by decide, by decide, by decide, by decide⟩

/-- The centre of the grid of the overview after the `Center map` assignments is the
centre of the viewport shifted by the offset of the overview. -/
theorem centerMap_centre (g : Globals) (ov : Tileset) (hz : ov.zoomLevel ≠ 0) :
    gridCentre (centerMapGlobals g ov) ov
      = (g.rendererWidth / 2 + ov.offsetX, g.rendererHeight / 2 + ov.offsetY) := by
  unfold gridCentre centerMapGlobals fullTableX fullTableY getScaledTileWidth
    getScaledTileHeight getDisplayScale Tileset.numCols Tileset.numRows
  dsimp only
  rw [div_self hz]
  push_cast
  congr 1 <;> ring

/-- C25 (evaluation at the failing input). Loading a map whose overview has the offset
(10, 20) into the 800 x 600 renderer puts the centre of the overview grid at (410, 320),
not at the centre (400, 300) of the viewport. -/
theorem centerMap_offset_not_centred :
    (∃ v1 : Viewer, onChangeMap lodViewer "map" offsetMapInput = some v1
      ∧ v1.globals = centerMapGlobals sampleGlobals offsetOverview)
    ∧ gridCentre (centerMapGlobals sampleGlobals offsetOverview) offsetOverview = (410, 320)
    ∧ (sampleGlobals.rendererWidth / 2, sampleGlobals.rendererHeight / 2) = (400, 300) := by
  have hm : MapData.fromData offsetMapInput
      = { tilesets := [offsetOverview], bgColor := "#111", icons := [], _overview := some 0 } := by
    simp [offsetMapInput, offsetOverview, MapData.fromData,
      MapData.updateTilesetOrder, MapData.sortedTilesets, mapWithIndex, Tileset.fromData,
      TilesetData.empty, toSorted, toSortedInsert, zoomLevelAt, assignZOrder, modifyAt,
      Tileset.setZOrder, List.range, List.range.loop]
  refine ⟨?_, ?_, ?_⟩
  · unfold onChangeMap
    rw [hm]
    obtain ⟨ts1, best1, e⟩ := globalZoomLevelChanged_eq
      { lodViewer with
        globals := centerMapGlobals { lodViewer.globals with currentMapName := "map" }
          offsetOverview
        currentMap := some { tilesets := [offsetOverview], bgColor := "#111", icons := [],
                             _overview := some 0 }
        currentTileset := none } _ 0 rfl rfl (by decide)
    exact ⟨_, e, rfl⟩
  · rw [centerMap_centre _ _ (by norm_num [offsetOverview, Tileset.fromData, TilesetData.empty])]
    norm_num [sampleGlobals, offsetOverview, Tileset.fromData, TilesetData.empty]
  · norm_num [sampleGlobals]

/-! ## Tile placement and removal -/

/-- The loop of pushes appends `n` copies. -/
theorem pushN_eq {α : Type} (x : α) (n : Nat) (arr : List α) :
    pushN x n arr = arr ++ List.replicate n x := by
  induction n generalizing arr with
  | zero => simp [pushN]
  | succ n ih =>
    unfold pushN
    rw [ih, List.append_assoc, List.replicate_succ]
    rfl

/-- Reading a cell at natural indices. -/
theorem getTileAt_nat (t : Tileset) (r c : Nat) :
    t.getTileAt r c =
      match t.grid[r]? with
      | none => none
      | some gridRow => (gridRow[c]?).join := by
  unfold getTileAt arrGet
  have h1 : ¬ ((r : Int) < 0) := by omega
  have h2 : ¬ ((c : Int) < 0) := by omega
  simp only [h1, h2, if_false, Int.toNat_ofNat]

/-- A cell read depends on the grid only. -/
theorem getTileAt_congr (t s : Tileset) (h : t.grid = s.grid) (row col : Int) :
    t.getTileAt row col = s.getTileAt row col := by
  unfold getTileAt
  rw [h]

/-- Setting the content of a cell element changes nothing but the table. -/
theorem setElementHtml_frame (t : Tileset) (row col : Int) (html : CellHtml) :
    t.setElementHtml row col html = { t with table := (t.setElementHtml row col html).table } := by
  unfold setElementHtml
  split <;> rfl

/-- Reading the padded row: padding with absent cells changes no cell. -/
theorem padded_cell (gridRow : List (Option Tile)) (n c : Nat) :
    ((gridRow ++ List.replicate n none)[c]?).join = (gridRow[c]?).join := by
  by_cases h : c < gridRow.length
  · rw [List.getElem?_append_left h]
  · rw [List.getElem?_append_right (by omega), List.getElem?_eq_none (not_lt.1 h)]
    by_cases h2 : c - gridRow.length < n
    · rw [List.getElem?_replicate_of_lt h2]
      rfl
    · rw [List.getElem?_eq_none (by simpa using h2)]

/-- Reading an array after the assignment `arr[i] = x`. -/
theorem arrAssign_getElem? {α : Type} (arr : List α) (i c : Nat) (x : α)
    (h : i ≤ arr.length) :
    (arrAssign arr i x)[c]? = if c = i then some x else arr[c]? := by
  unfold arrAssign
  by_cases hi : i < arr.length
  · rw [if_pos hi]
    by_cases hc : c = i
    · subst hc
      rw [if_pos rfl, List.getElem?_set_self hi]
    · rw [if_neg hc, List.getElem?_set_ne (Ne.symm hc)]
  · rw [if_neg hi]
    have e : i = arr.length := by omega
    by_cases hc : c = i
    · rw [if_pos hc, hc, e]
      simp
    · rw [if_neg hc]
      by_cases hlt : c < arr.length
      · rw [List.getElem?_append_left hlt]
      · rw [List.getElem?_eq_none (by simp; omega), List.getElem?_eq_none (by omega)]

/-- The grid after `createLocalTile`, cell by cell. -/
theorem createLocalTile_getTileAt (g : Globals) (t : Tileset) (row col : Nat) (src : String)
    (r c : Nat) :
    (t.createLocalTile g row col src).getTileAt r c
      = if r = row ∧ c = col then some (Tile.fromSrc src) else t.getTileAt r c := by
  have hfr : (t.createLocalTile g row col src).grid
      = (pushN [] (row + 1 - t.grid.length) t.grid).set row
          (arrAssign
            (pushN none (col - (((pushN [] (row + 1 - t.grid.length) t.grid)[row]?).getD []).length)
              (((pushN [] (row + 1 - t.grid.length) t.grid)[row]?).getD []))
            col (some (Tile.fromSrc src))) := by
    unfold createLocalTile
    dsimp only
    rw [setElementHtml_frame]
  rw [getTileAt_nat, getTileAt_nat, hfr]
  simp only [pushN_eq]
  generalize hG1 : t.grid ++ List.replicate (row + 1 - t.grid.length) [] = G1
  have hlen : row < G1.length := by
    rw [← hG1, List.length_append, List.length_replicate]; omega
  have hG1r : ∀ q : Nat, (match G1[q]? with
      | none => none
      | some gridRow => (gridRow[c]?).join)
      = match t.grid[q]? with
        | none => none
        | some gridRow => (gridRow[c]?).join := by
    intro q
    rw [← hG1]
    by_cases hq : q < t.grid.length
    · rw [List.getElem?_append_left hq]
    · rw [List.getElem?_append_right (by omega), List.getElem?_eq_none (not_lt.1 hq)]
      by_cases h2 : q - t.grid.length < row + 1 - t.grid.length
      · rw [List.getElem?_replicate_of_lt h2]
        rfl
      · rw [List.getElem?_eq_none (by simpa using h2)]
  by_cases hr : r = row
  · subst hr
    rw [List.getElem?_set_self hlen]
    dsimp only
    rw [arrAssign_getElem? _ _ _ _ (by rw [List.length_append, List.length_replicate]; omega)]
    by_cases hc : c = col
    · rw [if_pos hc, if_pos ⟨rfl, hc⟩]
      rfl
    · rw [if_neg hc, if_neg (fun h => hc h.2), padded_cell, ← hG1r r]
      rw [List.getElem?_eq_getElem hlen]
      rfl
  · rw [List.getElem?_set_ne (Ne.symm hr), if_neg (fun h => hr h.1)]
    exact hG1r r

/-- The grid after `removeTileAt`, cell by cell. -/
theorem removeTileAt_getTileAt (g : Globals) (t : Tileset) (row col r c : Int) :
    (t.removeTileAt g row col).getTileAt r c
      = if r = row ∧ c = col then none else t.getTileAt r c := by
  unfold removeTileAt
  by_cases hs : (t.getTileAt row col).isSome = true
  · rw [if_pos hs]
    dsimp only
    rw [setElementHtml_frame]
    obtain ⟨h0, h1, h2, h3⟩ := getTileAt_isSome_index t row col hs
    by_cases hr0 : r < 0
    · rw [getTileAt_neg_row _ _ _ hr0, getTileAt_neg_row _ _ _ hr0]
      simp
    by_cases hc0 : c < 0
    · rw [getTileAt_neg_col _ _ _ hc0, getTileAt_neg_col _ _ _ hc0]
      simp
    obtain ⟨rn, rfl⟩ := Int.eq_ofNat_of_zero_le (not_lt.1 hr0)
    obtain ⟨cn, rfl⟩ := Int.eq_ofNat_of_zero_le (not_lt.1 hc0)
    obtain ⟨rown, rfl⟩ := Int.eq_ofNat_of_zero_le h0
    obtain ⟨coln, rfl⟩ := Int.eq_ofNat_of_zero_le h2
    rw [getTileAt_nat, getTileAt_nat]
    simp only [Int.toNat_ofNat, modifyAt_getElem?, Tile.fromData, Nat.cast_inj] at h3 ⊢
    by_cases hr : rn = rown
    · subst hr
      simp only [if_true, true_and]
      cases hg : t.grid[rn]? with
      | none => simp
      | some gridRow =>
        rw [hg] at h3
        simp only [Option.getD_some] at h3
        simp only [Option.map_some']
        by_cases hc : cn = coln
        · subst hc
          rw [if_pos rfl, List.getElem?_set_self (by omega)]
          rfl
        · rw [if_neg hc, List.getElem?_set_ne (by omega)]
    · simp only [hr, if_false, false_and]
  · rw [if_neg hs]
    split
    · next h =>
      rw [h.1, h.2]
      cases hg : t.getTileAt row col with
      | none => rfl
      | some x => rw [hg] at hs; exact absurd rfl hs
    · rfl

/-- C27. Frame of tile placement and removal: after `createLocalTile(row, col, src)` with
`row >= 0` and `col >= 0` the cell holds the tile of `src`, `getTileImageSrc(row, col)`
returns `src` (for a non-empty `src`), every other cell reads as before and the four
extents are unchanged; after `removeTileAt(row, col)` the cell is absent, every other
cell and the extents are unchanged, and nothing at all changes when the cell was already
absent. -/
theorem tile_placement_frame (g : Globals) (t : Tileset) :
    (∀ (row col : Nat) (src : String),
      (t.createLocalTile g row col src).getTileAt row col = some (Tile.fromSrc src)
      ∧ (src ≠ "" → (t.createLocalTile g row col src).getTileImageSrc g row col = some src)
      ∧ (∀ r c : Int, ¬ (r = row ∧ c = col) →
          (t.createLocalTile g row col src).getTileAt r c = t.getTileAt r c)
      ∧ (t.createLocalTile g row col src).sizeN = t.sizeN
      ∧ (t.createLocalTile g row col src).sizeS = t.sizeS
      ∧ (t.createLocalTile g row col src).sizeW = t.sizeW
      ∧ (t.createLocalTile g row col src).sizeE = t.sizeE)
    ∧ (∀ row col : Int,
      (t.removeTileAt g row col).getTileAt row col = none
      ∧ (∀ r c : Int, ¬ (r = row ∧ c = col) →
          (t.removeTileAt g row col).getTileAt r c = t.getTileAt r c)
      ∧ (t.removeTileAt g row col).sizeN = t.sizeN
      ∧ (t.removeTileAt g row col).sizeS = t.sizeS
      ∧ (t.removeTileAt g row col).sizeW = t.sizeW
      ∧ (t.removeTileAt g row col).sizeE = t.sizeE
      ∧ (t.getTileAt row col = none → t.removeTileAt g row col = t)) := by
  constructor
  · intro row col src
    have hat : (t.createLocalTile g row col src).getTileAt row col = some (Tile.fromSrc src) := by
      rw [createLocalTile_getTileAt, if_pos ⟨rfl, rfl⟩]
    have hsz : ∀ s : Tileset, (t.createLocalTile g row col src) = s →
        s.sizeN = t.sizeN ∧ s.sizeS = t.sizeS ∧ s.sizeW = t.sizeW ∧ s.sizeE = t.sizeE := by
      intro s hs
      unfold createLocalTile at hs
      dsimp only at hs
      rw [setElementHtml_frame] at hs
      subst hs
      exact ⟨rfl, rfl, rfl, rfl⟩
    obtain ⟨z1, z2, z3, z4⟩ := hsz _ rfl
    refine ⟨hat, ?_, ?_, z1, z2, z3, z4⟩
    · intro hne
      unfold getTileImageSrc
      rw [hat]
      simp only [Tile.fromSrc, if_pos hne]
    · intro r c hrc
      by_cases hr0 : r < 0
      · rw [getTileAt_neg_row _ _ _ hr0, getTileAt_neg_row _ _ _ hr0]
      by_cases hc0 : c < 0
      · rw [getTileAt_neg_col _ _ _ hc0, getTileAt_neg_col _ _ _ hc0]
      obtain ⟨rn, rfl⟩ := Int.eq_ofNat_of_zero_le (not_lt.1 hr0)
      obtain ⟨cn, rfl⟩ := Int.eq_ofNat_of_zero_le (not_lt.1 hc0)
      rw [createLocalTile_getTileAt, if_neg]
      intro h
      exact hrc ⟨by rw [h.1], by rw [h.2]⟩
  · intro row col
    have hsz : ∀ s : Tileset, (t.removeTileAt g row col) = s →
        s.sizeN = t.sizeN ∧ s.sizeS = t.sizeS ∧ s.sizeW = t.sizeW ∧ s.sizeE = t.sizeE := by
      intro s hs
      unfold removeTileAt at hs
      split at hs
      · dsimp only at hs
        rw [setElementHtml_frame] at hs
        subst hs
        exact ⟨rfl, rfl, rfl, rfl⟩
      · subst hs
        exact ⟨rfl, rfl, rfl, rfl⟩
    obtain ⟨z1, z2, z3, z4⟩ := hsz _ rfl
    refine ⟨?_, ?_, z1, z2, z3, z4, ?_⟩
    · rw [removeTileAt_getTileAt, if_pos ⟨rfl, rfl⟩]
    · intro r c hrc
      rw [removeTileAt_getTileAt, if_neg hrc]
    · intro h
      unfold removeTileAt
      rw [h]
      rfl

theorem tile_placement_frame_witness :
    ("blob:1" ≠ "" ∧ ¬ ((0 : Int) = (2 : Nat) ∧ (0 : Int) = (3 : Nat)))
    ∧ (singleTile.createLocalTile sampleGlobals 2 3 "blob:1").getTileImageSrc sampleGlobals
        (2 : Nat) (3 : Nat) = some "blob:1"
    ∧ (singleTile.createLocalTile sampleGlobals 2 3 "blob:1").getTileAt 0 0
        = singleTile.getTileAt 0 0
    ∧ (singleTile.removeTileAt sampleGlobals 0 0).getTileAt 0 0 = none :=
  ⟨⟨by decide, by decide⟩,
    ((tile_placement_frame sampleGlobals singleTile).1 2 3 "blob:1").2.1 (by decide),
    ((tile_placement_frame sampleGlobals singleTile).1 2 3 "blob:1").2.2.1 0 0 (by decide),
    ((tile_placement_frame sampleGlobals singleTile).2 0 0).1⟩

/-! ## Idempotence of trim -/

/-- When no loop test of `trim` holds, the four passes change nothing. -/
theorem trimGrid_of_nothingToTrim (t : Tileset) (hT : nothingToTrim t = true) :
    trimGrid t = t := by
  unfold nothingToTrim at hT
  simp only [Bool.and_eq_true] at hT
  obtain ⟨⟨⟨c1, c2⟩, c3⟩, c4⟩ := hT
  have e1 : trimHelper Dir.N 0 t.numCols (fun s i => s.getTileAt 0 i) removeNorth t = t :=
    trimLoop_stop _ _ _ _ _ _ _ c1
  have e2 : trimHelper Dir.S 1 t.numCols (fun s i => s.getTileAt (s.numRows - 1) i)
      removeSouth t = t := trimLoop_stop _ _ _ _ _ _ _ c2
  have e3 : trimHelper Dir.W 0 t.numRows (fun s i => s.getTileAt i 0) removeWest t = t :=
    trimLoop_stop _ _ _ _ _ _ _ c3
  have e4 : trimHelper Dir.E 1 t.numRows (fun s i => s.getTileAt i (s.numCols - 1))
      removeEast t = t := trimLoop_stop _ _ _ _ _ _ _ c4
  unfold trimGrid
  simp only [e1, e2, e3, e4]

/-- A tile found in a row or column of a tileset with its tiles in bounds is found by
the scan of `trimHelper` over that row or column. -/
theorem scan_finds_tile (n : Int) (f : Int → Option Tile)
    (h : ∃ i : Int, (f i).isSome = true ∧ 0 ≤ i ∧ i < n) :
    (List.range n.toNat).any (fun (i : Nat) => (f (i : Int)).isSome) = true := by
  obtain ⟨i, h1, h2, h3⟩ := h
  rw [List.any_eq_true]
  refine ⟨i.toNat, List.mem_range.2 (by omega), ?_⟩
  have e : ((i.toNat : Nat) : Int) = i := by omega
  rw [e]
  exact h1

/-- After the four passes of `trim` no loop test of `trim` holds any more. -/
theorem nothingToTrim_trimGrid (t : Tileset) (hB : InBounds t) :
    nothingToTrim (trimGrid t) = true := by
  obtain ⟨hI, _, _, _, hN, hS, hW, hE⟩ := trimGrid_spec t hB
  unfold nothingToTrim
  simp only [Bool.and_eq_true, Bool.or_eq_true, decide_eq_true_eq]
  refine ⟨⟨⟨?_, ?_⟩, ?_⟩, ?_⟩
  · rcases hN with h | ⟨col, h⟩
    · exact Or.inl h
    · obtain ⟨_, _, b1, b2⟩ := hI _ _ h
      exact Or.inr (scan_finds_tile _ (fun i => (trimGrid t).getTileAt 0 i) ⟨col, h, b1, b2⟩)
  · rcases hS with h | ⟨col, h⟩
    · exact Or.inl h
    · obtain ⟨_, _, b1, b2⟩ := hI _ _ h
      exact Or.inr (scan_finds_tile _
        (fun i => (trimGrid t).getTileAt ((trimGrid t).numRows - 1) i) ⟨col, h, b1, b2⟩)
  · rcases hW with h | ⟨row, h⟩
    · exact Or.inl h
    · obtain ⟨b1, b2, _, _⟩ := hI _ _ h
      exact Or.inr (scan_finds_tile _ (fun i => (trimGrid t).getTileAt i 0) ⟨row, h, b1, b2⟩)
  · rcases hE with h | ⟨row, h⟩
    · exact Or.inl h
    · obtain ⟨b1, b2, _, _⟩ := hI _ _ h
      exact Or.inr (scan_finds_tile _
        (fun i => (trimGrid t).getTileAt i ((trimGrid t).numCols - 1)) ⟨row, h, b1, b2⟩)

/-- Rendering does not change the loop tests of `trim`. -/
theorem nothingToTrim_render (g : Globals) (b : Bool) (t : Tileset) :
    nothingToTrim (t.render g b) = nothingToTrim t := by
  rw [render_frame]
  rfl

/-- C28. `trim()` is idempotent: for a tileset whose present tiles lie inside its bounds,
a second `trim()` leaves the four extents, the grid and hence the tile at every
`(row, col)` as the first one left them. -/
theorem trim_idempotent (g g2 : Globals) (t : Tileset) (hB : InBounds t) :
    ((t.trim g).trim g2).sizeN = (t.trim g).sizeN
    ∧ ((t.trim g).trim g2).sizeS = (t.trim g).sizeS
    ∧ ((t.trim g).trim g2).sizeW = (t.trim g).sizeW
    ∧ ((t.trim g).trim g2).sizeE = (t.trim g).sizeE
    ∧ ((t.trim g).trim g2).grid = (t.trim g).grid
    ∧ ∀ row col : Int, ((t.trim g).trim g2).getTileAt row col = (t.trim g).getTileAt row col := by
  have h1 : nothingToTrim (t.trim g) = true := by
    unfold trim
    rw [nothingToTrim_render]
    exact nothingToTrim_trimGrid t hB
  have h2 : (t.trim g).trim g2 = (t.trim g).render g2 false := by
    have h3 : (t.trim g).trim g2 = (trimGrid (t.trim g)).render g2 false := rfl
    rw [h3, trimGrid_of_nothingToTrim _ h1]
  rw [h2]
  refine ⟨render_sizeN _ _ _, render_sizeS _ _ _, render_sizeW _ _ _, render_sizeE _ _ _,
    render_grid _ _ _, fun row col => ?_⟩
  exact getTileAt_congr _ _ (render_grid _ _ _) row col

theorem trim_idempotent_witness :
    InBounds marginTile
    ∧ ((marginTile.trim sampleGlobals).trim sampleGlobals).sizeN
        = (marginTile.trim sampleGlobals).sizeN
    ∧ ((marginTile.trim sampleGlobals).trim sampleGlobals).sizeE
        = (marginTile.trim sampleGlobals).sizeE
    ∧ ((marginTile.trim sampleGlobals).trim sampleGlobals).grid
        = (marginTile.trim sampleGlobals).grid :=
  ⟨inBounds_of_tilesInBounds marginTile (by decide),
    (trim_idempotent sampleGlobals sampleGlobals marginTile
      (inBounds_of_tilesInBounds marginTile (by decide))).1,
    (trim_idempotent sampleGlobals sampleGlobals marginTile
      (inBounds_of_tilesInBounds marginTile (by decide))).2.2.2.1,
    (trim_idempotent sampleGlobals sampleGlobals marginTile
      (inBounds_of_tilesInBounds marginTile (by decide))).2.2.2.2.1⟩

/-! ## Markers and their elements -/

/-- Without layer, `renderMarker` does nothing. -/
theorem renderMarker_no_layer (g : Globals) (marker : Marker) (k : Option Nat) (b : Bool)
    (icon : MarkerIconDefinition) (h : icon.layer = none) :
    icon.renderMarker g marker k b = icon := by
  unfold MarkerIconDefinition.renderMarker
  rw [h]

/-- With a layer, `renderMarker(marker, true)` appends the element. -/
theorem renderMarker_append (g : Globals) (marker : Marker) (k : Option Nat)
    (icon : MarkerIconDefinition) (layer : Layer) (h : icon.layer = some layer) :
    icon.renderMarker g marker k true
      = { icon with layer := some { layer with
            children := layer.children ++ [icon.markerElement g marker] } } := by
  unfold MarkerIconDefinition.renderMarker
  rw [h]
  simp only [if_true]

/-- With a layer, `renderMarker(marker, false)` replaces the child at the position of the
marker when there is one. -/
theorem renderMarker_replace (g : Globals) (marker : Marker) (k : Nat)
    (icon : MarkerIconDefinition) (layer : Layer) (h : icon.layer = some layer)
    (hk : k < layer.children.length) :
    icon.renderMarker g marker (some k) false
      = { icon with layer := some { layer with
            children := layer.children.set k (icon.markerElement g marker) } } := by
  unfold MarkerIconDefinition.renderMarker
  rw [h]
  simp only [Bool.false_eq_true, if_false, if_pos hk]

/-- The layer of an icon type after `renderLayer`. -/
theorem renderLayer_layer (g : Globals) (icon : MarkerIconDefinition) (layer : Layer)
    (h : (icon.renderLayer g).layer = some layer) :
    (∃ layer0, icon.layer = some layer0 ∧ layer.children = layer0.children)
    ∨ (icon.layer = none ∧ layer.children = icon.markers.map (icon.markerElement g)) := by
  unfold MarkerIconDefinition.renderLayer at h
  cases hlay : icon.layer with
  | some layer0 =>
    rw [hlay] at h
    simp only [Option.some.injEq] at h
    subst h
    exact Or.inl ⟨layer0, rfl, rfl⟩
  | none =>
    rw [hlay] at h
    simp only at h
    split at h
    · simp only [Option.some.injEq] at h
      subst h
      exact Or.inr ⟨rfl, rfl⟩
    · rw [hlay] at h
      cases h

/-- Source `renderLayer` keeps the markers, the image and the name. -/
theorem renderLayer_fields (g : Globals) (icon : MarkerIconDefinition) :
    (icon.renderLayer g).markers = icon.markers
    ∧ (icon.renderLayer g).imageUri = icon.imageUri
    ∧ (icon.renderLayer g).name = icon.name := by
  unfold MarkerIconDefinition.renderLayer
  cases icon.layer with
  | some layer0 => exact ⟨rfl, rfl, rfl⟩
  | none =>
    simp only
    split <;> exact ⟨rfl, rfl, rfl⟩

/-- The element of a marker without its scale depends on the image and the name of the
icon type only. -/
theorem unscaled_markerElement (g g0 : Globals) (icon icon0 : MarkerIconDefinition)
    (marker : Marker) (h1 : icon.imageUri = icon0.imageUri) (h2 : icon.name = icon0.name) :
    unscaled (icon.markerElement g marker) = unscaled (icon0.markerElement g0 marker) := by
  unfold unscaled MarkerIconDefinition.markerElement
  rw [h1, h2]

/-- Writing back the element read changes nothing. -/
theorem set_of_getElem? {α : Type} (l : List α) (k : Nat) (x : α) (h : l[k]? = some x) :
    l.set k x = l := by
  induction l generalizing k with
  | nil => rfl
  | cons a l ih =>
    cases k with
    | zero =>
      simp only [List.getElem?_cons_zero, Option.some.injEq] at h
      rw [List.set_cons_zero, h]
    | succ k =>
      simp only [List.getElem?_cons_succ] at h
      rw [List.set_cons_succ, ih k h]

/-- Mapping commutes with the removal of one position. -/
theorem map_eraseIdx {α β : Type} (f : α → β) (l : List α) (i : Nat) :
    (l.eraseIdx i).map f = (l.map f).eraseIdx i := by
  induction l generalizing i with
  | nil => rfl
  | cons a l ih =>
    cases i with
    | zero => rfl
    | succ i =>
      simp only [List.eraseIdx_cons_succ, List.map_cons, ih]

/-- The correspondence between children and markers, from its data. -/
theorem markerLayerMatches_of (icon icon0 : MarkerIconDefinition)
    (h1 : icon.imageUri = icon0.imageUri) (h2 : icon.name = icon0.name)
    (h : ∀ layer, icon.layer = some layer → ∃ g0 : Globals,
      layer.children.map unscaled
        = icon.markers.map (fun marker => unscaled (icon0.markerElement g0 marker))) :
    MarkerLayerMatches icon := by
  intro g layer hl
  obtain ⟨g0, e⟩ := h layer hl
  rw [e]
  apply List.map_congr_left
  intro marker _
  exact (unscaled_markerElement g g0 icon icon0 marker h1 h2).symm

/-- Source `renderLayer` keeps the correspondence. -/
theorem markerLayerMatches_renderLayer (g : Globals) (icon : MarkerIconDefinition)
    (h : MarkerLayerMatches icon) : MarkerLayerMatches (icon.renderLayer g) := by
  obtain ⟨f1, f2, f3⟩ := renderLayer_fields g icon
  apply markerLayerMatches_of _ icon f2 f3
  intro layer hl
  rw [f1]
  rcases renderLayer_layer g icon layer hl with ⟨layer0, h0, e⟩ | ⟨_, e⟩
  · exact ⟨g, by rw [e]; exact h g layer0 h0⟩
  · exact ⟨g, by rw [e, List.map_map]; rfl⟩

/-- Matching layers have as many children as there are markers. -/
theorem markerLayerMatches_length (icon : MarkerIconDefinition) (h : MarkerLayerMatches icon)
    (layer : Layer) (hl : icon.layer = some layer) :
    layer.children.length = icon.markers.length := by
  have := congrArg List.length (h sampleGlobals layer hl)
  simpa using this

/-- Every reachable state of an icon type has its layer matching its markers. -/
theorem markerReachable_matches (icon : MarkerIconDefinition) (h : MarkerReachable icon) :
    MarkerLayerMatches icon := by
  induction h with
  | start icon h =>
    intro g layer hl
    rw [h] at hl
    cases hl
  | renderLayer g icon _ ih => exact markerLayerMatches_renderLayer g icon ih
  | setEnabled g b icon _ ih =>
    exact markerLayerMatches_renderLayer g { icon with _enabled := b } ih
  | setVisible g b icon _ ih =>
    exact markerLayerMatches_renderLayer g { icon with _visible := b } ih
  | createNewMarker g x y icon _ ih =>
    unfold MarkerIconDefinition.createNewMarker
    dsimp only
    cases hlay : icon.layer with
    | none =>
      rw [renderMarker_no_layer _ _ _ _ _ rfl]
      intro g1 layer hl
      cases hl
    | some layer0 =>
      rw [renderMarker_append _ _ _ _ layer0 rfl]
      intro g1 layer hl
      simp only [Option.some.injEq] at hl
      subst hl
      simp only [List.map_append, List.map_cons, List.map_nil]
      rw [ih g1 layer0 hlay]
      rfl
  | rerender g k marker icon hk _ ih =>
    have hklt : k < icon.markers.length := (List.getElem?_eq_some.1 hk).1
    cases hlay : icon.layer with
    | none =>
      rw [renderMarker_no_layer _ _ _ _ _ hlay]
      exact ih
    | some layer0 =>
      have hlen := markerLayerMatches_length icon ih layer0 hlay
      rw [renderMarker_replace _ _ _ _ layer0 hlay (by omega)]
      intro g1 layer hl
      simp only [Option.some.injEq] at hl
      subst hl
      simp only [List.map_set]
      rw [ih g1 layer0 hlay]
      have e : icon.markers = icon.markers.set k marker :=
        (set_of_getElem? _ _ _ hk).symm
      conv_rhs => rw [e]
      rw [List.map_set]
      rfl
  | editInfo g k trimmed icon _ ih =>
    unfold MarkerIconDefinition.editMarkerInfo
    cases hk : icon.markers[k]? with
    | none => exact ih
    | some marker =>
      have hklt : k < icon.markers.length := (List.getElem?_eq_some.1 hk).1
      dsimp only
      cases hlay : icon.layer with
      | none =>
        rw [renderMarker_no_layer _ _ _ _ _ rfl]
        intro g1 layer hl
        cases hl
      | some layer0 =>
        have hlen := markerLayerMatches_length icon ih layer0 hlay
        rw [renderMarker_replace _ _ _ _ layer0 rfl (by omega)]
        intro g1 layer hl
        simp only [Option.some.injEq] at hl
        subst hl
        simp only [List.map_set]
        rw [ih g1 layer0 hlay]
        rfl
  | removeMarker i icon hi _ ih =>
    intro g1 layer hl
    unfold MarkerIconDefinition.removeMarker at hl ⊢
    simp only [Option.map_eq_some'] at hl
    obtain ⟨layer0, hlay, rfl⟩ := hl
    show (layer0.children.eraseIdx i).map unscaled
      = (icon.markers.eraseIdx i).map (fun marker => unscaled (icon.markerElement g1 marker))
    rw [map_eraseIdx, map_eraseIdx, ih g1 layer0 hlay]
  | zoom g icon icon1 hz _ ih =>
    simp only [zoomIcons, List.map_cons, List.map_nil, List.cons.injEq, and_true] at hz
    subst hz
    intro g1 layer hl
    simp only [Option.map_eq_some'] at hl
    obtain ⟨layer0, hlay, rfl⟩ := hl
    have := markerLayerMatches_renderLayer g
      { icon with _visible := decide (g.globalZoomLevel ≥ icon.zoomLevel) } ih g1 layer0 hlay
    simp only [List.map_map]
    exact this

/-- C26. Marker/element correspondence: in every state of an icon type reachable through
`renderLayer`, `createNewMarker`, `renderMarker(marker, false)` on an existing marker and
`removeMarker(i)` with a valid index, a layer that exists has exactly `markers.length`
children and its i-th child is the element rendered for `markers[i]`; `createNewMarker(x,
y)` appends a marker with these coordinates and keeps the earlier ones, and
`removeMarker(i)` removes the i-th marker and keeps the order of the others. -/
theorem marker_layer_correspondence (icon : MarkerIconDefinition)
    (h : MarkerReachable icon) :
    (∀ layer, icon.layer = some layer →
      layer.children.length = icon.markers.length
      ∧ ∀ (g : Globals) (i : Nat) (marker : Marker), icon.markers[i]? = some marker →
          ∃ el, layer.children[i]? = some el
            ∧ unscaled el = unscaled (icon.markerElement g marker))
    ∧ (∀ (g : Globals) (x y : ℚ),
        (icon.createNewMarker g x y).markers = icon.markers ++ [{ x := x, y := y, info := none }])
    ∧ (∀ i j : Nat, (icon.removeMarker i).markers[j]?
        = if j < i then icon.markers[j]? else icon.markers[j + 1]?)
    ∧ (∀ i : Nat, i < icon.markers.length →
        (icon.removeMarker i).markers.length + 1 = icon.markers.length) := by
  have hm := markerReachable_matches icon h
  refine ⟨?_, ?_, ?_, ?_⟩
  · intro layer hl
    have hlen := markerLayerMatches_length icon hm layer hl
    refine ⟨hlen, ?_⟩
    intro g i marker hi
    have hilt : i < icon.markers.length := (List.getElem?_eq_some.1 hi).1
    have e := congrArg (fun l => l[i]?) (hm g layer hl)
    simp only [List.getElem?_map, hi, Option.map_some'] at e
    cases hc : layer.children[i]? with
    | none => rw [hc] at e; cases e
    | some el =>
      rw [hc] at e
      exact ⟨el, rfl, Option.some.inj e⟩
  · intro g x y
    unfold MarkerIconDefinition.createNewMarker MarkerIconDefinition.renderMarker
    dsimp only
    cases icon.layer with
    | none => rfl
    | some layer => rfl
  · intro i j
    unfold MarkerIconDefinition.removeMarker
    exact List.getElem?_eraseIdx _ _ _
  · intro i hi
    unfold MarkerIconDefinition.removeMarker
    dsimp only
    rw [List.length_eraseIdx, if_pos hi]
    omega

theorem marker_layer_correspondence_witness :
    MarkerReachable (markerIcon.createNewMarker lodViewer.globals 5 6)
    ∧ ∀ layer, (markerIcon.createNewMarker lodViewer.globals 5 6).layer = some layer →
      layer.children.length = (markerIcon.createNewMarker lodViewer.globals 5 6).markers.length
      ∧ ∀ (g : Globals) (i : Nat) (marker : Marker),
          (markerIcon.createNewMarker lodViewer.globals 5 6).markers[i]? = some marker →
          ∃ el, layer.children[i]? = some el
            ∧ unscaled el
              = unscaled ((markerIcon.createNewMarker lodViewer.globals 5 6).markerElement g marker) :=
  have hr : MarkerReachable (markerIcon.createNewMarker lodViewer.globals 5 6) :=
    MarkerReachable.createNewMarker _ 5 6 _
      (MarkerReachable.setEnabled lodViewer.globals true _ (MarkerReachable.start _ rfl))
  ⟨hr, (marker_layer_correspondence _ hr).1⟩

/-- The example of an icon type with a marker at (100, 200) and a new one at (5, 6): the
layer exists and holds the two elements, at these positions. -/
theorem markerIcon_example :
    ((markerIcon.createNewMarker lodViewer.globals 5 6).layer.map
      (fun layer => layer.children.map (fun el => (el.left, el.top))))
      = some [(100, 200), (5, 6)] := by
  simp [markerIcon, MarkerIconDefinition.createNewMarker, MarkerIconDefinition.renderMarker,
    MarkerIconDefinition.setEnabled, MarkerIconDefinition.renderLayer,
    MarkerIconDefinition.fromData, MarkerIconDefinition.isEnabled,
    MarkerIconDefinition.isVisible, MarkerIconDefinition.markerElement, Marker.fromData]

/-! ## Marker layers between two zoom changes -/

/-- C20 (evaluation at the failing input). At global zoom 50, after
`globalZoomLevelChanged`, `createNewIcon` with the zoom level 60 and one marker gives an
enabled icon type whose layer exists, is shown and holds the marker, although the global
zoom level is below the zoom level of the icon type. -/
theorem createNewIcon_shows_layer_below_zoomLevel :
    ∃ (v1 : Viewer) (m1 : MapData), globalZoomLevelChanged lodViewer = some v1
      ∧ v1.currentMap = some m1
      ∧ v1.globals.globalZoomLevel = 50
      ∧ (m1.createNewIcon v1.globals detailIconData).1.icons.map
          (fun icon => (icon._enabled, icon.zoomLevel,
            icon.layer.map (fun layer => (layer.hidden, layer.children.length))))
        = [(true, 60, some (false, 1))]
      ∧ ¬ (v1.globals.globalZoomLevel ≥ 60) := by
  obtain ⟨ts1, best1, e⟩ := globalZoomLevelChanged_eq lodViewer lodMap 0 rfl rfl (by decide)
  refine ⟨_, _, e, rfl, ?_, ?_, ?_⟩
  · norm_num [lodViewer, sampleGlobals]
  · simp [MapData.createNewIcon, lodMap, zoomIcons, detailIconData,
      MarkerIconDefinition.fromData, MarkerIconDefinition.setEnabled,
      MarkerIconDefinition.renderLayer, MarkerIconDefinition.isEnabled,
      MarkerIconDefinition.isVisible]
  · norm_num [lodViewer, sampleGlobals]

/-! ## Stored markers on screen -/

/-- The marker part of `globalZoomLevelChanged` keeps the markers of every icon type. -/
theorem zoomIcons_markers (g : Globals) (icons : List MarkerIconDefinition) (i : Nat)
    (icon icon1 : MarkerIconDefinition) (hi : icons[i]? = some icon)
    (hi1 : (zoomIcons g icons)[i]? = some icon1) :
    zoomIcons g [icon] = [icon1] ∧ icon1.markers = icon.markers := by
  rw [zoomIcons_getElem?, hi] at hi1
  simp only [Option.map_some', Option.some.injEq] at hi1
  subst hi1
  refine ⟨rfl, ?_⟩
  exact (renderLayer_fields g
    { icon with _visible := decide (g.globalZoomLevel ≥ icon.zoomLevel) }).1

/-- C21 (amended). Marker coordinates and screen position are inverse in exact
arithmetic: after `globalZoomLevelChanged` at a non-zero zoom level the marker layer sits
at the global origin with scale `globalZoomLevel` percent; for every icon type with a
layer, the k-th child of the layer is the element of the k-th stored marker, placed at
`(marker.x, marker.y)` inside the layer with scale `100 / globalZoomLevel` (the two scales
multiply to 1), hence displayed at `origin + coordinate * globalZoomLevel / 100`, and
`clientPosToCoordinates` at that client position, computed without rounding, returns
`(marker.x, marker.y)`. -/
theorem marker_position_inverse (v : Viewer) (m : MapData) (o : Nat)
    (hm : v.currentMap = some m) (ho : m._overview = some o) (hlt : o < m.tilesets.length)
    (hz : v.globals.globalZoomLevel ≠ 0)
    (hreach : ∀ icon ∈ m.icons, MarkerReachable icon) :
    ∃ (v1 : Viewer) (m1 : MapData),
      globalZoomLevelChanged v = some v1 ∧ v1.currentMap = some m1
      ∧ v1.globals = v.globals
      ∧ v1.markersLeft = v.globals.globalOriginX
      ∧ v1.markersTop = v.globals.globalOriginY
      ∧ v1.markersScalePercent = v.globals.globalZoomLevel
      ∧ m1.icons.length = m.icons.length
      ∧ ∀ (i : Nat) (icon icon1 : MarkerIconDefinition) (layer1 : Layer),
          m.icons[i]? = some icon → m1.icons[i]? = some icon1 → icon1.layer = some layer1 →
          icon1.markers = icon.markers
          ∧ layer1.children.length = icon.markers.length
          ∧ ∀ (k : Nat) (marker : Marker), icon.markers[k]? = some marker →
              ∃ el : MarkerElement, layer1.children[k]? = some el
                ∧ el.left = marker.x ∧ el.top = marker.y
                ∧ el.scale = 100 / v.globals.globalZoomLevel
                ∧ v1.markersScalePercent / 100 * el.scale = 1
                ∧ markerScreenPos v1 el
                    = (v.globals.globalOriginX + marker.x * v.globals.globalZoomLevel / 100,
                       v.globals.globalOriginY + marker.y * v.globals.globalZoomLevel / 100)
                ∧ clientPosToCoordinates v1.globals
                    (v1.globals.rendererLeft + (markerScreenPos v1 el).1)
                    (v1.globals.rendererTop + (markerScreenPos v1 el).2)
                    = { x := marker.x, y := marker.y } := by
  obtain ⟨ts1, best1, e⟩ := globalZoomLevelChanged_eq v m o hm ho hlt
  refine ⟨_, _, e, rfl, rfl, rfl, rfl, rfl, ?_, ?_⟩
  · show (zoomIcons v.globals m.icons).length = m.icons.length
    simp [zoomIcons]
  intro i icon icon1 layer1 hi hi1 hl
  have hi1z : (zoomIcons v.globals m.icons)[i]? = some icon1 := hi1
  obtain ⟨hzz, hmk⟩ := zoomIcons_markers v.globals m.icons i icon icon1 hi hi1z
  have hmatch := markerReachable_matches icon1
    (MarkerReachable.zoom v.globals icon icon1 hzz (hreach icon (List.getElem?_mem hi)))
  have hlen := markerLayerMatches_length icon1 hmatch layer1 hl
  rw [hmk] at hlen
  refine ⟨hmk, hlen, ?_⟩
  intro k marker hk
  have e1 := congrArg (fun l => l[k]?) (hmatch v.globals layer1 hl)
  simp only [List.getElem?_map, hmk, hk, Option.map_some'] at e1
  cases hc : layer1.children[k]? with
  | none => rw [hc] at e1; cases e1
  | some el =>
    rw [hc] at e1
    have e2 : unscaled el = unscaled (icon1.markerElement v.globals marker) :=
      Option.some.inj e1
    have hleft : el.left = marker.x := congrArg MarkerElement.left e2
    have htop : el.top = marker.y := congrArg MarkerElement.top e2
    have hsc := zoomIcons_children v.globals m.icons i icon1 layer1 k el hi1z hl hc
    refine ⟨el, rfl, hleft, htop, hsc, ?_, ?_, ?_⟩
    · rw [hsc]
      show v.globals.globalZoomLevel / 100 * (100 / v.globals.globalZoomLevel) = 1
      field_simp
    · show (v.globals.globalOriginX + el.left * (v.globals.globalZoomLevel / 100),
          v.globals.globalOriginY + el.top * (v.globals.globalZoomLevel / 100)) = _
      rw [hleft, htop, mul_div_assoc, mul_div_assoc]
    · rw [← hleft, ← htop]
      exact clientPos_of_screenPos _ el hz rfl rfl rfl

theorem marker_position_inverse_witness :
    (markerViewer.currentMap = some markerMap ∧ markerMap._overview = some 0
      ∧ 0 < markerMap.tilesets.length ∧ markerViewer.globals.globalZoomLevel ≠ 0
      ∧ ∀ icon ∈ markerMap.icons, MarkerReachable icon)
    ∧ ∃ (v1 : Viewer) (m1 : MapData),
      globalZoomLevelChanged markerViewer = some v1 ∧ v1.currentMap = some m1
      ∧ v1.globals = markerViewer.globals
      ∧ v1.markersLeft = markerViewer.globals.globalOriginX
      ∧ v1.markersTop = markerViewer.globals.globalOriginY
      ∧ v1.markersScalePercent = markerViewer.globals.globalZoomLevel
      ∧ m1.icons.length = markerMap.icons.length
      ∧ ∀ (i : Nat) (icon icon1 : MarkerIconDefinition) (layer1 : Layer),
          markerMap.icons[i]? = some icon → m1.icons[i]? = some icon1 →
          icon1.layer = some layer1 →
          icon1.markers = icon.markers
          ∧ layer1.children.length = icon.markers.length
          ∧ ∀ (k : Nat) (marker : Marker), icon.markers[k]? = some marker →
              ∃ el : MarkerElement, layer1.children[k]? = some el
                ∧ el.left = marker.x ∧ el.top = marker.y
                ∧ el.scale = 100 / markerViewer.globals.globalZoomLevel
                ∧ v1.markersScalePercent / 100 * el.scale = 1
                ∧ markerScreenPos v1 el
                    = (markerViewer.globals.globalOriginX
                        + marker.x * markerViewer.globals.globalZoomLevel / 100,
                       markerViewer.globals.globalOriginY
                        + marker.y * markerViewer.globals.globalZoomLevel / 100)
                ∧ clientPosToCoordinates v1.globals
                    (v1.globals.rendererLeft + (markerScreenPos v1 el).1)
                    (v1.globals.rendererTop + (markerScreenPos v1 el).2)
                    = { x := marker.x, y := marker.y } :=
  have hz : markerViewer.globals.globalZoomLevel ≠ 0 := by
    norm_num [markerViewer, lodViewer, sampleGlobals]
  have hreach : ∀ icon ∈ markerMap.icons, MarkerReachable icon := by
    intro icon hicon
    simp only [markerMap, List.mem_singleton] at hicon
    subst hicon
    exact MarkerReachable.setEnabled lodViewer.globals true _ (MarkerReachable.start _ rfl)
  ⟨⟨rfl, rfl, by decide, hz, hreach⟩,
    marker_position_inverse markerViewer markerMap 0 rfl rfl (by decide) hz hreach⟩

/-! ## Evaluation in double arithmetic -/

/-- The exponent of a positive number, from its bounds. -/
theorem intLog_two_eq (x : ℚ) (e : ℤ) (h1 : (2 : ℚ) ^ e ≤ x) (h2 : x < (2 : ℚ) ^ (e + 1)) :
    Int.log 2 x = e := by
  have hx : 0 < x := lt_of_lt_of_le (zpow_pos (by norm_num) e) h1
  have a : e ≤ Int.log 2 x :=
    (Int.zpow_le_iff_le_log (by norm_num) hx).1 (by exact_mod_cast h1)
  have b : Int.log 2 x < e + 1 :=
    (Int.lt_zpow_iff_log_lt (by norm_num) hx).1 (by exact_mod_cast h2)
  omega

/-- Rounding to the nearest integer when there is no tie. -/
theorem roundHalfEven_eq (x : ℚ) (n : ℤ) (h1 : (n : ℚ) - 1 / 2 < x) (h2 : x < (n : ℚ) + 1 / 2) :
    roundHalfEven x = n := by
  unfold roundHalfEven
  by_cases hge : (n : ℚ) ≤ x
  · have hf : ⌊x⌋ = n := by
      rw [Int.floor_eq_iff]
      constructor
      · exact hge
      · linarith
    rw [hf, if_pos (by linarith)]
  · have hlt : x < (n : ℚ) := not_le.1 hge
    have hf : ⌊x⌋ = n - 1 := by
      rw [Int.floor_eq_iff]
      push_cast
      constructor <;> linarith
    rw [hf]
    push_cast
    rw [if_neg (by linarith), if_pos (by linarith)]
    ring

/-- Rounding to the nearest integer at a tie: the even neighbour. -/
theorem roundHalfEven_tie (x : ℚ) (f : ℤ) (h : x = (f : ℚ) + 1 / 2) :
    roundHalfEven x = if f % 2 = 0 then f else f + 1 := by
  unfold roundHalfEven
  have hf : ⌊x⌋ = f := by
    rw [Int.floor_eq_iff]
    constructor <;> linarith
  rw [hf, if_neg (by linarith), if_neg (by linarith)]

/-- The double nearest to a positive number, from its exponent and the nearest
significand. -/
theorem roundDouble_eq (x : ℚ) (e n : ℤ) (r : ℚ)
    (h1 : (2 : ℚ) ^ e ≤ x) (h2 : x < (2 : ℚ) ^ (e + 1))
    (h3 : (n : ℚ) - 1 / 2 < x / 2 ^ (e - 52)) (h4 : x / 2 ^ (e - 52) < (n : ℚ) + 1 / 2)
    (hr : r = (n : ℚ) * 2 ^ (e - 52)) : roundDouble x = r := by
  have hx : 0 < x := lt_of_lt_of_le (zpow_pos (by norm_num) e) h1
  unfold roundDouble
  rw [if_neg hx.ne', abs_of_pos hx, intLog_two_eq x e h1 h2, roundHalfEven_eq _ n h3 h4, hr]

/-- The double nearest to a positive number that lies halfway between two doubles. -/
theorem roundDouble_tie (x : ℚ) (e f n : ℤ) (r : ℚ)
    (h1 : (2 : ℚ) ^ e ≤ x) (h2 : x < (2 : ℚ) ^ (e + 1))
    (h3 : x / 2 ^ (e - 52) = (f : ℚ) + 1 / 2) (hn : n = if f % 2 = 0 then f else f + 1)
    (hr : r = (n : ℚ) * 2 ^ (e - 52)) : roundDouble x = r := by
  have hx : 0 < x := lt_of_lt_of_le (zpow_pos (by norm_num) e) h1
  unfold roundDouble
  rw [if_neg hx.ne', abs_of_pos hx, intLog_two_eq x e h1 h2, roundHalfEven_tie _ f h3, hr, hn]

/-- Zero is a double. -/
theorem roundDouble_zero : roundDouble 0 = 0 := by
  unfold roundDouble
  rw [if_pos rfl]

/-- C23 (as stated, refuted). In the double arithmetic of JavaScript the wheel update
moves the point under the cursor: at zoom level 100 with the origin at (0, 0), zooming
out with the cursor at x = 3 gives the origin 0.5999999999999999 and the zoom level 80,
and `clientPosToCoordinates` then returns 3.0000000000000004 instead of 3. -/
theorem wheel_zoom_moves_point_in_doubles :
    (clientPosToCoordinatesDouble sampleGlobals 3 0).x = 3
    ∧ (wheelZoomGlobalsDouble sampleGlobals (dDiv 1 1.25) 3 0).globalOriginX
        = 2702159776422297 / 4503599627370496
    ∧ (wheelZoomGlobalsDouble sampleGlobals (dDiv 1 1.25) 3 0).globalZoomLevel = 80
    ∧ (clientPosToCoordinatesDouble
        (wheelZoomGlobalsDouble sampleGlobals (dDiv 1 1.25) 3 0) 3 0).x
        = 6755399441055745 / 2251799813685248
    ∧ (clientPosToCoordinatesDouble
        (wheelZoomGlobalsDouble sampleGlobals (dDiv 1 1.25) 3 0) 3 0).x
        ≠ (clientPosToCoordinatesDouble sampleGlobals 3 0).x := by
  have e125 : (1.25 : ℚ) = 5 / 4 := by norm_num
  have h1 : dDiv 1 (5 / 4) = 3602879701896397 / 4503599627370496 := by
    unfold dDiv
    exact roundDouble_eq _ (-1) (7205759403792794) _ (by norm_num) (by norm_num) (by norm_num)
      (by norm_num) (by norm_num)
  have h2 : dSub 3 0 = 3 := by
    unfold dSub
    exact roundDouble_eq _ (1) (6755399441055744) _ (by norm_num) (by norm_num) (by norm_num)
      (by norm_num) (by norm_num)
  have h3 : dMul 3 100 = 300 := by
    unfold dMul
    exact roundDouble_eq _ (8) (5277655813324800) _ (by norm_num) (by norm_num) (by norm_num)
      (by norm_num) (by norm_num)
  have h4 : dDiv 300 100 = 3 := by
    unfold dDiv
    exact roundDouble_eq _ (1) (6755399441055744) _ (by norm_num) (by norm_num) (by norm_num)
      (by norm_num) (by norm_num)
  have h5 : dSub 0 0 = 0 := by
    unfold dSub
    norm_num [roundDouble_zero]
  have h6 : dMul 0 100 = 0 := by
    unfold dMul
    norm_num [roundDouble_zero]
  have h7 : dDiv 0 100 = 0 := by
    unfold dDiv
    norm_num [roundDouble_zero]
  have h8 : dAdd 0 0 = 0 := by
    unfold dAdd
    norm_num [roundDouble_zero]
  have h9 : dSub 1 (3602879701896397 / 4503599627370496) = 900719925474099 / 4503599627370496 := by
    unfold dSub
    exact roundDouble_eq _ (-3) (7205759403792792) _ (by norm_num) (by norm_num) (by norm_num)
      (by norm_num) (by norm_num)
  have h10 : dMul 3 (900719925474099 / 4503599627370496) = 2702159776422297 / 4503599627370496 := by
    unfold dMul
    exact roundDouble_eq _ (-1) (5404319552844594) _ (by norm_num) (by norm_num) (by norm_num)
      (by norm_num) (by norm_num)
  have h11 : dAdd 0 (2702159776422297 / 4503599627370496) = 2702159776422297 / 4503599627370496 := by
    unfold dAdd
    exact roundDouble_eq _ (-1) (5404319552844594) _ (by norm_num) (by norm_num) (by norm_num)
      (by norm_num) (by norm_num)
  have h12 : dMul 0 (900719925474099 / 4503599627370496) = 0 := by
    unfold dMul
    norm_num [roundDouble_zero]
  have h13 : dMul 100 (3602879701896397 / 4503599627370496) = 80 := by
    unfold dMul
    exact roundDouble_eq _ (6) (5629499534213120) _ (by norm_num) (by norm_num) (by norm_num)
      (by norm_num) (by norm_num)
  have h14 : dSub 3 (2702159776422297 / 4503599627370496) = 1351079888211149 / 562949953421312 := by
    unfold dSub
    exact roundDouble_tie _ (1) (5404319552844595) (5404319552844596) _ (by norm_num) (by norm_num) (by norm_num)
      (by norm_num) (by norm_num)
  have h15 : dMul (1351079888211149 / 562949953421312) 100 = 8444249301319681 / 35184372088832 := by
    unfold dMul
    exact roundDouble_eq _ (7) (8444249301319681) _ (by norm_num) (by norm_num) (by norm_num)
      (by norm_num) (by norm_num)
  have h16 : dDiv (8444249301319681 / 35184372088832) 80 = 6755399441055745 / 2251799813685248 := by
    unfold dDiv
    exact roundDouble_eq _ (1) (6755399441055745) _ (by norm_num) (by norm_num) (by norm_num)
      (by norm_num) (by norm_num)
  have h17 : dDiv 0 80 = 0 := by
    unfold dDiv
    norm_num [roundDouble_zero]
  have a1 : (clientPosToCoordinatesDouble sampleGlobals 3 0).x = 3 := by
    simp only [clientPosToCoordinatesDouble, sampleGlobals, h1, h2, h3, h4, h5, h6, h7, h8, h9, h10, h11, h12, h13, h14, h15, h16, h17]
  have a2 : (wheelZoomGlobalsDouble sampleGlobals (dDiv 1 1.25) 3 0).globalOriginX
      = 2702159776422297 / 4503599627370496 := by
    simp only [wheelZoomGlobalsDouble, sampleGlobals, e125, h1, h2, h3, h4, h5, h6, h7, h8, h9, h10, h11, h12, h13, h14, h15, h16, h17]
  have a3 : (wheelZoomGlobalsDouble sampleGlobals (dDiv 1 1.25) 3 0).globalZoomLevel = 80 := by
    simp only [wheelZoomGlobalsDouble, sampleGlobals, e125, h1, h2, h3, h4, h5, h6, h7, h8, h9, h10, h11, h12, h13, h14, h15, h16, h17]
  have a4 : (clientPosToCoordinatesDouble
      (wheelZoomGlobalsDouble sampleGlobals (dDiv 1 1.25) 3 0) 3 0).x
      = 6755399441055745 / 2251799813685248 := by
    simp only [clientPosToCoordinatesDouble, wheelZoomGlobalsDouble, sampleGlobals, e125,
      h1, h2, h3, h4, h5, h6, h7, h8, h9, h10, h11, h12, h13, h14, h15, h16, h17]
  refine ⟨a1, a2, a3, a4, ?_⟩
  rw [a4, a1]
  norm_num

/-- C21 (as stated, refuted). In the double arithmetic of JavaScript the conversion is
not an exact inverse: at zoom level 80 with origin and renderer offset (0, 0), the marker
coordinate 11 is displayed at 8.8 and `clientPosToCoordinates` returns
11.000000000000002 there. -/
theorem marker_position_not_inverse_in_doubles :
    markerClientPosDouble zoomedOutGlobals 11 0 = (2476979795053773 / 281474976710656, 0)
    ∧ (clientPosToCoordinatesDouble zoomedOutGlobals
        (markerClientPosDouble zoomedOutGlobals 11 0).1
        (markerClientPosDouble zoomedOutGlobals 11 0).2).x
        = 6192449487634433 / 562949953421312
    ∧ (clientPosToCoordinatesDouble zoomedOutGlobals
        (markerClientPosDouble zoomedOutGlobals 11 0).1
        (markerClientPosDouble zoomedOutGlobals 11 0).2).x ≠ 11 := by
  have h1 : dMul 11 80 = 880 := by
    unfold dMul
    exact roundDouble_eq _ (9) (7740561859543040) _ (by norm_num) (by norm_num) (by norm_num)
      (by norm_num) (by norm_num)
  have h2 : dDiv 880 100 = 2476979795053773 / 281474976710656 := by
    unfold dDiv
    exact roundDouble_eq _ (3) (4953959590107546) _ (by norm_num) (by norm_num) (by norm_num)
      (by norm_num) (by norm_num)
  have h3 : dAdd 0 (2476979795053773 / 281474976710656) = 2476979795053773 / 281474976710656 := by
    unfold dAdd
    exact roundDouble_eq _ (3) (4953959590107546) _ (by norm_num) (by norm_num) (by norm_num)
      (by norm_num) (by norm_num)
  have h4 : dMul 0 80 = 0 := by
    unfold dMul
    norm_num [roundDouble_zero]
  have h5 : dDiv 0 100 = 0 := by
    unfold dDiv
    norm_num [roundDouble_zero]
  have h6 : dAdd 0 0 = 0 := by
    unfold dAdd
    norm_num [roundDouble_zero]
  have h7 : dSub (2476979795053773 / 281474976710656) 0 = 2476979795053773 / 281474976710656 := by
    unfold dSub
    exact roundDouble_eq _ (3) (4953959590107546) _ (by norm_num) (by norm_num) (by norm_num)
      (by norm_num) (by norm_num)
  have h8 : dMul (2476979795053773 / 281474976710656) 100 = 7740561859543041 / 8796093022208 := by
    unfold dMul
    exact roundDouble_eq _ (9) (7740561859543041) _ (by norm_num) (by norm_num) (by norm_num)
      (by norm_num) (by norm_num)
  have h9 : dDiv (7740561859543041 / 8796093022208) 80 = 6192449487634433 / 562949953421312 := by
    unfold dDiv
    exact roundDouble_eq _ (3) (6192449487634433) _ (by norm_num) (by norm_num) (by norm_num)
      (by norm_num) (by norm_num)
  have h10 : dSub 0 0 = 0 := by
    unfold dSub
    norm_num [roundDouble_zero]
  have h11 : dMul 0 100 = 0 := by
    unfold dMul
    norm_num [roundDouble_zero]
  have h12 : dDiv 0 80 = 0 := by
    unfold dDiv
    norm_num [roundDouble_zero]
  have a1 : markerClientPosDouble zoomedOutGlobals 11 0 = (2476979795053773 / 281474976710656, 0) := by
    simp only [markerClientPosDouble, zoomedOutGlobals, sampleGlobals, h1, h2, h3, h4, h5, h6, h7, h8, h9, h10, h11, h12]
  have a2 : (clientPosToCoordinatesDouble zoomedOutGlobals
      (markerClientPosDouble zoomedOutGlobals 11 0).1
      (markerClientPosDouble zoomedOutGlobals 11 0).2).x
      = 6192449487634433 / 562949953421312 := by
    rw [a1]
    simp only [clientPosToCoordinatesDouble, zoomedOutGlobals, sampleGlobals, h1, h2, h3, h4, h5, h6, h7, h8, h9, h10, h11, h12]
  refine ⟨a1, a2, ?_⟩
  rw [a2]
  norm_num

/-- C16 (as stated, refuted). In the double arithmetic of JavaScript the corner of a
cell can fall into the neighbouring cell: for tiles of 100 pixels at zoom level 30 seen at
global zoom 10 with the origin at (100, 0), the corner of the cell `(0, 1)` is at
133.33333333333331 and `getCellAt` returns the cell `(0, 0)` there. -/
theorem getCellAt_corner_misses_in_doubles :
    renderedThirdScaleTile._renderArea
      = some (thirdScaleTile.computeRenderAreaDouble thirdScaleGlobals)
    ∧ (thirdScaleTile.computeRenderAreaDouble thirdScaleGlobals).firstRow = 0
    ∧ (thirdScaleTile.computeRenderAreaDouble thirdScaleGlobals).firstCol = 0
    ∧ (thirdScaleTile.computeRenderAreaDouble thirdScaleGlobals).posX = 100
    ∧ (thirdScaleTile.computeRenderAreaDouble thirdScaleGlobals).posY = 0
    ∧ renderedThirdScaleTile.getScaledTileWidthDouble thirdScaleGlobals
        = 2345624805922133 / 70368744177664
    ∧ ((0 : Int) < renderedThirdScaleTile.numRows ∧ (1 : Int) < renderedThirdScaleTile.numCols)
    ∧ renderedThirdScaleTile.cellCornerDouble thirdScaleGlobals
        (thirdScaleTile.computeRenderAreaDouble thirdScaleGlobals) 0 1
        = (2345624805922133 / 17592186044416, 0)
    ∧ renderedThirdScaleTile.getCellAtDouble thirdScaleGlobals
        (renderedThirdScaleTile.cellCornerDouble thirdScaleGlobals
          (thirdScaleTile.computeRenderAreaDouble thirdScaleGlobals) 0 1).1
        (renderedThirdScaleTile.cellCornerDouble thirdScaleGlobals
          (thirdScaleTile.computeRenderAreaDouble thirdScaleGlobals) 0 1).2
        = some { row := 0, col := 0 } := by
  have h1 : dDiv 10 30 = 6004799503160661 / 18014398509481984 := by
    unfold dDiv
    exact roundDouble_eq _ (-2) (6004799503160661) _ (by norm_num) (by norm_num) (by norm_num)
      (by norm_num) (by norm_num)
  have h2 : dMul 100 (6004799503160661 / 18014398509481984) = 2345624805922133 / 70368744177664 := by
    unfold dMul
    exact roundDouble_eq _ (5) (4691249611844266) _ (by norm_num) (by norm_num) (by norm_num)
      (by norm_num) (by norm_num)
  have h3 : dMul 0 (6004799503160661 / 18014398509481984) = 0 := by
    unfold dMul
    norm_num [roundDouble_zero]
  have h4 : dAdd 100 0 = 100 := by
    unfold dAdd
    exact roundDouble_eq _ (6) (7036874417766400) _ (by norm_num) (by norm_num) (by norm_num)
      (by norm_num) (by norm_num)
  have h5 : dMul (2345624805922133 / 70368744177664) 0 = 0 := by
    unfold dMul
    norm_num [roundDouble_zero]
  have h6 : dSub 100 0 = 100 := by
    unfold dSub
    exact roundDouble_eq _ (6) (7036874417766400) _ (by norm_num) (by norm_num) (by norm_num)
      (by norm_num) (by norm_num)
  have h7 : dAdd 0 0 = 0 := by
    unfold dAdd
    norm_num [roundDouble_zero]
  have h8 : dSub 0 0 = 0 := by
    unfold dSub
    norm_num [roundDouble_zero]
  have h9 : dMul 0 (2345624805922133 / 70368744177664) = 0 := by
    unfold dMul
    norm_num [roundDouble_zero]
  have h10 : dAdd 0 100 = 100 := by
    unfold dAdd
    exact roundDouble_eq _ (6) (7036874417766400) _ (by norm_num) (by norm_num) (by norm_num)
      (by norm_num) (by norm_num)
  have h11 : dMul 1 (2345624805922133 / 70368744177664) = 2345624805922133 / 70368744177664 := by
    unfold dMul
    exact roundDouble_eq _ (5) (4691249611844266) _ (by norm_num) (by norm_num) (by norm_num)
      (by norm_num) (by norm_num)
  have h12 : dAdd 100 (2345624805922133 / 70368744177664) = 2345624805922133 / 17592186044416 := by
    unfold dAdd
    exact roundDouble_tie _ (7) (4691249611844266) (4691249611844266) _ (by norm_num) (by norm_num) (by norm_num)
      (by norm_num) (by norm_num)
  have h13 : dSub (2345624805922133 / 17592186044416) 0 = 2345624805922133 / 17592186044416 := by
    unfold dSub
    exact roundDouble_eq _ (7) (4691249611844266) _ (by norm_num) (by norm_num) (by norm_num)
      (by norm_num) (by norm_num)
  have h14 : dSub (2345624805922133 / 17592186044416) 100 = 586406201480533 / 17592186044416 := by
    unfold dSub
    exact roundDouble_eq _ (5) (4691249611844264) _ (by norm_num) (by norm_num) (by norm_num)
      (by norm_num) (by norm_num)
  have h15 : dDiv (586406201480533 / 17592186044416) (2345624805922133 / 70368744177664) = 2251799813685247 / 2251799813685248 := by
    unfold dDiv
    exact roundDouble_eq _ (-1) (9007199254740988) _ (by norm_num) (by norm_num) (by norm_num)
      (by norm_num) (by norm_num)
  have h16 : dDiv 0 (2345624805922133 / 70368744177664) = 0 := by
    unfold dDiv
    norm_num [roundDouble_zero]
  have f1 : ⌊(2251799813685247 / 2251799813685248 : ℚ)⌋ = 0 := by
    rw [Int.floor_eq_iff]
    norm_num
  have b1 : (thirdScaleTile.computeRenderAreaDouble thirdScaleGlobals).firstRow = 0 := by
    norm_num [computeRenderAreaDouble, getScaledTileWidthDouble, getScaledTileHeightDouble,
      getDisplayScaleDouble, thirdScaleTile, thirdScaleGlobals, sampleGlobals, Tileset.default,
      h1, h2, h3, h4, h5, h6, h7, h8, h9, h10, h11, h12, h13, h14, h15, h16]
  have b2 : (thirdScaleTile.computeRenderAreaDouble thirdScaleGlobals).firstCol = 0 := by
    norm_num [computeRenderAreaDouble, getScaledTileWidthDouble, getScaledTileHeightDouble,
      getDisplayScaleDouble, thirdScaleTile, thirdScaleGlobals, sampleGlobals, Tileset.default,
      h1, h2, h3, h4, h5, h6, h7, h8, h9, h10, h11, h12, h13, h14, h15, h16]
  have b3 : (thirdScaleTile.computeRenderAreaDouble thirdScaleGlobals).posX = 100 := by
    norm_num [computeRenderAreaDouble, getScaledTileWidthDouble, getScaledTileHeightDouble,
      getDisplayScaleDouble, thirdScaleTile, thirdScaleGlobals, sampleGlobals, Tileset.default,
      h1, h2, h3, h4, h5, h6, h7, h8, h9, h10, h11, h12, h13, h14, h15, h16]
  have b4 : (thirdScaleTile.computeRenderAreaDouble thirdScaleGlobals).posY = 0 := by
    norm_num [computeRenderAreaDouble, getScaledTileWidthDouble, getScaledTileHeightDouble,
      getDisplayScaleDouble, thirdScaleTile, thirdScaleGlobals, sampleGlobals, Tileset.default,
      h1, h2, h3, h4, h5, h6, h7, h8, h9, h10, h11, h12, h13, h14, h15, h16]
  have b5 : renderedThirdScaleTile.getScaledTileWidthDouble thirdScaleGlobals
      = 2345624805922133 / 70368744177664 := by
    norm_num [getScaledTileWidthDouble, getDisplayScaleDouble, renderedThirdScaleTile,
      thirdScaleTile, thirdScaleGlobals, sampleGlobals, Tileset.default, h1, h2, h3, h4, h5, h6, h7, h8, h9, h10, h11, h12, h13, h14, h15, h16]
  have b6 : renderedThirdScaleTile.getScaledTileHeightDouble thirdScaleGlobals
      = 2345624805922133 / 70368744177664 := by
    norm_num [getScaledTileHeightDouble, getDisplayScaleDouble, renderedThirdScaleTile,
      thirdScaleTile, thirdScaleGlobals, sampleGlobals, Tileset.default, h1, h2, h3, h4, h5, h6, h7, h8, h9, h10, h11, h12, h13, h14, h15, h16]
  have b7 : renderedThirdScaleTile.cellCornerDouble thirdScaleGlobals
      (thirdScaleTile.computeRenderAreaDouble thirdScaleGlobals) 0 1
      = (2345624805922133 / 17592186044416, 0) := by
    unfold cellCornerDouble
    rw [b1, b2, b3, b4, b5, b6]
    norm_num [thirdScaleGlobals, sampleGlobals, h1, h2, h3, h4, h5, h6, h7, h8, h9, h10, h11, h12, h13, h14, h15, h16]
  refine ⟨rfl, b1, b2, b3, b4, b5, by decide, b7, ?_⟩
  rw [b7]
  unfold getCellAtDouble
  have hra : renderedThirdScaleTile._renderArea
      = some (thirdScaleTile.computeRenderAreaDouble thirdScaleGlobals) := rfl
  rw [hra]
  dsimp only
  rw [b1, b2, b3, b4, b5, b6]
  norm_num [thirdScaleGlobals, sampleGlobals, h1, h2, h3, h4, h5, h6, h7, h8, h9, h10, h11, h12, h13, h14, h15, h16, f1]

end Cartographer
